import Mathlib

/-!
# Glyph atlas of libpag: packer, atlas pages, keys and the TextAtlas facade

A shallow embedding of `src/rendering/caches/TextAtlas.cpp`,
`src/rendering/graphics/SimpleGlyph.cpp`, `src/rendering/graphics/Glyph.cpp`,
`src/rendering/graphics/Text.cpp` and
`tgfx/src/core/vectors/coregraphics/CGTypefaceCache.cpp`.

Conventions of the embedding:
* C++ `int` is `Int`; the packer's arithmetic is taken without overflow (signed
  overflow is undefined in C++).
* A `float` that is only used in arithmetic (glyph bounds, the atlas scale) is the
  rational number it denotes; rounding of results is not modelled.
* A `float` whose bit pattern is written into a `BytesKey` (stroke width, font size)
  is kept as its IEEE-754 binary32 bit pattern, see `F32`.
-/

namespace pag

/-! ## RectanglePack (TextAtlas.cpp, lines 113-162) -/

/-- The value of `RectanglePack::Padding`. -/
def Padding : Int := 1

/-- The four private fields of `RectanglePack`: `_width`, `_height`, `x`, `y`. -/
structure RectanglePack where
  width : Int
  height : Int
  x : Int
  y : Int
deriving DecidableEq, Repr

/-- The state of a default-constructed packer, which is also the state after `reset()`. -/
def RectanglePack.reset : RectanglePack :=
  { width := Padding, height := Padding, x := Padding, y := Padding }

/-- The method `RectanglePack::addRect(w, h)`: the new packer state and the returned point. -/
def RectanglePack.addRect (p : RectanglePack) (w0 h0 : Int) : RectanglePack × (Int × Int) :=
  let w := w0 + Padding
  let h := h0 + Padding
  let area := (p.width - p.x) * (p.height - p.y)
  let p1 : RectanglePack :=
    if (p.x + w - p.width) * p.y > area ∨ (p.y + h - p.height) * p.x > area then
      if p.width ≤ p.height then
        { width := p.width + w, height := p.height, x := p.width, y := Padding }
      else
        { width := p.width, height := p.height + h, x := Padding, y := p.height }
    else p
  let point := (p1.x, p1.y)
  if p1.x + w - p1.width < p1.y + h - p1.height then
    ({ p1 with x := p1.x + w, height := max p1.height (p1.y + h) }, point)
  else
    ({ p1 with y := p1.y + h, width := max p1.width (p1.x + w) }, point)

/-- A placed rectangle: the returned point together with the requested size. -/
structure Placed where
  px : Int
  py : Int
  w : Int
  h : Int
deriving DecidableEq, Repr

/-- The half-open rectangles `[px, px + w) x [py, py + h)` of `a` and `b` share a pixel. -/
def Placed.overlaps (a b : Placed) : Prop :=
  a.px < b.px + b.w ∧ b.px < a.px + a.w ∧ a.py < b.py + b.h ∧ b.py < a.py + a.h

instance (a b : Placed) : Decidable (a.overlaps b) := by
  unfold Placed.overlaps; infer_instance

/-- A sequence of `addRect` calls on the packer `p`, collecting the rectangles placed. -/
def RectanglePack.addRects : RectanglePack → List (Int × Int) → RectanglePack × List Placed
  | p, [] => (p, [])
  | p, (w, h) :: rest =>
    let r := p.addRect w h
    let r2 := RectanglePack.addRects r.1 rest
    (r2.1, { px := r.2.1, py := r.2.2, w := w, h := h } :: r2.2)

/-! ## Floats, keys and the glyph data model -/

/-- The IEEE-754 binary32 bit pattern of a `float` (a 32-bit word). -/
structure F32 where
  bits : Nat
deriving DecidableEq, Repr

/-- The `float` constant `0`, whose bit pattern is the zero word. -/
def F32.zero : F32 := ⟨0⟩

/-- The rational value of a finite binary32 bit pattern: sign bit 31, exponent bits 23 to 30,
mantissa bits 0 to 22. Infinities and NaN (exponent 255) have no rational value; they are sent
to `0` here and no result below is about them. -/
def F32.toRat (f : F32) : ℚ :=
  let s : Nat := f.bits / 2 ^ 31 % 2
  let e : Nat := f.bits / 2 ^ 23 % 256
  let m : Nat := f.bits % 2 ^ 23
  let mag : ℚ :=
    if e = 0 then (m : ℚ) / ((2 ^ 149 : Nat) : ℚ)
    else if e = 255 then 0
    else if 150 ≤ e then (((2 ^ 23 + m) * 2 ^ (e - 150) : Nat) : ℚ)
    else ((2 ^ 23 + m : Nat) : ℚ) / ((2 ^ (150 - e) : Nat) : ℚ)
  if s = 1 then -mag else mag

/-- The C++ conversion `static_cast<int>(float)`: truncation toward zero. -/
def truncToInt (q : ℚ) : Int :=
  if 0 ≤ q then ⌊q⌋ else ⌈q⌉

/-- Modelled from the spec: `BytesKey` (tgfx `core/utils/BytesKey.h`, not among the sources), a
sequence of 32-bit words compared word for word. -/
abbrev BytesKey := List Nat

/-- Modelled from the spec: `BytesKey::write(uint32_t)` appends the word. -/
def BytesKey.write (key : BytesKey) (v : Nat) : BytesKey := key ++ [v]

/-- Modelled from the spec: `BytesKey::write(float)` appends the IEEE-754 bit pattern. -/
def BytesKey.writeFloat (key : BytesKey) (f : F32) : BytesKey := key ++ [f.bits]

/-- The enumeration `PaintStyle` of `gpu/Paint.h`. -/
inductive PaintStyle where
  | Fill
  | Stroke
deriving DecidableEq, Repr

/-- The conversion `static_cast<uint32_t>(style)`. -/
def PaintStyle.toU32 : PaintStyle → Nat
  | .Fill => 0
  | .Stroke => 1

/-- The enumeration `TextStyle` (Glyph.h, line 31). -/
inductive TextStyle where
  | Fill
  | Stroke
  | StrokeAndFill
deriving DecidableEq, Repr

/-- The type `GlyphID`, a `uint16_t`. -/
abbrev GlyphID := Fin 65536

/-- What the atlas reads of a `Typeface`: `uniqueID()` and `hasColor()`. -/
structure Typeface where
  uniqueID : Nat
  hasColor : Bool
deriving DecidableEq, Repr

/-- What the atlas reads of a `Font`: typeface, size and the two synthesis flags. -/
structure Font where
  typeface : Typeface
  size : F32
  fauxBold : Bool
  fauxItalic : Bool
deriving DecidableEq, Repr

/-- A `Rect` with its four `float` edges. -/
structure Rect where
  left : ℚ
  top : ℚ
  right : ℚ
  bottom : ℚ
deriving DecidableEq, Repr

/-- The accessor `Rect::x()`. -/
def Rect.x (r : Rect) : ℚ := r.left

/-- The accessor `Rect::y()`. -/
def Rect.y (r : Rect) : ℚ := r.top

/-- The accessor `Rect::width()`. -/
def Rect.width (r : Rect) : ℚ := r.right - r.left

/-- The accessor `Rect::height()`. -/
def Rect.height (r : Rect) : ℚ := r.bottom - r.top

/-- The factory `Rect::MakeXYWH(x, y, w, h)`. -/
def Rect.MakeXYWH (x y w h : ℚ) : Rect :=
  { left := x, top := y, right := x + w, bottom := y + h }

/-- The method `Rect::scale(scaleX, scaleY)`. -/
def Rect.scale (r : Rect) (scaleX scaleY : ℚ) : Rect :=
  { left := r.left * scaleX, top := r.top * scaleY,
    right := r.right * scaleX, bottom := r.bottom * scaleY }

/-- A `SimpleGlyph` (SimpleGlyph.h): glyph id, utf8 name and font; `bounds` is the rectangle
`_font.getGlyphBounds(_glyphId)` that `getBounds()` memoises and returns. -/
structure SimpleGlyph where
  glyphId : GlyphID
  name : String
  font : Font
  bounds : Rect
deriving DecidableEq, Repr

/-- The word `flags` of `SimpleGlyph::computeAtlasKey` (lines 32-38) as a function of the glyph
id and the two synthesis flags. -/
def glyphFlags (glyphId : Nat) (fauxBold fauxItalic : Bool) : Nat :=
  let flags := glyphId
  let flags := if fauxBold then flags ||| (1 <<< 16) else flags
  if fauxItalic then flags ||| (1 <<< 17) else flags

/-- The method `SimpleGlyph::computeAtlasKey` (SimpleGlyph.cpp, lines 31-41). -/
def SimpleGlyph.computeAtlasKey (g : SimpleGlyph) (bytesKey : BytesKey) : BytesKey :=
  let flags : Nat := g.glyphId.val
  let flags := if g.font.fauxBold then flags ||| (1 <<< 16) else flags
  let flags := if g.font.fauxItalic then flags ||| (1 <<< 17) else flags
  (bytesKey.write flags).write g.font.typeface.uniqueID

/-- The class `AtlasGlyph` (TextAtlas.cpp, lines 33-70). -/
structure AtlasGlyph where
  glyph : SimpleGlyph
  strokeWidth : F32
  style : PaintStyle
deriving DecidableEq, Repr

/-- The constructor `AtlasGlyph(glyph)`: style `Fill`, stroke width `0`. -/
def AtlasGlyph.fill (glyph : SimpleGlyph) : AtlasGlyph :=
  { glyph := glyph, strokeWidth := F32.zero, style := PaintStyle.Fill }

/-- The constructor `AtlasGlyph(glyph, strokeWidth)`: style `Stroke`. -/
def AtlasGlyph.stroke (glyph : SimpleGlyph) (strokeWidth : F32) : AtlasGlyph :=
  { glyph := glyph, strokeWidth := strokeWidth, style := PaintStyle.Stroke }

/-- The accessor `AtlasGlyph::glyphId()`. -/
def AtlasGlyph.glyphId (a : AtlasGlyph) : GlyphID := a.glyph.glyphId

/-- The accessor `AtlasGlyph::bounds()`. -/
def AtlasGlyph.bounds (a : AtlasGlyph) : Rect := a.glyph.bounds

/-- The accessor `AtlasGlyph::font()`. -/
def AtlasGlyph.font (a : AtlasGlyph) : Font := a.glyph.font

/-- The method `AtlasGlyph::computeStyleKey` (TextAtlas.cpp, lines 72-77). -/
def AtlasGlyph.computeStyleKey (a : AtlasGlyph) (styleKey : BytesKey) : BytesKey :=
  (((styleKey.write a.style.toU32).writeFloat a.strokeWidth).write
    a.font.typeface.uniqueID).writeFloat a.font.size

/-- The method `AtlasGlyph::computeAtlasKey` (TextAtlas.cpp, lines 79-83). -/
def AtlasGlyph.computeAtlasKey (a : AtlasGlyph) (bytesKey : BytesKey) : BytesKey :=
  ((a.glyph.computeAtlasKey bytesKey).write a.style.toU32).writeFloat a.strokeWidth

/-! ## Atlas pages (TextAtlas.cpp, lines 26-31 and 85-246) -/

/-- A `Point` with `float` coordinates. -/
structure Point where
  x : ℚ
  y : ℚ
deriving DecidableEq, Repr

/-- What `CreateTextRun` sets of a `Paint`: style and stroke width. A default-constructed
paint has style `Fill` and stroke width `0`. -/
structure Paint where
  style : PaintStyle := PaintStyle.Fill
  strokeWidth : F32 := F32.zero
deriving DecidableEq, Repr

/-- The struct `TextRun` (TextAtlas.cpp, lines 26-31). -/
structure TextRun where
  paint : Paint
  textFont : Font
  glyphIDs : List GlyphID
  positions : List Point
deriving DecidableEq, Repr

/-- The struct `AtlasLocator` (TextAtlas.h, lines 32-35). -/
structure AtlasLocator where
  pageIndex : Nat
  location : Rect
deriving DecidableEq, Repr

/-- The struct `Atlas::Page` without its texture. `packWidth` and `packHeight` are ghost
fields: the packer extent, before scaling, from which `width` and `height` were computed. -/
structure Page where
  textRuns : List TextRun := []
  width : Int := 0
  height : Int := 0
  packWidth : Int := 0
  packHeight : Int := 0
deriving DecidableEq, Repr

/-- The function `CreateTextRun` (TextAtlas.cpp, lines 176-184). -/
def CreateTextRun (glyph : AtlasGlyph) : TextRun :=
  let paint : Paint := { style := glyph.style }
  let paint := if glyph.style = PaintStyle.Stroke then
    { paint with strokeWidth := glyph.strokeWidth } else paint
  { paint := paint, textFont := glyph.font, glyphIDs := [], positions := [] }

/-- The local `styleMap` of `initPages`: an association list in insertion order. -/
abbrev StyleMap := List (BytesKey × List AtlasGlyph)

/-- The lookup `styleMap[key]` of an existing key (the empty list when `key` is absent). -/
def StyleMap.get (m : StyleMap) (key : BytesKey) : List AtlasGlyph :=
  match m.find? (fun e => e.1 == key) with
  | some e => e.2
  | none => []

/-- The statement `styleMap[styleKey].push_back(glyph)`, which creates the entry when the key
is new. -/
def StyleMap.push : StyleMap → BytesKey → AtlasGlyph → StyleMap
  | [], key, glyph => [(key, [glyph])]
  | e :: rest, key, glyph =>
    if e.1 = key then (e.1, e.2 ++ [glyph]) :: rest
    else e :: StyleMap.push rest key glyph

/-- The body of the first loop of `initPages` (lines 189-197). -/
def groupStep (acc : List BytesKey × StyleMap) (glyph : AtlasGlyph) : List BytesKey × StyleMap :=
  let styleKey := glyph.computeStyleKey []
  let size := acc.2.length
  let styleMap := StyleMap.push acc.2 styleKey glyph
  if styleMap.length ≠ size then (acc.1 ++ [styleKey], styleMap) else (acc.1, styleMap)

/-- The first loop of `initPages`: the style keys in order of first occurrence and the map
from style key to the glyphs of that style. -/
def groupByStyle (glyphs : List AtlasGlyph) : List BytesKey × StyleMap :=
  glyphs.foldl groupStep ([], [])

/-- The member `glyphLocators` of `Atlas`: an association list with at most one entry per
key. -/
abbrev LocatorMap := List (BytesKey × AtlasLocator)

/-- The assignment `glyphLocators[bytesKey] = locator`: overwrite or insert. -/
def LocatorMap.set : LocatorMap → BytesKey → AtlasLocator → LocatorMap
  | [], key, locator => [(key, locator)]
  | e :: rest, key, locator =>
    if e.1 = key then (key, locator) :: rest
    else e :: LocatorMap.set rest key locator

/-- The lookup `glyphLocators.find(bytesKey)`. -/
def LocatorMap.find (m : LocatorMap) (key : BytesKey) : Option AtlasLocator :=
  (m.find? (fun e => e.1 == key)).map Prod.snd

/-- The mutable state of the second loop of `initPages`: the locals `pack`, `page`,
`pageIndex` and the members `pages` and `glyphLocators`. -/
structure PagesState where
  pack : RectanglePack := RectanglePack.reset
  page : Page := {}
  pageIndex : Nat := 0
  pages : List Page := []
  glyphLocators : LocatorMap := []
deriving DecidableEq, Repr

/-- The expression `maxPageSize` of `initPages` (line 198). -/
def maxPageSize (maxTextureSize : Int) (scale : ℚ) : Int :=
  ⌊(maxTextureSize : ℚ) / scale⌋

/-- The integer stroke inset of a glyph (lines 208-211). -/
def strokeInset (glyph : AtlasGlyph) : Int :=
  if glyph.style = PaintStyle.Stroke then ⌈glyph.strokeWidth.toRat⌉ else 0

/-- The integer width handed to the packer (lines 206 and 214). -/
def packedWidth (glyph : AtlasGlyph) : Int :=
  truncToInt glyph.bounds.width + strokeInset glyph * 2

/-- The integer height handed to the packer (lines 207 and 215). -/
def packedHeight (glyph : AtlasGlyph) : Int :=
  truncToInt glyph.bounds.height + strokeInset glyph * 2

/-- The body of the inner loop of `initPages` (lines 206-239) for one glyph of the group whose
first glyph is `firstGlyph`; the second component of the state is the local `textRun` of the
outer loop. -/
def packGlyph (scale : ℚ) (maxPageSize : Int) (firstGlyph : AtlasGlyph)
    (acc : PagesState × TextRun) (glyph : AtlasGlyph) : PagesState × TextRun :=
  let st := acc.1
  let strokeWidth := strokeInset glyph
  let x := glyph.bounds.x - (strokeWidth : ℚ)
  let y := glyph.bounds.y - (strokeWidth : ℚ)
  let width := packedWidth glyph
  let height := packedHeight glyph
  let packWidth := st.pack.width
  let packHeight := st.pack.height
  let r := st.pack.addRect width height
  let split : Bool := decide (r.1.width > maxPageSize ∨ r.1.height > maxPageSize)
  let closed : Page :=
    { textRuns := st.page.textRuns ++ [acc.2],
      width := ⌈(packWidth : ℚ) * scale⌉, height := ⌈(packHeight : ℚ) * scale⌉,
      packWidth := packWidth, packHeight := packHeight }
  let r2 := if split then RectanglePack.reset.addRect width height else r
  let textRun := if split then CreateTextRun firstGlyph else acc.2
  let pageIndex := if split then st.pageIndex + 1 else st.pageIndex
  let point : Point := { x := (r2.2.1 : ℚ), y := (r2.2.2 : ℚ) }
  let locator : AtlasLocator :=
    { pageIndex := pageIndex,
      location := (Rect.MakeXYWH point.x point.y (width : ℚ) (height : ℚ)).scale scale scale }
  ({ pack := r2.1
     page := if split then {} else st.page
     pageIndex := pageIndex
     pages := if split then st.pages ++ [closed] else st.pages
     glyphLocators := st.glyphLocators.set (glyph.computeAtlasKey []) locator },
   { textRun with glyphIDs := textRun.glyphIDs ++ [glyph.glyphId],
                  positions := textRun.positions ++ [⟨-x + point.x, -y + point.y⟩] })

/-- The body of the outer loop of `initPages` (lines 203-241) for the style group `group`. -/
def packGroup (scale : ℚ) (maxPageSize : Int) (st : PagesState) (group : List AtlasGlyph) :
    PagesState :=
  match group with
  | [] => st
  | firstGlyph :: _ =>
    let r := group.foldl (packGlyph scale maxPageSize firstGlyph) (st, CreateTextRun firstGlyph)
    { r.1 with page := { r.1.page with textRuns := r.1.page.textRuns ++ [r.2] } }

/-- The class `Atlas` without its textures. `scale` is a ghost field: the `scale` argument
with which `Atlas::Make` built the pages and `Atlas::draw` rasterised them. -/
structure Atlas where
  pages : List Page
  glyphLocators : LocatorMap
  scale : ℚ
deriving DecidableEq, Repr

/-- The method `Atlas::initPages` (TextAtlas.cpp, lines 186-246). -/
def Atlas.initPages (glyphs : List AtlasGlyph) (scale : ℚ) (maxTextureSize : Int) : Atlas :=
  let grouped := groupByStyle glyphs
  let styleKeys := grouped.1
  let styleMap := grouped.2
  let maxPageSize := maxPageSize maxTextureSize scale
  let st := styleKeys.foldl
    (fun st key => packGroup scale maxPageSize st (styleMap.get key)) ({} : PagesState)
  let last : Page :=
    { st.page with
      width := ⌈(st.pack.width : ℚ) * scale⌉, height := ⌈(st.pack.height : ℚ) * scale⌉,
      packWidth := st.pack.width, packHeight := st.pack.height }
  { pages := st.pages ++ [last], glyphLocators := st.glyphLocators, scale := scale }

/-- The factory `Atlas::Make` (TextAtlas.cpp, lines 164-174): no atlas for an empty list. -/
def Atlas.Make (scale : ℚ) (glyphs : List AtlasGlyph) (maxTextureSize : Int) : Option Atlas :=
  if glyphs.isEmpty then none else some (Atlas.initPages glyphs scale maxTextureSize)

/-! ## Display glyphs and glyph documents (Glyph.h, Glyph.cpp, Text.cpp) -/

/-- The fields of `TextPaint` (Glyph.h, lines 36-48) that the atlas and the lookup read. -/
structure TextPaint where
  style : TextStyle := TextStyle.Fill
  strokeWidth : F32 := F32.zero
  strokeOverFill : Bool := true
  isVertical : Bool := false
deriving DecidableEq, Repr

/-- The struct `GlyphDocument` (Glyph.h, lines 54-57). -/
structure GlyphDocument where
  glyphs : List SimpleGlyph
  paint : TextPaint
deriving DecidableEq, Repr

/-- The fields of a display `Glyph` that the atlas lookup reads: the shared `SimpleGlyph` and
the writable text style, stroke order and stroke width. -/
structure Glyph where
  simpleGlyph : SimpleGlyph
  textStyle : TextStyle
  strokeOverFill : Bool
  strokeWidth : F32
deriving DecidableEq, Repr

/-- The constructor `Glyph::Glyph(simpleGlyph, textPaint)`, lines 32-39 of Glyph.cpp. -/
def Glyph.make (simpleGlyph : SimpleGlyph) (textPaint : TextPaint) : Glyph :=
  { simpleGlyph := simpleGlyph, textStyle := textPaint.style,
    strokeOverFill := textPaint.strokeOverFill, strokeWidth := textPaint.strokeWidth }

/-- The accessor `Glyph::getFont()`. -/
def Glyph.getFont (g : Glyph) : Font := g.simpleGlyph.font

/-- The method `Glyph::computeAtlasKey` (Glyph.cpp, lines 88-90). -/
def Glyph.computeAtlasKey (g : Glyph) (bytesKey : BytesKey) : BytesKey :=
  g.simpleGlyph.computeAtlasKey bytesKey

/-- The function `GetGlyphPaintStyles` (Text.cpp, lines 129-145). -/
def GetGlyphPaintStyles (glyph : Glyph) : List PaintStyle :=
  if glyph.textStyle = TextStyle.Fill then [PaintStyle.Fill]
  else if glyph.textStyle = TextStyle.Stroke then [PaintStyle.Stroke]
  else if glyph.strokeOverFill then [PaintStyle.Fill, PaintStyle.Stroke]
  else [PaintStyle.Stroke, PaintStyle.Fill]

/-- The function `ComputeAtlasKey` (TextAtlas.cpp, lines 270-274). -/
def ComputeAtlasKey (glyph : Glyph) (style : PaintStyle) (atlasKey : BytesKey) : BytesKey :=
  ((glyph.computeAtlasKey atlasKey).write style.toU32).writeFloat
    (if style = PaintStyle.Fill then F32.zero else glyph.strokeWidth)

/-- The method `Atlas::getLocator` (TextAtlas.cpp, lines 276-287): `none` stands for the
result `false`, `some locator` for `true` with the locator written. -/
def Atlas.getLocator (atlas : Atlas) (glyph : Glyph) (style : PaintStyle) : Option AtlasLocator :=
  atlas.glyphLocators.find (ComputeAtlasKey glyph style [])

/-! ## The TextAtlas facade (TextAtlas.cpp, lines 347-452) -/

/-- The comparator that `SortAtlasGlyphs` hands to `std::sort` (lines 351-357). -/
def atlasGlyphOrder (a b : AtlasGlyph) : Bool :=
  let aWidth := a.bounds.width
  let aHeight := a.bounds.height
  let bWidth := b.bounds.width
  let bHeight := b.bounds.height
  decide (aWidth * aHeight > bWidth * bHeight ∨ aWidth > bWidth ∨ aHeight > bHeight)

/-- The function `SortAtlasGlyphs` (lines 347-358); the library routine `std::sort` is the
parameter `stdSort`. -/
def SortAtlasGlyphs (stdSort : (AtlasGlyph → AtlasGlyph → Bool) → List AtlasGlyph → List AtlasGlyph)
    (glyphs : List AtlasGlyph) : List AtlasGlyph :=
  if glyphs.isEmpty then glyphs else stdSort atlasGlyphOrder glyphs

/-- The local `atlasKeys` and the members `maskGlyphs` and `colorGlyphs` during
`initAtlasGlyphs`. -/
structure GlyphLists where
  atlasKeys : List BytesKey := []
  maskGlyphs : List AtlasGlyph := []
  colorGlyphs : List AtlasGlyph := []
deriving DecidableEq, Repr

/-- The guarded `push_back` of `initAtlasGlyphs` (lines 376-381 and 386-391): the glyph is
appended to `colorGlyphs` or `maskGlyphs` unless its atlas key was seen. -/
def GlyphLists.pushIfNew (st : GlyphLists) (hasColor : Bool) (atlasGlyph : AtlasGlyph) :
    GlyphLists :=
  let atlasKey := atlasGlyph.computeAtlasKey []
  if atlasKey ∈ st.atlasKeys then st
  else if hasColor then
    { st with colorGlyphs := st.colorGlyphs ++ [atlasGlyph],
              atlasKeys := st.atlasKeys ++ [atlasKey] }
  else
    { st with maskGlyphs := st.maskGlyphs ++ [atlasGlyph],
              atlasKeys := st.atlasKeys ++ [atlasKey] }

/-- The body of the inner loop of `initAtlasGlyphs` (lines 371-392). -/
def initGlyphStep (paint : TextPaint) (st : GlyphLists) (glyph : SimpleGlyph) : GlyphLists :=
  let hasColor := glyph.font.typeface.hasColor
  let st1 :=
    if !hasColor then
      if paint.style = TextStyle.Stroke ∨ paint.style = TextStyle.StrokeAndFill then
        st.pushIfNew hasColor (AtlasGlyph.stroke glyph paint.strokeWidth)
      else st
    else st
  if paint.style = TextStyle.Fill ∨ paint.style = TextStyle.StrokeAndFill then
    st1.pushIfNew hasColor (AtlasGlyph.fill glyph)
  else st1

/-- The two loops of `initAtlasGlyphs` (lines 368-394) over the glyph documents, given in the
iteration order of the map `glyphs`, from the lists `st`. -/
def collectAtlasGlyphs (docs : List GlyphDocument) (st : GlyphLists) : GlyphLists :=
  docs.foldl (fun st doc => doc.glyphs.foldl (initGlyphStep doc.paint) st) st

/-- The state of a `TextAtlas` (TextAtlas.h, lines 66-72); `glyphs` lists the glyph documents
in the iteration order of the map. -/
structure TextAtlas where
  glyphs : List GlyphDocument
  scale : ℚ := 1
  maskGlyphs : List AtlasGlyph := []
  colorGlyphs : List AtlasGlyph := []
  maskAtlas : Option Atlas := none
  colorAtlas : Option Atlas := none
deriving DecidableEq, Repr

/-- The method `TextAtlas::initAtlasGlyphs` (lines 366-397). -/
def TextAtlas.initAtlasGlyphs
    (stdSort : (AtlasGlyph → AtlasGlyph → Bool) → List AtlasGlyph → List AtlasGlyph)
    (t : TextAtlas) : TextAtlas :=
  let st := collectAtlasGlyphs t.glyphs
    { atlasKeys := [], maskGlyphs := t.maskGlyphs, colorGlyphs := t.colorGlyphs }
  { t with maskGlyphs := SortAtlasGlyphs stdSort st.maskGlyphs,
           colorGlyphs := SortAtlasGlyphs stdSort st.colorGlyphs }

/-- The constructor `TextAtlas::TextAtlas` (lines 360-364). -/
def TextAtlas.new
    (stdSort : (AtlasGlyph → AtlasGlyph → Bool) → List AtlasGlyph → List AtlasGlyph)
    (glyphs : List GlyphDocument) : TextAtlas :=
  TextAtlas.initAtlasGlyphs stdSort { glyphs := glyphs }

/-- The accessor `TextAtlas::getScale()`. -/
def TextAtlas.getScale (t : TextAtlas) : ℚ := t.scale

/-- The method `TextAtlas::getLocator` (lines 410-415). -/
def TextAtlas.getLocator (t : TextAtlas) (glyph : Glyph) (style : PaintStyle) :
    Option AtlasLocator :=
  if glyph.getFont.typeface.hasColor then
    match t.colorAtlas with
    | some atlas => atlas.getLocator glyph style
    | none => none
  else
    match t.maskAtlas with
    | some atlas => atlas.getLocator glyph style
    | none => none

/-- The `float` constant `0.01f` of `generateIfNeeded`, bit pattern `0x3C23D70A`. -/
def scaleTolerance : ℚ := F32.toRat ⟨0x3C23D70A⟩

/-- The method `TextAtlas::generateIfNeeded` (lines 439-452); `scale` is the value of
`renderCache->getAssetMaxScale(assetID)` and `maxTextureSize` that of
`context->caps()->maxTextureSize`. -/
def TextAtlas.generateIfNeeded (t : TextAtlas) (scale : ℚ) (maxTextureSize : Int) : TextAtlas :=
  let scaleChanged : Bool := decide (|t.scale - scale| > scaleTolerance)
  let maskAtlas :=
    if t.maskAtlas = none ∨ scaleChanged then Atlas.Make scale t.maskGlyphs maxTextureSize
    else t.maskAtlas
  let colorAtlas :=
    if t.colorAtlas = none ∨ scaleChanged then Atlas.Make scale t.colorGlyphs maxTextureSize
    else t.colorAtlas
  { t with maskAtlas := maskAtlas, colorAtlas := colorAtlas, scale := scale }

/-- A sequence of `generateIfNeeded` calls, each with the scale and the texture limit that
the render cache and the context report at that call. -/
def TextAtlas.generateAll (t : TextAtlas) (calls : List (ℚ × Int)) : TextAtlas :=
  calls.foldl (fun t c => t.generateIfNeeded c.1 c.2) t

/-! ## CGTypefaceCache (CGTypefaceCache.cpp, lines 38-69) -/

/-- The constant `kTypefaceCacheCount`. -/
def kTypefaceCacheCount : Nat := 1024

/-- The loop of `CGTypefaceCache::purge` (lines 59-68) from the iterator position that has the
list `typefaces` ahead of it: the entries that stay. `unique t` is `iter->unique()`, whether the
cache holds the only reference to `t`; `numToPurge` is a `size_t`, so the decrement wraps
modulo `2 ^ 64`. -/
def purgeLoop {α : Type} (unique : α → Bool) : Nat → List α → List α
  | _, [] => []
  | numToPurge, t :: rest =>
    if unique t then
      if (numToPurge + (2 ^ 64 - 1)) % 2 ^ 64 = 0 then rest
      else purgeLoop unique ((numToPurge + (2 ^ 64 - 1)) % 2 ^ 64) rest
    else t :: purgeLoop unique numToPurge rest

/-- The method `CGTypefaceCache::purge` (lines 56-69) on the list `typefaces`. -/
def CGTypefaceCache.purge {α : Type} (unique : α → Bool) (typefaces : List α) : List α :=
  purgeLoop unique (kTypefaceCacheCount >>> 2) typefaces

/-- The method `CGTypefaceCache::add` (lines 39-44); `unique` tells which cached typefaces have
no outside reference at the time of the call. -/
def CGTypefaceCache.add {α : Type} (unique : α → Bool) (typefaces : List α) (typeface : α) :
    List α :=
  let typefaces :=
    if typefaces.length ≥ kTypefaceCacheCount then CGTypefaceCache.purge unique typefaces
    else typefaces
  typefaces ++ [typeface]

/-- A sequence of `add` calls, each with the pattern of outside references at that call. -/
def CGTypefaceCache.addAll {α : Type} (typefaces : List α) (calls : List ((α → Bool) × α)) :
    List α :=
  calls.foldl (fun l c => CGTypefaceCache.add c.1 l c.2) typefaces

/-! ## The lookup with its output parameter (TextAtlas.cpp, lines 276-287 and 410-415) -/

/-- The method `Atlas::getLocator` with its output parameter: `locator` is the `AtlasLocator`
that the pointer refers to before the call (`none` for a null pointer); the result is the
returned flag and the pointee after the call. -/
def Atlas.getLocatorInto (atlas : Atlas) (glyph : Glyph) (style : PaintStyle)
    (locator : Option AtlasLocator) : Bool × Option AtlasLocator :=
  let bytesKey := ComputeAtlasKey glyph style []
  match atlas.glyphLocators.find? (fun e => e.1 == bytesKey) with
  | none => (false, locator)
  | some e => (true, locator.map (fun _ => e.2))

/-- The method `TextAtlas::getLocator` with its output parameter. -/
def TextAtlas.getLocatorInto (t : TextAtlas) (glyph : Glyph) (style : PaintStyle)
    (locator : Option AtlasLocator) : Bool × Option AtlasLocator :=
  if glyph.getFont.typeface.hasColor then
    match t.colorAtlas with
    | some atlas => atlas.getLocatorInto glyph style locator
    | none => (false, locator)
  else
    match t.maskAtlas with
    | some atlas => atlas.getLocatorInto glyph style locator
    | none => (false, locator)

/-! ## GetSimpleGlyphs (SimpleGlyph.cpp, lines 43-80) -/

/-- The fields of a `TextDocument` that `GetSimpleGlyphs` reads. -/
structure TextDocument where
  text : String
  fontFamily : String
  fontStyle : String
  fontSize : F32
  fauxBold : Bool
  fauxItalic : Bool

/-- Modelled from the spec: the successive code-point names that `UTF8Text::NextChar`
(`base/utils/UTF8Text.h`, not among the sources) cuts out of a utf8 text, one per code point. -/
def codePointNames (text : String) : List String :=
  text.toList.map String.singleton

/-- What `GetSimpleGlyphs` asks of the font system: `FontManager::GetTypefaceWithoutFallback`,
`FontManager::GetFallbackTypeface` (the typeface it returns and the glyph id it writes),
`Typeface::getGlyphID`, `Font::getGlyphBounds`, and the typeface of a default-constructed
`Font`. -/
structure FontManager where
  GetTypefaceWithoutFallback : String → String → Option Typeface
  GetFallbackTypeface : String → Typeface × GlyphID
  getGlyphID : Typeface → String → GlyphID
  getGlyphBounds : Font → GlyphID → Rect
  defaultTypeface : Typeface

/-- A `std::shared_ptr<SimpleGlyph>`: the glyph together with the identity of the object,
which is the number of `make_shared` calls made before the one that created it. -/
structure SharedGlyph where
  object : Nat
  glyph : SimpleGlyph
deriving DecidableEq, Repr

/-- The locals `textFont`, `glyphMap` and `glyphList` of `GetSimpleGlyphs`. -/
structure GlyphLoop where
  textFont : Font
  glyphMap : List (String × SharedGlyph) := []
  glyphList : List SharedGlyph := []

/-- The body of the loop of `GetSimpleGlyphs` (lines 56-77) for the code-point name `name`;
`typeface` is the primary typeface (`none` when `hasTypeface` is false). -/
def simpleGlyphStep (fm : FontManager) (typeface : Option Typeface) (st : GlyphLoop)
    (name : String) : GlyphLoop :=
  match st.glyphMap.lookup name with
  | some glyph => { st with glyphList := st.glyphList ++ [glyph] }
  | none =>
    let glyphId : GlyphID := 0
    let r : GlyphID × Font :=
      match typeface with
      | some tf =>
        let glyphId := fm.getGlyphID tf name
        (glyphId, if glyphId ≠ 0 then { st.textFont with typeface := tf } else st.textFont)
      | none => (glyphId, st.textFont)
    let r : GlyphID × Font :=
      if r.1 = 0 then
        let fallback := fm.GetFallbackTypeface name
        (fallback.2, { r.2 with typeface := fallback.1 })
      else r
    let glyph : SharedGlyph :=
      { object := st.glyphMap.length,
        glyph := { glyphId := r.1, name := name, font := r.2,
                   bounds := fm.getGlyphBounds r.2 r.1 } }
    { textFont := r.2, glyphMap := (name, glyph) :: st.glyphMap,
      glyphList := st.glyphList ++ [glyph] }

/-- The function `GetSimpleGlyphs` with the identities of the objects it returns. -/
def GetSharedGlyphs (fm : FontManager) (textDocument : TextDocument) : List SharedGlyph :=
  let textFont : Font :=
    { typeface := fm.defaultTypeface, size := textDocument.fontSize,
      fauxBold := textDocument.fauxBold, fauxItalic := textDocument.fauxItalic }
  let typeface := fm.GetTypefaceWithoutFallback textDocument.fontFamily textDocument.fontStyle
  ((codePointNames textDocument.text).foldl (simpleGlyphStep fm typeface)
    { textFont := textFont }).glyphList

/-- The function `GetSimpleGlyphs` (SimpleGlyph.cpp, lines 43-80). -/
def GetSimpleGlyphs (fm : FontManager) (textDocument : TextDocument) : List SimpleGlyph :=
  (GetSharedGlyphs fm textDocument).map SharedGlyph.glyph

/-! ## The layout part of the display glyph (Glyph.cpp, lines 40-75) -/

/-- Modelled from the spec: the affine `Matrix` (tgfx `core/Matrix.h`, not among the sources),
which maps `(x, y)` to `(scaleX * x + skewX * y + transX, skewY * x + scaleY * y + transY)`. -/
structure Matrix where
  scaleX : ℚ
  skewX : ℚ
  transX : ℚ
  skewY : ℚ
  scaleY : ℚ
  transY : ℚ
deriving DecidableEq, Repr

/-- Modelled from the spec: the identity `Matrix::I()`. -/
def Matrix.I : Matrix :=
  { scaleX := 1, skewX := 0, transX := 0, skewY := 0, scaleY := 1, transY := 0 }

/-- Modelled from the spec: the result of `setRotate(90)`, the quarter turn taken exactly
(sine 1, cosine 0). -/
def Matrix.setRotate90 : Matrix :=
  { scaleX := 0, skewX := -1, transX := 0, skewY := 1, scaleY := 0, transY := 0 }

/-- Modelled from the spec: `Matrix::postTranslate(dx, dy)`. -/
def Matrix.postTranslate (m : Matrix) (dx dy : ℚ) : Matrix :=
  { m with transX := m.transX + dx, transY := m.transY + dy }

/-- Modelled from the spec: the image of the point `(x, y)` under the matrix. -/
def Matrix.mapXY (m : Matrix) (x y : ℚ) : Point :=
  { x := m.scaleX * x + m.skewX * y + m.transX, y := m.skewY * x + m.scaleY * y + m.transY }

/-- Modelled from the spec: `Matrix::mapRect`, the bounding box of the images of the four
corners. -/
def Matrix.mapRect (m : Matrix) (r : Rect) : Rect :=
  let p1 := m.mapXY r.left r.top
  let p2 := m.mapXY r.right r.top
  let p3 := m.mapXY r.right r.bottom
  let p4 := m.mapXY r.left r.bottom
  { left := min (min p1.x p2.x) (min p3.x p4.x), top := min (min p1.y p2.y) (min p3.y p4.y),
    right := max (max p1.x p2.x) (max p3.x p4.x),
    bottom := max (max p1.y p2.y) (max p3.y p4.y) }

/-- The fields of `FontMetrics` that the constructor of `Glyph` reads. -/
structure FontMetrics where
  ascent : ℚ
  descent : ℚ
  capHeight : ℚ
  xHeight : ℚ
deriving DecidableEq, Repr

/-- What the constructor of `Glyph` asks of a `Font`: `getMetrics`, `getGlyphAdvance` (with
its `verticalText` flag), `getGlyphID`, `getGlyphBounds` and `getGlyphVerticalOffset`. -/
structure FontQueries where
  getMetrics : Font → FontMetrics
  getGlyphAdvance : Font → GlyphID → Bool → ℚ
  getGlyphID : Font → String → GlyphID
  getGlyphBounds : Font → GlyphID → Rect
  getGlyphVerticalOffset : Font → GlyphID → Point

/-- The read-only layout attributes of a `Glyph` (Glyph.h, lines 235-241). -/
structure GlyphLayout where
  advance : ℚ
  ascent : ℚ
  descent : ℚ
  bounds : Rect
  extraMatrix : Matrix
deriving DecidableEq, Repr

/-- The constructor `Glyph::Glyph(simpleGlyph, textPaint)`, lines 40-75 of Glyph.cpp: the
layout attributes (lines 32-39 are `Glyph.make`). -/
def Glyph.layout (fq : FontQueries) (simpleGlyph : SimpleGlyph) (textPaint : TextPaint) :
    GlyphLayout :=
  let textFont := simpleGlyph.font
  let metrics := fq.getMetrics textFont
  let ascent := metrics.ascent
  let descent := metrics.descent
  let glyphId := simpleGlyph.glyphId
  let advance := fq.getGlyphAdvance textFont glyphId false
  let bounds := simpleGlyph.bounds
  let name := simpleGlyph.name
  let bounds :=
    if name = " " then
      let AGlyphID := fq.getGlyphID textFont "A"
      if AGlyphID > 0 then
        let ABounds := fq.getGlyphBounds textFont AGlyphID
        { bounds with top := ABounds.top, bottom := ABounds.bottom }
      else bounds
    else bounds
  let extraMatrix := Matrix.I
  if textPaint.isVertical then
    if name.utf8ByteSize = 1 then
      let extraMatrix := Matrix.setRotate90
      let offsetX := (metrics.capHeight + metrics.xHeight) * (1 / 4)
      let extraMatrix := extraMatrix.postTranslate (-offsetX) 0
      { advance := advance, ascent := ascent + offsetX, descent := descent + offsetX,
        bounds := extraMatrix.mapRect bounds, extraMatrix := extraMatrix }
    else
      let offset := fq.getGlyphVerticalOffset textFont glyphId
      let extraMatrix := extraMatrix.postTranslate offset.x offset.y
      let width := advance
      let advance := fq.getGlyphAdvance textFont glyphId true
      { advance := advance, ascent := -width * (1 / 2), descent := width * (1 / 2),
        bounds := extraMatrix.mapRect bounds, extraMatrix := extraMatrix }
  else
    { advance := advance, ascent := ascent, descent := descent, bounds := bounds,
      extraMatrix := extraMatrix }

/-- The method `RectanglePack::reset()` (lines 149-154) as an update of the packer `p`: each of
the four fields is assigned `Padding`. -/
def RectanglePack.resetFrom (p : RectanglePack) : RectanglePack :=
  { p with width := Padding, height := Padding, x := Padding, y := Padding }

/-! ## Drawing from the atlas (Text.cpp, lines 156-216; Glyph.cpp, lines 78-86) -/

/-- Modelled from the spec: `Matrix::postScale(sx, sy)`, the matrix followed by the scaling. -/
def Matrix.postScale (m : Matrix) (sx sy : ℚ) : Matrix :=
  { scaleX := m.scaleX * sx, skewX := m.skewX * sx, transX := m.transX * sx,
    skewY := m.skewY * sy, scaleY := m.scaleY * sy, transY := m.transY * sy }

/-- Modelled from the spec: `Matrix::postConcat(other)`, the matrix followed by `other`. -/
def Matrix.postConcat (m other : Matrix) : Matrix :=
  { scaleX := other.scaleX * m.scaleX + other.skewX * m.skewY
    skewX := other.scaleX * m.skewX + other.skewX * m.scaleY
    transX := other.scaleX * m.transX + other.skewX * m.transY + other.transX
    skewY := other.skewY * m.scaleX + other.scaleY * m.skewY
    scaleY := other.skewY * m.skewX + other.scaleY * m.scaleY
    transY := other.skewY * m.transX + other.scaleY * m.transY + other.transY }

/-- Modelled from the spec: `Matrix::invertible()`, a non-zero determinant. -/
def Matrix.invertible (m : Matrix) : Bool :=
  decide (m.scaleX * m.scaleY - m.skewX * m.skewY ≠ 0)

/-- Modelled from the spec: `Matrix::invert(inverse)`; `none` stands for the result `false`,
which leaves `inverse` untouched. -/
def Matrix.invert (m : Matrix) : Option Matrix :=
  let det := m.scaleX * m.scaleY - m.skewX * m.skewY
  if det = 0 then none
  else some
    { scaleX := m.scaleY / det, skewX := -m.skewX / det,
      transX := (m.skewX * m.transY - m.scaleY * m.transX) / det,
      skewY := -m.skewY / det, scaleY := m.scaleX / det,
      transY := (m.skewY * m.transX - m.scaleX * m.transY) / det }

/-- Modelled from the spec: `Rect::isEmpty()`, no positive width or no positive height. -/
def Rect.isEmpty (r : Rect) : Bool := !(decide (r.left < r.right) && decide (r.top < r.bottom))

/-- A `Color` as `Text::draw` uses it: three channels that are copied, never computed with. -/
structure Color where
  red : Nat
  green : Nat
  blue : Nat
deriving DecidableEq, Repr

/-- The constant `Black`. -/
def Black : Color := { red := 0, green := 0, blue := 0 }

/-- A display glyph as `Text::draw` reads it through its `GlyphHandle`: the fields that the
atlas lookup reads (`glyph`), the layout attributes that the constructor computed (`layout`),
and the writable matrix, alpha and colors with their default values (Glyph.h). -/
structure GlyphHandle where
  glyph : Glyph
  layout : GlyphLayout
  matrix : Matrix := Matrix.I
  alpha : ℚ := 1
  fillColor : Color := Black
  strokeColor : Color := Black
deriving DecidableEq, Repr

/-- The method `Glyph::isVisible` (Glyph.cpp, lines 78-80). -/
def GlyphHandle.isVisible (g : GlyphHandle) : Bool :=
  g.matrix.invertible && decide (g.alpha ≠ 0) && !g.layout.bounds.isEmpty

/-- The method `Glyph::getTotalMatrix` (Glyph.cpp, lines 82-86). -/
def GlyphHandle.getTotalMatrix (g : GlyphHandle) : Matrix :=
  g.layout.extraMatrix.postConcat g.matrix

/-- The texture of an atlas page. The pages of the model carry no texture, so the handle is
identified by its owner: the color or the mask atlas, and the index of the page. -/
structure Texture where
  color : Bool
  pageIndex : Nat
deriving DecidableEq, Repr

/-- The method `TextAtlas::getMaskAtlasTexture` (TextAtlas.cpp, lines 417-422); `none` is the
null handle. -/
def TextAtlas.getMaskAtlasTexture (t : TextAtlas) (pageIndex : Nat) : Option Texture :=
  match t.maskAtlas with
  | some atlas =>
    if atlas.pages.length > pageIndex then some { color := false, pageIndex := pageIndex }
    else none
  | none => none

/-- The method `TextAtlas::getColorAtlasTexture` (TextAtlas.cpp, lines 424-429). -/
def TextAtlas.getColorAtlasTexture (t : TextAtlas) (pageIndex : Nat) : Option Texture :=
  match t.colorAtlas with
  | some atlas =>
    if atlas.pages.length > pageIndex then some { color := true, pageIndex := pageIndex }
    else none
  | none => none

/-- One row of the parallel vectors `matrices`, `rects`, `colors`, `alphas` of `Parameters`,
which `Text::draw` always extends together. `glyph`, `style` and `locator` are ghost fields:
the glyph, the paint style and the locator from which the row was computed. -/
structure AtlasRow where
  matrix : Matrix
  rect : Rect
  color : Color
  alpha : ℚ
  glyph : GlyphHandle
  style : PaintStyle
  locator : AtlasLocator
deriving DecidableEq, Repr

/-- The struct `Parameters` (Text.cpp, lines 156-162). -/
structure Parameters where
  pageIndex : Nat := 0
  rows : List AtlasRow := []
deriving DecidableEq, Repr

/-- A call of `Canvas::drawAtlas` as `Draw` makes it: the texture, the rows (their number is
the count argument) and whether the colors are passed (they are replaced by a null pointer for
color glyphs). `pageIndex` is a ghost field: the page index of the parameters drawn. -/
structure DrawAtlasCall where
  texture : Option Texture
  rows : List AtlasRow
  colors : Bool
  pageIndex : Nat
deriving DecidableEq, Repr

/-- The function `Draw` (Text.cpp, lines 164-174), appending its `drawAtlas` call, if any, to
the calls made so far on the canvas. -/
def Draw (calls : List DrawAtlasCall) (atlas : TextAtlas) (parameters : Parameters)
    (colorGlyph : Bool) : List DrawAtlasCall :=
  if parameters.rows.isEmpty then calls
  else
    let atlasTexture :=
      if colorGlyph then atlas.getColorAtlasTexture parameters.pageIndex
      else atlas.getMaskAtlasTexture parameters.pageIndex
    calls ++ [{ texture := atlasTexture, rows := parameters.rows, colors := !colorGlyph,
                pageIndex := parameters.pageIndex }]

/-- The matrix that `Text::draw` builds for a glyph, a style and a locator before it appends
the glyph's total matrix (Text.cpp, lines 193-207). -/
def localMatrix (glyph : GlyphHandle) (style : PaintStyle) (locator : AtlasLocator) : Matrix :=
  let strokeWidth : ℚ := if style = PaintStyle.Stroke then glyph.glyph.strokeWidth.toRat else 0
  let glyphBounds := glyph.layout.bounds
  let invertedMatrix :=
    match glyph.layout.extraMatrix.invert with
    | some inverse => inverse
    | none => Matrix.I
  let originBounds := invertedMatrix.mapRect glyphBounds
  let matrix := Matrix.I
  let matrix := matrix.postScale
    ((originBounds.width + strokeWidth * 2) / locator.location.width)
    ((originBounds.height + strokeWidth * 2) / locator.location.height)
  matrix.postTranslate (originBounds.x - strokeWidth) (originBounds.y - strokeWidth)

/-- The row that `Text::draw` pushes for a glyph, a style and its locator (Text.cpp, lines
193-212). -/
def drawRow (glyph : GlyphHandle) (style : PaintStyle) (locator : AtlasLocator) : AtlasRow :=
  let color := if style = PaintStyle.Stroke then glyph.strokeColor else glyph.fillColor
  let matrix := (localMatrix glyph style locator).postConcat glyph.getTotalMatrix
  { matrix := matrix, rect := locator.location, color := color, alpha := glyph.alpha,
    glyph := glyph, style := style, locator := locator }

/-- The body of the inner loop of `Text::draw` (Text.cpp, lines 185-212) for one style; the
state is the local `parameters` and the `drawAtlas` calls made so far. -/
def drawStyle (atlas : TextAtlas) (colorGlyph : Bool) (glyph : GlyphHandle)
    (acc : Parameters × List DrawAtlasCall) (style : PaintStyle) :
    Parameters × List DrawAtlasCall :=
  match atlas.getLocator glyph.glyph style with
  | none => acc
  | some locator =>
    let acc1 : Parameters × List DrawAtlasCall :=
      if acc.1.pageIndex ≠ locator.pageIndex then
        ({ pageIndex := locator.pageIndex, rows := [] }, Draw acc.2 atlas acc.1 colorGlyph)
      else acc
    ({ acc1.1 with rows := acc1.1.rows ++ [drawRow glyph style locator] }, acc1.2)

/-- The body of the outer loop of `Text::draw` (Text.cpp, lines 178-214) for one glyph. -/
def drawGlyph (atlas : TextAtlas) (colorGlyph : Bool) (acc : Parameters × List DrawAtlasCall)
    (glyph : GlyphHandle) : Parameters × List DrawAtlasCall :=
  if !glyph.isVisible || (colorGlyph != glyph.glyph.getFont.typeface.hasColor) then acc
  else (GetGlyphPaintStyles glyph.glyph).foldl (drawStyle atlas colorGlyph glyph) acc

/-- The method `Text::draw(canvas, colorGlyph)` (Text.cpp, lines 176-216) of a text with the
atlas `atlas` and the glyphs `glyphs`: the `drawAtlas` calls it makes on the canvas, in
order. -/
def Text.draw (atlas : TextAtlas) (glyphs : List GlyphHandle) (colorGlyph : Bool) :
    List DrawAtlasCall :=
  let r := glyphs.foldl (drawGlyph atlas colorGlyph) (({} : Parameters), [])
  Draw r.2 atlas r.1 colorGlyph

/-! ## Predicates and abbreviations used in the statements and proofs -/

/-- Every glyph stored in the style map belongs to the list `src`. -/
def StyleMap.within (m : StyleMap) (src : List AtlasGlyph) : Prop :=
  ∀ e ∈ m, ∀ g ∈ e.2, g ∈ src

/-- The packer extent and every closed page are within `M`, and the pixel size of every closed
page is the scaled extent. -/
def PagesState.extentWithin (scale : ℚ) (M : Int) (st : PagesState) : Prop :=
  st.pack.width ≤ M ∧ st.pack.height ≤ M ∧
    ∀ p ∈ st.pages, p.packWidth ≤ M ∧ p.packHeight ≤ M ∧
      p.width = ⌈(p.packWidth : ℚ) * scale⌉ ∧ p.height = ⌈(p.packHeight : ℚ) * scale⌉

/-- The glyph with one pixel of padding on each side fits in `M` on both axes. -/
def fitsPage (M : Int) (g : AtlasGlyph) : Prop :=
  packedWidth g + 2 ≤ M ∧ packedHeight g + 2 ≤ M

/-- The atlas key of an AtlasGlyph, written into a fresh `BytesKey`. -/
def atlasKeyOf (a : AtlasGlyph) : BytesKey := a.computeAtlasKey []

/-- The seen-set `atlasKeys` holds exactly the atlas keys of the glyphs collected so far, each
once. -/
def GlyphLists.keysInSync (st : GlyphLists) : Prop :=
  st.atlasKeys.Perm (st.maskGlyphs.map atlasKeyOf ++ st.colorGlyphs.map atlasKeyOf) ∧
    st.atlasKeys.Nodup

/-- The AtlasGlyphs that one glyph of a document with paint `paint` asks for, in the words of
the spec: a color typeface asks for the fill glyph only, and only when the style fills; another
typeface asks for the stroked glyph when the style strokes and for the fill glyph when it
fills. -/
def requestedFor (paint : TextPaint) (glyph : SimpleGlyph) : List AtlasGlyph :=
  if glyph.font.typeface.hasColor then
    (if paint.style = TextStyle.Fill ∨ paint.style = TextStyle.StrokeAndFill then
      [AtlasGlyph.fill glyph] else [])
  else
    (if paint.style = TextStyle.Stroke ∨ paint.style = TextStyle.StrokeAndFill then
      [AtlasGlyph.stroke glyph paint.strokeWidth] else []) ++
    (if paint.style = TextStyle.Fill ∨ paint.style = TextStyle.StrokeAndFill then
      [AtlasGlyph.fill glyph] else [])

/-- The AtlasGlyphs that the documents ask for, in document order and glyph order. -/
def requestedGlyphs (docs : List GlyphDocument) : List AtlasGlyph :=
  docs.flatMap (fun doc => doc.glyphs.flatMap (requestedFor doc.paint))

/-- The guarded `push_back` with the color class read from the glyph's own typeface. -/
def GlyphLists.pushGlyph (st : GlyphLists) (atlasGlyph : AtlasGlyph) : GlyphLists :=
  st.pushIfNew atlasGlyph.glyph.font.typeface.hasColor atlasGlyph

/-- Mask glyphs have a non-color typeface and color glyphs a color typeface. -/
def GlyphLists.colorSplit (st : GlyphLists) : Prop :=
  (∀ a ∈ st.maskGlyphs, a.font.typeface.hasColor = false) ∧
    (∀ a ∈ st.colorGlyphs, a.font.typeface.hasColor = true)

/-- The keys of the locator map. -/
def LocatorMap.keys (m : LocatorMap) : List BytesKey := m.map Prod.fst

/-- The style key of an AtlasGlyph, written into a fresh `BytesKey`. -/
def styleKeyOf (a : AtlasGlyph) : BytesKey := a.computeStyleKey []

/-- Every key of the style map is listed in the style keys. -/
def groupKeysListed (acc : List BytesKey × StyleMap) : Prop :=
  ∀ e ∈ acc.2, e.1 ∈ acc.1

/-- Every collected AtlasGlyph belongs to the list `src`. -/
def GlyphLists.within (st : GlyphLists) (src : List AtlasGlyph) : Prop :=
  (∀ a ∈ st.maskGlyphs, a ∈ src) ∧ (∀ a ∈ st.colorGlyphs, a ∈ src)

/-- A mask atlas that is present was built by `initPages` from `maskGlyphs`, and a color atlas
that is present from `colorGlyphs`. -/
def TextAtlas.atlasesBuilt (t : TextAtlas) : Prop :=
  (∀ a, t.maskAtlas = some a → ∃ s m, a = Atlas.initPages t.maskGlyphs s m) ∧
    (∀ a, t.colorAtlas = some a → ∃ s m, a = Atlas.initPages t.colorGlyphs s m)

/-- Typeface ids identify the typeface's color: glyphs of the documents whose typefaces have
the same unique id agree on `hasColor`. -/
def uniqueTypefaceIDs (docs : List GlyphDocument) : Prop :=
  ∀ d₁ ∈ docs, ∀ g₁ ∈ d₁.glyphs, ∀ d₂ ∈ docs, ∀ g₂ ∈ d₂.glyphs,
    g₁.font.typeface.uniqueID = g₂.font.typeface.uniqueID →
      g₁.font.typeface.hasColor = g₂.font.typeface.hasColor

/-- The AtlasGlyph that `initAtlasGlyphs` builds for a glyph and a paint style. -/
def atlasGlyphFor (glyph : SimpleGlyph) (paint : TextPaint) (style : PaintStyle) : AtlasGlyph :=
  match style with
  | PaintStyle.Fill => AtlasGlyph.fill glyph
  | PaintStyle.Stroke => AtlasGlyph.stroke glyph paint.strokeWidth

/-- At every call of the sequence made while the cache holds at least `kTypefaceCacheCount`
typefaces, some cached typeface is held by a single reference. -/
def CGTypefaceCache.evictable {α : Type} : List α → List ((α → Bool) × α) → Prop
  | _, [] => True
  | typefaces, c :: rest =>
    (kTypefaceCacheCount ≤ typefaces.length → ∃ t ∈ typefaces, c.1 t = true) ∧
      CGTypefaceCache.evictable (CGTypefaceCache.add c.1 typefaces c.2) rest

/-- The atlas that `TextAtlas::getLocator` selects for a glyph: the color atlas for a color
typeface, the mask atlas otherwise. -/
def TextAtlas.atlasFor (t : TextAtlas) (glyph : Glyph) : Option Atlas :=
  if glyph.getFont.typeface.hasColor then t.colorAtlas else t.maskAtlas

/-- An atlas that is present was built from a non-empty glyph list. -/
def TextAtlas.atlasesBacked (t : TextAtlas) : Prop :=
  (t.maskAtlas ≠ none → t.maskGlyphs ≠ []) ∧ (t.colorAtlas ≠ none → t.colorGlyphs ≠ [])

/-- The packer state, the page index and the locator that the body of the inner loop of
`initPages` computes for a rectangle of `width` x `height` (lines 216-236), as a function of
the packer state and the page index before it. -/
def placeRect (scale : ℚ) (maxPageSize : Int) (pk : RectanglePack × Nat) (width height : Int) :
    (RectanglePack × Nat) × AtlasLocator :=
  let r := pk.1.addRect width height
  let split : Bool := decide (r.1.width > maxPageSize ∨ r.1.height > maxPageSize)
  let r2 := if split then RectanglePack.reset.addRect width height else r
  let pageIndex := if split then pk.2 + 1 else pk.2
  ((r2.1, pageIndex),
    { pageIndex := pageIndex,
      location := (Rect.MakeXYWH (r2.2.1 : ℚ) (r2.2.2 : ℚ) (width : ℚ) (height : ℚ)).scale
        scale scale })

/-- The packer state and page index after a sequence of rectangles, and the locators computed
for them, in order. -/
def placeAll (scale : ℚ) (maxPageSize : Int) :
    RectanglePack × Nat → List (Int × Int) → (RectanglePack × Nat) × List AtlasLocator
  | pk, [] => (pk, [])
  | pk, wh :: rest =>
    let r := placeRect scale maxPageSize pk wh.1 wh.2
    let r2 := placeAll scale maxPageSize r.1 rest
    (r2.1, r.2 :: r2.2)

/-- The size of the rectangle that `initPages` hands to the packer for a glyph. -/
def packedSize (glyph : AtlasGlyph) : Int × Int := (packedWidth glyph, packedHeight glyph)

/-- Every locator of the map is stored under the atlas key of a glyph of `src` and has the
packed size of that glyph times the scale. -/
def LocatorMap.sized (scale : ℚ) (src : List AtlasGlyph) (m : LocatorMap) : Prop :=
  ∀ e ∈ m, ∃ a ∈ src, e.1 = atlasKeyOf a ∧
    e.2.location.width = (packedWidth a : ℚ) * scale ∧
    e.2.location.height = (packedHeight a : ℚ) * scale

/-- The SimpleGlyph that `GetSimpleGlyphs` creates for a name, in the words of the spec: the
primary typeface and its glyph id when the primary typeface exists and has a non-zero glyph id
for the name, otherwise the fallback typeface and the glyph id of the fallback lookup. -/
def resolvedGlyph (fm : FontManager) (textDocument : TextDocument) (name : String) :
    SimpleGlyph :=
  let font (tf : Typeface) : Font :=
    { typeface := tf, size := textDocument.fontSize, fauxBold := textDocument.fauxBold,
      fauxItalic := textDocument.fauxItalic }
  match fm.GetTypefaceWithoutFallback textDocument.fontFamily textDocument.fontStyle with
  | some tf =>
    if fm.getGlyphID tf name ≠ 0 then
      { glyphId := fm.getGlyphID tf name, name := name, font := font tf,
        bounds := fm.getGlyphBounds (font tf) (fm.getGlyphID tf name) }
    else
      { glyphId := (fm.GetFallbackTypeface name).2, name := name,
        font := font (fm.GetFallbackTypeface name).1,
        bounds := fm.getGlyphBounds (font (fm.GetFallbackTypeface name).1)
          (fm.GetFallbackTypeface name).2 }
  | none =>
    { glyphId := (fm.GetFallbackTypeface name).2, name := name,
      font := font (fm.GetFallbackTypeface name).1,
      bounds := fm.getGlyphBounds (font (fm.GetFallbackTypeface name).1)
        (fm.GetFallbackTypeface name).2 }

/-- The invariant of the loop of `GetSimpleGlyphs` after the names `seen`: the list has one
entry per name, in order; every entry of the list is the entry that the map holds for its
name; every entry of the map is stored under its own name and is the glyph resolved for that
name; and the font keeps the size and synthesis flags of the document. -/
def GlyphLoop.memoized (fm : FontManager) (textDocument : TextDocument) (seen : List String)
    (st : GlyphLoop) : Prop :=
  st.glyphList.map (fun e => e.glyph.name) = seen ∧
    (∀ e ∈ st.glyphList, st.glyphMap.lookup e.glyph.name = some e) ∧
    (∀ n e, st.glyphMap.lookup n = some e →
      e.glyph = resolvedGlyph fm textDocument n) ∧
    st.textFont.size = textDocument.fontSize ∧
    st.textFont.fauxBold = textDocument.fauxBold ∧
    st.textFont.fauxItalic = textDocument.fauxItalic

/-- The compound descending order on (width * height, width, height), in the words of the
spec: `a` goes before `b` when its area is greater, or the areas are equal and its width is
greater, or areas and widths are equal and its height is greater. -/
def compoundDescending (a b : AtlasGlyph) : Bool :=
  decide (a.bounds.width * a.bounds.height > b.bounds.width * b.bounds.height ∨
    (a.bounds.width * a.bounds.height = b.bounds.width * b.bounds.height ∧
      a.bounds.width > b.bounds.width) ∨
    (a.bounds.width * a.bounds.height = b.bounds.width * b.bounds.height ∧
      a.bounds.width = b.bounds.width ∧ a.bounds.height > b.bounds.height))

/-- The keys of a list in the order of their first occurrence, each once. -/
def firstOccurrences : List BytesKey → List BytesKey
  | [] => []
  | k :: rest => k :: (firstOccurrences rest).filter (fun k' => decide (k' ≠ k))

/-- The glyphs in the order in which the second loop of `initPages` (lines 202-241) visits
them: group after group in the order of `styleKeys`, each group in the order of its vector. -/
def packOrder (glyphs : List AtlasGlyph) : List AtlasGlyph :=
  (groupByStyle glyphs).1.flatMap (fun key => (groupByStyle glyphs).2.get key)

/-- The stable partition of the glyphs by style key, in the words of the claim: the style keys
in the order of their first occurrence, and under each key the glyphs of that key in input
order. -/
def stablePartition (glyphs : List AtlasGlyph) : List AtlasGlyph :=
  (firstOccurrences (glyphs.map styleKeyOf)).flatMap
    (fun key => glyphs.filter (fun g => decide (styleKeyOf g = key)))

/-- The pack point that the body of the inner loop of `initPages` holds in `point` when it
appends the position and builds the locator (lines 216-226): the point returned by the first
`addRect` call, replaced after a page split by the point that the reset packer returns. -/
def packPoint (maxPageSize : Int) (pack : RectanglePack) (width height : Int) : Int × Int :=
  let r := pack.addRect width height
  let split : Bool := decide (r.1.width > maxPageSize ∨ r.1.height > maxPageSize)
  let r2 := if split then RectanglePack.reset.addRect width height else r
  r2.2

/-- What the body of the inner loop of `initPages` computes for one glyph: the pack point and
the locator. -/
structure Placement where
  glyph : AtlasGlyph
  point : Int × Int
  locator : AtlasLocator
deriving DecidableEq, Repr

/-- The position that the inner loop appends to the TextRun for a placement (lines 212-213
and 228): `{-x + point.x, -y + point.y}` with `(x, y)` the origin of the bounds moved up and
left by the stroke inset. -/
def Placement.position (e : Placement) : Point :=
  ⟨-(e.glyph.bounds.x - (strokeInset e.glyph : ℚ)) + (e.point.1 : ℚ),
   -(e.glyph.bounds.y - (strokeInset e.glyph : ℚ)) + (e.point.2 : ℚ)⟩

/-- The placement of one glyph from the packer state and page index `pk` before it. -/
def placeGlyph (scale : ℚ) (maxPageSize : Int) (pk : RectanglePack × Nat) (g : AtlasGlyph) :
    Placement :=
  { glyph := g
    point := packPoint maxPageSize pk.1 (packedWidth g) (packedHeight g)
    locator := (placeRect scale maxPageSize pk (packedWidth g) (packedHeight g)).2 }

/-- The placements of a sequence of glyphs, in order, from the packer state and page index
`pk`. -/
def placements (scale : ℚ) (maxPageSize : Int) :
    RectanglePack × Nat → List AtlasGlyph → List Placement
  | _, [] => []
  | pk, g :: rest =>
    placeGlyph scale maxPageSize pk g ::
      placements scale maxPageSize
        (placeRect scale maxPageSize pk (packedWidth g) (packedHeight g)).1 rest

/-- The placements of a run of `initPages`: those of the glyphs in packing order, from a fresh
packer and page index 0. -/
def Atlas.placements (glyphs : List AtlasGlyph) (scale : ℚ) (maxTextureSize : Int) :
    List Placement :=
  pag.placements scale (maxPageSize maxTextureSize scale) (RectanglePack.reset, 0)
    (packOrder glyphs)

/-- The glyph ids of a page: those of its text runs, in order. -/
def Page.glyphIDs (p : Page) : List GlyphID := p.textRuns.flatMap TextRun.glyphIDs

/-- The positions of a page: those of its text runs, in order. -/
def Page.positions (p : Page) : List Point := p.textRuns.flatMap TextRun.positions

/-- The placements of a sequence that were given the page index `k`, in order. -/
def onPage (tr : List Placement) (k : Nat) : List Placement :=
  tr.filter (fun e => decide (e.locator.pageIndex = k))

/-- The state of the second loop of `initPages` holds the placements `tr`, read through the
field `f` of the text runs and the value `v` of a placement: there are as many closed pages as
the page index says, no placement has a greater page index, the closed page `k` holds the
values of the placements with page index `k`, and the open page together with the open run
(whose field is `run`) holds the values of the placements with the current page index. -/
def PagesState.laidOut {β : Type} (f : TextRun → List β) (v : Placement → β)
    (tr : List Placement) (st : PagesState) (run : List β) : Prop :=
  st.pages.length = st.pageIndex ∧
  (∀ e ∈ tr, e.locator.pageIndex ≤ st.pageIndex) ∧
  st.pages.map (fun p => p.textRuns.flatMap f) =
    (List.range st.pageIndex).map (fun k => (onPage tr k).map v) ∧
  st.page.textRuns.flatMap f ++ run = (onPage tr st.pageIndex).map v

/-- The locator map that results from storing the locators of the placements in order. -/
def storeAll (m : LocatorMap) (tr : List Placement) : LocatorMap :=
  tr.foldl (fun m e => m.set (atlasKeyOf e.glyph) e.locator) m

/-- A sequence of `addRect` calls on the packer `p`: for each call, in order, the packer state
after the call and the returned point. -/
def RectanglePack.addRectsLog : RectanglePack → List (Int × Int) →
    List (RectanglePack × (Int × Int))
  | _, [] => []
  | p, (w, h) :: rest => p.addRect w h :: RectanglePack.addRectsLog (p.addRect w h).1 rest

/-- The extents and the cursor of the packer are at least `Padding`. -/
def RectanglePack.atLeastPadding (p : RectanglePack) : Prop :=
  1 ≤ p.width ∧ 1 ≤ p.height ∧ 1 ≤ p.x ∧ 1 ≤ p.y

/-- The rows of the pairs (visible glyph of the requested color class, style with a locator),
in the words of the claim: in glyph order, then in style order. -/
def drawnRows (atlas : TextAtlas) (glyphs : List GlyphHandle) (colorGlyph : Bool) :
    List AtlasRow :=
  (glyphs.filter (fun g =>
      g.isVisible && (g.glyph.getFont.typeface.hasColor == colorGlyph))).flatMap
    (fun g => (GetGlyphPaintStyles g.glyph).filterMap
      (fun style => (atlas.getLocator g.glyph style).map (drawRow g style)))

/-- A row was computed from a locator that the atlas returns for its glyph and style, and the
locator names the page `pageIndex`. -/
def AtlasRow.fromPage (atlas : TextAtlas) (pageIndex : Nat) (row : AtlasRow) : Prop :=
  row.locator.pageIndex = pageIndex ∧
    atlas.getLocator row.glyph.glyph row.style = some row.locator ∧
    row = drawRow row.glyph row.style row.locator

/-- A `drawAtlas` call is a batch of one page: it has rows, all from the page of the call, and
its texture is what the texture getter of the color class returns for that page. -/
def DrawAtlasCall.batchOf (atlas : TextAtlas) (colorGlyph : Bool) (call : DrawAtlasCall) :
    Prop :=
  call.rows ≠ [] ∧ (∀ row ∈ call.rows, row.fromPage atlas call.pageIndex) ∧
    call.texture =
      (if colorGlyph then atlas.getColorAtlasTexture call.pageIndex
       else atlas.getMaskAtlasTexture call.pageIndex)

/-- The state of the loops of `Text::draw` after the rows `done`: the calls made and the rows
waiting in `parameters` are the rows `done`, in order; the waiting rows are from the page of
`parameters`; every call made is a batch of one page. -/
def drawInvariant (atlas : TextAtlas) (colorGlyph : Bool) (done : List AtlasRow)
    (acc : Parameters × List DrawAtlasCall) : Prop :=
  acc.2.flatMap DrawAtlasCall.rows ++ acc.1.rows = done ∧
    (∀ row ∈ acc.1.rows, row.fromPage atlas acc.1.pageIndex) ∧
    ∀ call ∈ acc.2, call.batchOf atlas colorGlyph

/-- The rectangle of glyph space that `Atlas::draw` rasterises into the atlas cell of a
placement: `DrawTextRun` draws the glyph at the position of the placement, so the cell, which
starts at the pack point and has the packed size, shows the glyph space from
`point - position` on. -/
def Placement.rasterRect (e : Placement) : Rect :=
  Rect.MakeXYWH ((e.point.1 : ℚ) - e.position.x) ((e.point.2 : ℚ) - e.position.y)
    (packedWidth e.glyph : ℚ) (packedHeight e.glyph : ℚ)

/-- The rectangle of glyph space onto which the matrix of `Text::draw`, before the glyph's
total matrix, maps the locator's rectangle: `drawAtlas` draws the rectangle as the quad
`(0, 0, width, height)` transformed by the matrix. -/
def drawnRect (glyph : GlyphHandle) (style : PaintStyle) (locator : AtlasLocator) : Rect :=
  (localMatrix glyph style locator).mapRect
    (Rect.MakeXYWH 0 0 locator.location.width locator.location.height)

/-! ## Concrete inputs -/

/-- A non-color typeface. -/
def exTypeface : Typeface := { uniqueID := 7, hasColor := false }

/-- The typeface `exTypeface` at size 24 (bit pattern `0x41C00000`), no synthesis. -/
def exFont24 : Font :=
  { typeface := exTypeface, size := ⟨0x41C00000⟩, fauxBold := false, fauxItalic := false }

/-- The typeface `exTypeface` at size 12 (bit pattern `0x41400000`), no synthesis. -/
def exFont12 : Font :=
  { typeface := exTypeface, size := ⟨0x41400000⟩, fauxBold := false, fauxItalic := false }

/-- The typeface `exTypeface` at size 24 with synthetic bold. -/
def exFont24Bold : Font :=
  { typeface := exTypeface, size := ⟨0x41C00000⟩, fauxBold := true, fauxItalic := false }

/-- A fill glyph of size 24 with bounds 4 x 5. -/
def exTall24 : AtlasGlyph :=
  AtlasGlyph.fill { glyphId := 1, name := "a", font := exFont24, bounds := ⟨0, 0, 4, 5⟩ }

/-- A fill glyph of size 12 with bounds 4 x 5. -/
def exTall12 : AtlasGlyph :=
  AtlasGlyph.fill { glyphId := 2, name := "b", font := exFont12, bounds := ⟨0, 0, 4, 5⟩ }

/-- A fill glyph of size 24 with bounds 2 x 1. -/
def exSmall24 : AtlasGlyph :=
  AtlasGlyph.fill { glyphId := 3, name := "c", font := exFont24, bounds := ⟨0, 0, 2, 1⟩ }

/-- A fill glyph with bounds 9 x 9. -/
def exNine : AtlasGlyph :=
  AtlasGlyph.fill { glyphId := 4, name := "d", font := exFont24, bounds := ⟨0, 0, 9, 9⟩ }

/-- A fill glyph with bounds 8 x 8. -/
def exEight : AtlasGlyph :=
  AtlasGlyph.fill { glyphId := 5, name := "e", font := exFont24, bounds := ⟨0, 0, 8, 8⟩ }

/-- The glyph "A" without synthesis. -/
def exPlainA : AtlasGlyph :=
  AtlasGlyph.fill { glyphId := 36, name := "A", font := exFont24, bounds := ⟨0, 0, 4, 5⟩ }

/-- The glyph "A" with synthetic bold, same typeface and size as `exPlainA`. -/
def exBoldA : AtlasGlyph :=
  AtlasGlyph.fill { glyphId := 36, name := "A", font := exFont24Bold, bounds := ⟨0, 0, 4, 5⟩ }

/-- An insertion sort by the comparator, standing for `std::sort` in concrete evaluations. -/
def exSort (comp : AtlasGlyph → AtlasGlyph → Bool) (l : List AtlasGlyph) : List AtlasGlyph :=
  l.insertionSort (fun a b => comp a b = true)

/-- The SimpleGlyph "A" of `exFont24`. -/
def exSimpleA : SimpleGlyph :=
  { glyphId := 36, name := "A", font := exFont24, bounds := ⟨0, 0, 4, 5⟩ }

/-- The SimpleGlyph "B" of `exFont24`. -/
def exSimpleB : SimpleGlyph :=
  { glyphId := 37, name := "B", font := exFont24, bounds := ⟨0, 0, 4, 4⟩ }

/-- A document with the text "AB" and the default paint (style `Fill`). -/
def exDocAB : GlyphDocument := { glyphs := [exSimpleA, exSimpleB], paint := {} }

/-- A document with the text "A", style `StrokeAndFill` and stroke width 4 (bit pattern
`0x40800000`). -/
def exDocStrokedA : GlyphDocument :=
  { glyphs := [exSimpleA],
    paint := { style := TextStyle.StrokeAndFill, strokeWidth := ⟨0x40800000⟩ } }

/-- A color typeface and the SimpleGlyph of an emoji in it. -/
def exEmoji : SimpleGlyph :=
  { glyphId := 900, name := "😀",
    font := { typeface := { uniqueID := 9, hasColor := true }, size := ⟨0x41C00000⟩,
              fauxBold := false, fauxItalic := false },
    bounds := ⟨0, 0, 6, 6⟩ }

/-- A document with the emoji, style `StrokeAndFill` and stroke width 4. -/
def exDocEmoji : GlyphDocument :=
  { glyphs := [exEmoji],
    paint := { style := TextStyle.StrokeAndFill, strokeWidth := ⟨0x40800000⟩ } }

/-- The 200 fill glyphs of scenario S2: glyph ids 0 to 199 of `exFont24`, bounds 300 x 300. -/
def exScenarioGlyphs : List AtlasGlyph :=
  (List.range 200).map (fun i =>
    AtlasGlyph.fill { glyphId := Fin.ofNat i, name := "g", font := exFont24,
                      bounds := ⟨0, 0, 300, 300⟩ })

/-- A font system in which the family "Roman" has the typeface `exTypeface` with the glyphs
"A" (36) and "B" (37), and every other name falls back to the color typeface of `exEmoji`,
which has the glyph "😀" (900). -/
def exFontManager : FontManager :=
  { GetTypefaceWithoutFallback := fun family _ =>
      if family = "Roman" then some exTypeface else none
    GetFallbackTypeface := fun name =>
      (exEmoji.font.typeface, if name = "😀" then 900 else 0)
    getGlyphID := fun _ name => if name = "A" then 36 else if name = "B" then 37 else 0
    getGlyphBounds := fun _ glyphId => if glyphId = 900 then ⟨0, 0, 6, 6⟩ else ⟨0, 0, 4, 5⟩
    defaultTypeface := { uniqueID := 0, hasColor := false } }

/-- A document with the text "A😀A" in the family "Roman" at size 24. -/
def exTextDocument : TextDocument :=
  { text := "A😀A", fontFamily := "Roman", fontStyle := "Regular", fontSize := ⟨0x41C00000⟩,
    fauxBold := false, fauxItalic := false }

/-- Font answers for the examples: cap height 8, x height 4, glyph "A" with id 36 and bounds
from -10 to 0 vertically. -/
def exFontQueries : FontQueries :=
  { getMetrics := fun _ => { ascent := -12, descent := 3, capHeight := 8, xHeight := 4 }
    getGlyphAdvance := fun _ _ _ => 6
    getGlyphID := fun _ name => if name = "A" then 36 else 0
    getGlyphBounds := fun _ _ => ⟨0, -10, 8, 0⟩
    getGlyphVerticalOffset := fun _ _ => ⟨0, 0⟩ }

/-- The SimpleGlyph of a space whose measured bounds reach from -30 to -25 vertically. -/
def exSpace : SimpleGlyph :=
  { glyphId := 3, name := " ", font := exFont24, bounds := ⟨1, -30, 6, -25⟩ }

/-- A fill glyph with bounds 1 x 3. -/
def exSlim13 : AtlasGlyph :=
  AtlasGlyph.fill { glyphId := 6, name := "f", font := exFont24, bounds := ⟨0, 0, 1, 3⟩ }

/-- A fill glyph with bounds 1 x 4. -/
def exSlim14 : AtlasGlyph :=
  AtlasGlyph.fill { glyphId := 7, name := "g", font := exFont24, bounds := ⟨0, 0, 1, 4⟩ }

/-- A fill glyph with bounds 1 x 2. -/
def exSlim12 : AtlasGlyph :=
  AtlasGlyph.fill { glyphId := 8, name := "h", font := exFont24, bounds := ⟨0, 0, 1, 2⟩ }

/-- A fill glyph of size 12 with bounds 8 x 8. -/
def exEight12 : AtlasGlyph :=
  AtlasGlyph.fill { glyphId := 9, name := "i", font := exFont12, bounds := ⟨0, 0, 8, 8⟩ }

/-- A horizontal paint of style `Stroke` with stroke width 1.5 (bit pattern `0x3FC00000`). -/
def exStrokePaint : TextPaint := { style := TextStyle.Stroke, strokeWidth := ⟨0x3FC00000⟩ }

/-- The display glyph of "A" (bounds 4 x 5) with the paint `exStrokePaint`, default matrix,
alpha and colors. -/
def exStrokedHandle : GlyphHandle :=
  { glyph := Glyph.make exSimpleA exStrokePaint
    layout := Glyph.layout exFontQueries exSimpleA exStrokePaint }

/-- The atlas of a document with the text "A" and the paint `exStrokePaint`, generated at
scale 1 with maxTextureSize 1024. -/
def exStrokedAtlas : TextAtlas :=
  (TextAtlas.new exSort [{ glyphs := [exSimpleA], paint := exStrokePaint }]).generateIfNeeded
    1 1024

/-- The SimpleGlyph "C" with bounds of 4.5 x 5. -/
def exSimpleWide : SimpleGlyph :=
  { glyphId := 38, name := "C", font := exFont24, bounds := ⟨0, 0, 9 / 2, 5⟩ }

/-- The display glyph of `exSimpleWide` with the default paint (style `Fill`, horizontal). -/
def exWideHandle : GlyphHandle :=
  { glyph := Glyph.make exSimpleWide {}
    layout := Glyph.layout exFontQueries exSimpleWide {} }

/-- The atlas of a document with the glyph `exSimpleWide` and the default paint, generated at
scale 1 with maxTextureSize 1024. -/
def exWideAtlas : TextAtlas :=
  (TextAtlas.new exSort [{ glyphs := [exSimpleWide], paint := {} }]).generateIfNeeded 1 1024

/-- Seventeen SimpleGlyphs of `exFont24` with the glyph ids 40 to 56 and the names "a" to "q":
the one at index 8 has bounds 2 x 2, the others have bounds 1 x 3 at the even indices and
3 x 1 at the odd indices. -/
def exSeventeen : List SimpleGlyph :=
  (List.range 17).map (fun i =>
    { glyphId := Fin.ofNat (40 + i), name := String.singleton (Char.ofNat (97 + i)),
      font := exFont24,
      bounds := if i = 8 then ⟨0, 0, 2, 2⟩ else if i % 2 = 0 then ⟨0, 0, 1, 3⟩
        else ⟨0, 0, 3, 1⟩ })

/-- A document with the seventeen glyphs of `exSeventeen` and the default paint (style
`Fill`). -/
def exDocSeventeen : GlyphDocument := { glyphs := exSeventeen, paint := {} }

/-- The fill AtlasGlyph of the glyph of `exSeventeen` with bounds 2 x 2. -/
def exSquare : AtlasGlyph :=
  AtlasGlyph.fill { glyphId := 48, name := "i", font := exFont24, bounds := ⟨0, 0, 2, 2⟩ }

/-- A zoom from scale 1 to scale 2 in 128 steps of 1/128, each reported to `generateIfNeeded`
with the texture limit 1024. -/
def exZoomCalls : List (ℚ × Int) :=
  (List.range 129).map (fun k => (1 + (k : ℚ) / 128, 1024))

/-- The fill AtlasGlyph of the first glyph of `exSeventeen`, with bounds 1 x 3. -/
def exSlimA : AtlasGlyph :=
  AtlasGlyph.fill { glyphId := 40, name := "a", font := exFont24, bounds := ⟨0, 0, 1, 3⟩ }

/-- The fill AtlasGlyph of the third glyph of `exSeventeen`, with bounds 1 x 3. -/
def exSlimC : AtlasGlyph :=
  AtlasGlyph.fill { glyphId := 42, name := "c", font := exFont24, bounds := ⟨0, 0, 1, 3⟩ }

/-! ## Lemmas on keys -/

theorem glyphFlags_testBit (g : Nat) (bold italic : Bool) (i : Nat) :
    (glyphFlags g bold italic).testBit i =
      (g.testBit i || (bold && decide (i = 16)) || (italic && decide (i = 17))) := by
  have h16 : (1 <<< 16 : Nat).testBit i = decide (i = 16) := by
    rw [Nat.shiftLeft_eq, one_mul, Nat.testBit_two_pow]
    simp only [eq_comm]
  have h17 : (1 <<< 17 : Nat).testBit i = decide (i = 17) := by
    rw [Nat.shiftLeft_eq, one_mul, Nat.testBit_two_pow]
    simp only [eq_comm]
  unfold glyphFlags
  cases bold <;> cases italic <;>
    simp only [Nat.testBit_or, h16, h17, if_true, if_false, Bool.false_and, Bool.true_and,
      Bool.or_false, Bool.false_eq_true]

theorem testBit_high_of_lt (n : Nat) (hn : n < 65536) (k : Nat) (hk : 16 ≤ k) :
    n.testBit k = false := by
  apply Nat.testBit_lt_two_pow
  calc n < 2 ^ 16 := by simpa using hn
    _ ≤ 2 ^ k := Nat.pow_le_pow_right (by norm_num) hk

theorem glyphFlags_inj (g g' : Nat) (hg : g < 65536) (hg' : g' < 65536) (b b' i i' : Bool)
    (h : glyphFlags g b i = glyphFlags g' b' i') : g = g' ∧ b = b' ∧ i = i' := by
  have ht : ∀ k, (glyphFlags g b i).testBit k = (glyphFlags g' b' i').testBit k := by
    intro k; rw [h]
  refine ⟨?_, ?_, ?_⟩
  · apply Nat.eq_of_testBit_eq
    intro k
    by_cases hk : k < 16
    · have := ht k
      simp only [glyphFlags_testBit] at this
      have h1 : k ≠ 16 := by omega
      have h2 : k ≠ 17 := by omega
      simpa [h1, h2] using this
    · rw [testBit_high_of_lt g hg k (by omega), testBit_high_of_lt g' hg' k (by omega)]
  · have := ht 16
    simp only [glyphFlags_testBit, testBit_high_of_lt g hg 16 (by norm_num),
      testBit_high_of_lt g' hg' 16 (by norm_num)] at this
    simpa using this
  · have := ht 17
    simp only [glyphFlags_testBit, testBit_high_of_lt g hg 17 (by norm_num),
      testBit_high_of_lt g' hg' 17 (by norm_num)] at this
    simpa using this

theorem glyphFlags_mod (g : Nat) (hg : g < 65536) (b i : Bool) :
    glyphFlags g b i % 2 ^ 16 = g := by
  apply Nat.eq_of_testBit_eq
  intro k
  rw [Nat.testBit_mod_two_pow, glyphFlags_testBit]
  by_cases hk : k < 16
  · have h1 : k ≠ 16 := by omega
    have h2 : k ≠ 17 := by omega
    simp [hk, h1, h2]
  · rw [testBit_high_of_lt g hg k (by omega)]
    simp [hk]

theorem SimpleGlyph.atlasKey_words (g : SimpleGlyph) (key : BytesKey) :
    g.computeAtlasKey key =
      key ++ [glyphFlags g.glyphId.val g.font.fauxBold g.font.fauxItalic,
        g.font.typeface.uniqueID] := by
  simp [SimpleGlyph.computeAtlasKey, glyphFlags, BytesKey.write]

theorem AtlasGlyph.fullAtlasKey_words (a : AtlasGlyph) (key : BytesKey) :
    a.computeAtlasKey key =
      key ++ [glyphFlags a.glyph.glyphId.val a.glyph.font.fauxBold a.glyph.font.fauxItalic,
        a.glyph.font.typeface.uniqueID, a.style.toU32, a.strokeWidth.bits] := by
  simp [AtlasGlyph.computeAtlasKey, SimpleGlyph.atlasKey_words, BytesKey.write,
    BytesKey.writeFloat]

theorem PaintStyle.toU32_inj (s t : PaintStyle) (h : s.toU32 = t.toU32) : s = t := by
  cases s <;> cases t <;> simp_all [PaintStyle.toU32]

theorem AtlasGlyph.atlasKey_eq_iff (a b : AtlasGlyph) :
    a.computeAtlasKey [] = b.computeAtlasKey [] ↔
      (a.glyphId = b.glyphId ∧ a.font.fauxBold = b.font.fauxBold ∧
        a.font.fauxItalic = b.font.fauxItalic ∧
        a.font.typeface.uniqueID = b.font.typeface.uniqueID ∧
        a.style = b.style ∧ a.strokeWidth.bits = b.strokeWidth.bits) := by
  rw [AtlasGlyph.fullAtlasKey_words, AtlasGlyph.fullAtlasKey_words]
  simp only [List.nil_append, List.cons.injEq, and_true, AtlasGlyph.glyphId, AtlasGlyph.font]
  constructor
  · rintro ⟨hf, hu, hs, hw⟩
    obtain ⟨h1, h2, h3⟩ := glyphFlags_inj _ _ a.glyph.glyphId.isLt b.glyph.glyphId.isLt _ _ _ _ hf
    exact ⟨Fin.ext h1, h2, h3, hu, PaintStyle.toU32_inj _ _ hs, hw⟩
  · rintro ⟨h1, h2, h3, hu, hs, hw⟩
    rw [h1, h2, h3, hs]
    exact ⟨rfl, hu, rfl, hw⟩

/-! ## Atlas keys -/

/-- C4: two AtlasGlyphs have equal atlas keys exactly when they agree on glyph id, faux-bold
flag, faux-italic flag, typeface unique id, paint style and the bit pattern of the stroke
width; the key is unchanged when the font size and the utf8 name are replaced; and the low 16
bits of the flag word are the glyph id, whatever the two flags are. -/
theorem atlasKey_identifies_glyph :
    (∀ a b : AtlasGlyph,
      a.computeAtlasKey [] = b.computeAtlasKey [] ↔
        (a.glyphId = b.glyphId ∧ a.font.fauxBold = b.font.fauxBold ∧
          a.font.fauxItalic = b.font.fauxItalic ∧
          a.font.typeface.uniqueID = b.font.typeface.uniqueID ∧
          a.style = b.style ∧ a.strokeWidth.bits = b.strokeWidth.bits)) ∧
    (∀ (a : AtlasGlyph) (size : F32) (name : String),
      ({ a with glyph := { a.glyph with name := name,
                                        font := { a.glyph.font with size := size } } } :
        AtlasGlyph).computeAtlasKey [] = a.computeAtlasKey []) ∧
    (∀ (glyphId : GlyphID) (fauxBold fauxItalic : Bool),
      glyphFlags glyphId.val fauxBold fauxItalic % 2 ^ 16 = glyphId.val) := by
  refine ⟨AtlasGlyph.atlasKey_eq_iff, ?_, ?_⟩
  · intro a size name
    rw [AtlasGlyph.atlasKey_eq_iff]
    simp [AtlasGlyph.glyphId, AtlasGlyph.font]
  · intro g b i
    exact glyphFlags_mod g.val g.isLt b i

/-! ## Lemmas on the loops of `initPages` -/

theorem foldl_invariant {α β : Type} (P : β → Prop) (Q : α → Prop) (f : β → α → β)
    (step : ∀ b a, P b → Q a → P (f b a)) :
    ∀ (l : List α) (b : β), (∀ a ∈ l, Q a) → P b → P (l.foldl f b) := by
  intro l
  induction l with
  | nil => intro b _ hb; exact hb
  | cons a rest ih =>
    intro b hl hb
    rw [List.foldl_cons]
    exact ih (f b a) (fun x hx => hl x (List.mem_cons_of_mem a hx))
      (step b a hb (hl a (List.mem_cons_self a rest)))

theorem RectanglePack.addRect_reset_le (M w h : Int) (hM : 1 ≤ M) (hw : w + 2 ≤ M)
    (hh : h + 2 ≤ M) :
    (RectanglePack.reset.addRect w h).1.width ≤ M ∧
      (RectanglePack.reset.addRect w h).1.height ≤ M := by
  simp only [RectanglePack.addRect, RectanglePack.reset, Padding]
  split_ifs <;> simp <;> omega

theorem StyleMap.push_within (src : List AtlasGlyph) (key : BytesKey) (glyph : AtlasGlyph)
    (hg : glyph ∈ src) :
    ∀ m : StyleMap, m.within src → (StyleMap.push m key glyph).within src := by
  intro m
  induction m with
  | nil =>
    intro _ e he g hge
    simp only [StyleMap.push, List.mem_singleton] at he
    subst he
    simp only [List.mem_singleton] at hge
    subst hge
    exact hg
  | cons e rest ih =>
    intro hm e' he' g hge
    simp only [StyleMap.push] at he'
    split_ifs at he' with hk
    · rcases List.mem_cons.1 he' with h | h
      · subst h
        rcases List.mem_append.1 hge with h1 | h1
        · exact hm e (List.mem_cons_self _ _) g h1
        · simp only [List.mem_singleton] at h1
          subst h1
          exact hg
      · exact hm e' (List.mem_cons_of_mem _ h) g hge
    · rcases List.mem_cons.1 he' with h | h
      · subst h
        exact hm _ (List.mem_cons_self _ _) g hge
      · exact ih (fun x hx => hm x (List.mem_cons_of_mem _ hx)) e' h g hge

theorem StyleMap.get_within (m : StyleMap) (src : List AtlasGlyph) (hm : m.within src)
    (key : BytesKey) : ∀ g ∈ m.get key, g ∈ src := by
  intro g hg
  unfold StyleMap.get at hg
  split at hg
  · next e he => exact hm e (List.mem_of_find?_eq_some he) g hg
  · simp at hg

theorem groupByStyle_within (glyphs : List AtlasGlyph) :
    (groupByStyle glyphs).2.within glyphs := by
  unfold groupByStyle
  apply foldl_invariant (fun acc : List BytesKey × StyleMap => acc.2.within glyphs)
    (fun g => g ∈ glyphs) groupStep
  · intro acc g hacc hg
    unfold groupStep
    simp only
    split_ifs <;> exact StyleMap.push_within glyphs _ g hg acc.2 hacc
  · exact fun a ha => ha
  · intro e he
    simp at he

theorem packGlyph_extentWithin (scale : ℚ) (M : Int) (hM : 1 ≤ M) (firstGlyph : AtlasGlyph)
    (acc : PagesState × TextRun) (glyph : AtlasGlyph)
    (hacc : acc.1.extentWithin scale M) (hg : fitsPage M glyph) :
    (packGlyph scale M firstGlyph acc glyph).1.extentWithin scale M := by
  obtain ⟨hw, hh, hp⟩ := hacc
  obtain ⟨gw, gh⟩ := hg
  unfold packGlyph PagesState.extentWithin
  simp only
  by_cases hs : (acc.1.pack.addRect (packedWidth glyph) (packedHeight glyph)).1.width > M ∨
      (acc.1.pack.addRect (packedWidth glyph) (packedHeight glyph)).1.height > M
  · simp only [hs, decide_True, if_true]
    have hr := RectanglePack.addRect_reset_le M _ _ hM gw gh
    refine ⟨hr.1, hr.2, ?_⟩
    intro p hpm
    rcases List.mem_append.1 hpm with h | h
    · exact hp p h
    · simp only [List.mem_singleton] at h
      subst h
      exact ⟨hw, hh, rfl, rfl⟩
  · simp only [hs, decide_False, if_false, Bool.false_eq_true]
    push_neg at hs
    exact ⟨hs.1, hs.2, hp⟩

theorem packGroup_extentWithin (scale : ℚ) (M : Int) (hM : 1 ≤ M) (st : PagesState)
    (group : List AtlasGlyph) (hst : st.extentWithin scale M) (hg : ∀ g ∈ group, fitsPage M g) :
    (packGroup scale M st group).extentWithin scale M := by
  unfold packGroup
  cases group with
  | nil => exact hst
  | cons firstGlyph rest =>
    simp only
    have h := foldl_invariant (fun acc : PagesState × TextRun => acc.1.extentWithin scale M)
      (fitsPage M) (packGlyph scale M firstGlyph)
      (fun b a hb ha => packGlyph_extentWithin scale M hM firstGlyph b a hb ha)
      (firstGlyph :: rest) (st, CreateTextRun firstGlyph) hg hst
    exact h

/-- C3 (amended): with `M = floor(maxTextureSize / scale)` at least 1, if every glyph fits a
page with one pixel of padding on each side (packed width + 2 and packed height + 2, stroke
inset included, are at most `M`), then every page that `initPages` produces was closed with a
packer extent of at most `M` on both axes, and its pixel size is the ceiling of that extent
times the scale. -/
theorem initPages_page_extent (glyphs : List AtlasGlyph) (scale : ℚ) (maxTextureSize : Int)
    (hM : 1 ≤ maxPageSize maxTextureSize scale)
    (hfit : ∀ g ∈ glyphs, packedWidth g + 2 ≤ maxPageSize maxTextureSize scale ∧
      packedHeight g + 2 ≤ maxPageSize maxTextureSize scale) :
    ∀ p ∈ (Atlas.initPages glyphs scale maxTextureSize).pages,
      p.packWidth ≤ maxPageSize maxTextureSize scale ∧
      p.packHeight ≤ maxPageSize maxTextureSize scale ∧
      p.width = ⌈(p.packWidth : ℚ) * scale⌉ ∧ p.height = ⌈(p.packHeight : ℚ) * scale⌉ := by
  have hkeys := foldl_invariant
    (fun st : PagesState => st.extentWithin scale (maxPageSize maxTextureSize scale))
    (fun _ : BytesKey => True)
    (fun st key => packGroup scale (maxPageSize maxTextureSize scale) st
      ((groupByStyle glyphs).2.get key))
    (fun st key hst _ => packGroup_extentWithin scale _ hM st _ hst
      (fun g hg => hfit g (StyleMap.get_within _ glyphs (groupByStyle_within glyphs) key g hg)))
    (groupByStyle glyphs).1 ({} : PagesState) (fun _ _ => trivial)
    ⟨hM, hM, fun p hp => by simp at hp⟩
  obtain ⟨hw, hh, hp⟩ := hkeys
  intro p hpm
  simp only [Atlas.initPages] at hpm
  rcases List.mem_append.1 hpm with h | h
  · exact hp p h
  · simp only [List.mem_singleton] at h
    subst h
    exact ⟨hw, hh, rfl, rfl⟩

/-- C1 (failing input): on a fresh packer the calls addRect(1, 3), addRect(2, 1),
addRect(4, 3), addRect(3, 1) return the points (1, 1), (3, 1), (3, 3), (1, 5); the third
rectangle [3, 7) x [3, 6) and the fourth rectangle [1, 4) x [5, 6) overlap. -/
theorem addRect_overlap_example :
    (RectanglePack.reset.addRects [(1, 3), (2, 1), (4, 3), (3, 1)]).2 =
      [⟨1, 1, 1, 3⟩, ⟨3, 1, 2, 1⟩, ⟨3, 3, 4, 3⟩, ⟨1, 5, 3, 1⟩] ∧
    Placed.overlaps ⟨3, 3, 4, 3⟩ ⟨1, 5, 3, 1⟩ := by
  decide

/-- C3 (counterexample): with maxTextureSize 10 and scale 1 the page limit is 10; the glyph
of bounds 9 x 9 has width + 1 = height + 1 = 10, which does not exceed the limit, yet the
page that holds it is closed with the packer extent 11 x 11. -/
theorem initPages_extent_counterexample :
    maxPageSize 10 1 = 10 ∧
    (∀ g ∈ [exNine], packedWidth g + 1 ≤ maxPageSize 10 1 ∧
      packedHeight g + 1 ≤ maxPageSize 10 1) ∧
    (Atlas.initPages [exNine] 1 10).pages.map (fun p => (p.packWidth, p.packHeight)) =
      [(1, 1), (11, 11)] ∧
    ¬ ∀ p ∈ (Atlas.initPages [exNine] 1 10).pages,
      p.packWidth ≤ maxPageSize 10 1 ∧ p.packHeight ≤ maxPageSize 10 1 := by
  decide!

/-- C3 (witness): the amended statement at maxTextureSize 10, scale 1 and one glyph of bounds
8 x 8, whose packed size plus 2 is exactly the page limit 10. -/
theorem initPages_page_extent_witness :
    1 ≤ maxPageSize 10 1 ∧
    (∀ g ∈ [exEight], packedWidth g + 2 ≤ maxPageSize 10 1 ∧
      packedHeight g + 2 ≤ maxPageSize 10 1) ∧
    (∀ p ∈ (Atlas.initPages [exEight] 1 10).pages,
      p.packWidth ≤ maxPageSize 10 1 ∧ p.packHeight ≤ maxPageSize 10 1 ∧
      p.width = ⌈(p.packWidth : ℚ) * 1⌉ ∧ p.height = ⌈(p.packHeight : ℚ) * 1⌉) :=
  ⟨by decide!, by decide!, initPages_page_extent [exEight] 1 10 (by decide!) (by decide!)⟩

/-- C2 (failing input): at scale 1 and maxTextureSize 1024, for the glyph list 4 x 5 at size
24, 4 x 5 at size 12, 2 x 1 at size 24, `initPages` produces one page of 11 x 7 pixels and
gives the second glyph the locator rectangle with top 3 and bottom 8 on that page: the
bottom edge lies below the page height. -/
theorem initPages_locator_outside_page :
    (Atlas.initPages [exTall24, exTall12, exSmall24] 1 1024).pages.map
      (fun p => (p.width, p.height)) = [(11, 7)] ∧
    (Atlas.initPages [exTall24, exTall12, exSmall24] 1 1024).glyphLocators.find
      (exTall12.computeAtlasKey []) = some ⟨0, ⟨6, 3, 10, 8⟩⟩ := by
  decide!

/-- C5 (failing input): for the glyph list made of "A" without synthesis and "A" with synthetic
bold, same typeface, size and paint, `initPages` emits a single TextRun whose font has no
synthetic bold and which holds the glyph ids of both glyphs; the second glyph's own font has
synthetic bold. -/
theorem initPages_run_font_mismatch :
    (Atlas.initPages [exPlainA, exBoldA] 1 1024).pages.map
      (fun p => p.textRuns.map (fun r => (r.textFont, r.glyphIDs))) =
        [[(exFont24, [36, 36])]] ∧
    exBoldA.font = exFont24Bold ∧ exFont24Bold ≠ exFont24 ∧
    exPlainA.computeAtlasKey [] ≠ exBoldA.computeAtlasKey [] := by
  decide!

/-! ## Lemmas on `initAtlasGlyphs` -/

theorem initGlyphStep_eq_foldl (paint : TextPaint) (st : GlyphLists) (glyph : SimpleGlyph) :
    initGlyphStep paint st glyph = (requestedFor paint glyph).foldl GlyphLists.pushGlyph st := by
  unfold initGlyphStep requestedFor GlyphLists.pushGlyph
  cases hc : glyph.font.typeface.hasColor <;> cases hs : paint.style <;>
    simp [AtlasGlyph.fill, AtlasGlyph.stroke, hc]

theorem foldl_flatMap {α β γ : Type} (f : γ → β → γ) (g : α → List β) :
    ∀ (l : List α) (c : γ),
      (l.flatMap g).foldl f c = l.foldl (fun c a => (g a).foldl f c) c := by
  intro l
  induction l with
  | nil => intro c; rfl
  | cons a rest ih =>
    intro c
    rw [List.flatMap_cons, List.foldl_append, ih, List.foldl_cons]

theorem collectAtlasGlyphs_eq_foldl (docs : List GlyphDocument) (st : GlyphLists) :
    collectAtlasGlyphs docs st = (requestedGlyphs docs).foldl GlyphLists.pushGlyph st := by
  unfold collectAtlasGlyphs requestedGlyphs
  rw [foldl_flatMap]
  congr 1
  funext st doc
  rw [foldl_flatMap]
  congr 1
  funext st g
  exact initGlyphStep_eq_foldl doc.paint st g

theorem GlyphLists.pushGlyph_atlasKeys (st : GlyphLists) (ag : AtlasGlyph) (k : BytesKey) :
    k ∈ (st.pushGlyph ag).atlasKeys ↔ k ∈ st.atlasKeys ∨ k = atlasKeyOf ag := by
  unfold GlyphLists.pushGlyph GlyphLists.pushIfNew atlasKeyOf
  simp only
  split_ifs with hmem hc
  · constructor
    · exact fun h => Or.inl h
    · rintro (h | h)
      · exact h
      · rw [h]; exact hmem
  · simp [List.mem_append]
  · simp [List.mem_append]

theorem GlyphLists.pushGlyph_keysInSync (st : GlyphLists) (ag : AtlasGlyph)
    (h : st.keysInSync) : (st.pushGlyph ag).keysInSync := by
  obtain ⟨hperm, hnodup⟩ := h
  unfold GlyphLists.pushGlyph GlyphLists.pushIfNew GlyphLists.keysInSync
  simp only
  have hsingle : ∀ l : List BytesKey, l.Nodup → ag.computeAtlasKey [] ∉ l →
      (l ++ [ag.computeAtlasKey []]).Nodup := by
    intro l hl hm
    rw [List.nodup_append]
    refine ⟨hl, List.nodup_singleton _, ?_⟩
    intro x hx hx'
    rw [List.mem_singleton] at hx'
    subst hx'
    exact hm hx
  split_ifs with hmem hc
  · exact ⟨hperm, hnodup⟩
  · refine ⟨?_, hsingle _ hnodup hmem⟩
    simp only [List.map_append, List.map_cons, List.map_nil]
    rw [← List.append_assoc]
    exact List.Perm.append_right _ hperm
  · refine ⟨?_, hsingle _ hnodup hmem⟩
    simp only [List.map_append, List.map_cons, List.map_nil]
    refine List.Perm.trans (List.Perm.append_right _ hperm) ?_
    rw [List.append_assoc, List.append_assoc]
    exact List.Perm.append_left _ List.perm_append_comm

theorem GlyphLists.pushGlyph_colorSplit (st : GlyphLists) (ag : AtlasGlyph)
    (h : st.colorSplit) : (st.pushGlyph ag).colorSplit := by
  obtain ⟨hm, hc⟩ := h
  unfold GlyphLists.pushGlyph GlyphLists.pushIfNew GlyphLists.colorSplit
  simp only
  split_ifs with hmem hcol
  · exact ⟨hm, hc⟩
  · refine ⟨hm, ?_⟩
    intro a ha
    rcases List.mem_append.1 ha with h | h
    · exact hc a h
    · rw [List.mem_singleton] at h
      subst h
      exact hcol
  · refine ⟨?_, hc⟩
    intro a ha
    rcases List.mem_append.1 ha with h | h
    · exact hm a h
    · rw [List.mem_singleton] at h
      subst h
      simpa [AtlasGlyph.font] using hcol

theorem foldl_pushGlyph_atlasKeys (cands : List AtlasGlyph) :
    ∀ (st : GlyphLists) (k : BytesKey),
      k ∈ (cands.foldl GlyphLists.pushGlyph st).atlasKeys ↔
        k ∈ st.atlasKeys ∨ k ∈ cands.map atlasKeyOf := by
  induction cands with
  | nil => intro st k; simp
  | cons a rest ih =>
    intro st k
    rw [List.foldl_cons, ih, GlyphLists.pushGlyph_atlasKeys]
    simp only [List.map_cons, List.mem_cons]
    tauto

theorem foldl_pushGlyph_keysInSync (cands : List AtlasGlyph) (st : GlyphLists)
    (h : st.keysInSync) : (cands.foldl GlyphLists.pushGlyph st).keysInSync :=
  foldl_invariant GlyphLists.keysInSync (fun _ => True) GlyphLists.pushGlyph
    (fun b a hb _ => GlyphLists.pushGlyph_keysInSync b a hb) cands st (fun _ _ => trivial) h

theorem foldl_pushGlyph_colorSplit (cands : List AtlasGlyph) (st : GlyphLists)
    (h : st.colorSplit) : (cands.foldl GlyphLists.pushGlyph st).colorSplit :=
  foldl_invariant GlyphLists.colorSplit (fun _ => True) GlyphLists.pushGlyph
    (fun b a hb _ => GlyphLists.pushGlyph_colorSplit b a hb) cands st (fun _ _ => trivial) h

/-! ## Lemmas on the locator map and on grouping -/

theorem LocatorMap.mem_keys_set (key : BytesKey) (locator : AtlasLocator) (k : BytesKey) :
    ∀ m : LocatorMap, k ∈ (m.set key locator).keys ↔ k ∈ m.keys ∨ k = key := by
  intro m
  induction m with
  | nil => simp [LocatorMap.set, LocatorMap.keys]
  | cons e rest ih =>
    unfold LocatorMap.keys at ih ⊢
    simp only [LocatorMap.set]
    split_ifs with h
    · simp only [List.map_cons, List.mem_cons]
      constructor
      · rintro (h1 | h1)
        · exact Or.inr h1
        · exact Or.inl (Or.inr h1)
      · rintro ((h1 | h1) | h1)
        · left; rw [h1, h]
        · exact Or.inr h1
        · exact Or.inl h1
    · simp only [List.map_cons, List.mem_cons, ih]
      tauto

theorem LocatorMap.find_isSome (key : BytesKey) :
    ∀ m : LocatorMap, key ∈ m.keys → ∃ loc, m.find key = some loc ∧ (key, loc) ∈ m := by
  intro m
  induction m with
  | nil => intro h; simp [LocatorMap.keys] at h
  | cons e rest ih =>
    intro h
    unfold LocatorMap.find
    by_cases he : e.1 = key
    · refine ⟨e.2, ?_, ?_⟩
      · simp [List.find?, he]
      · rw [← he]; exact List.mem_cons_self _ _
    · have hr : key ∈ LocatorMap.keys rest := by
        simp only [LocatorMap.keys, List.map_cons, List.mem_cons] at h
        rcases h with h | h
        · exact absurd h.symm he
        · exact h
      obtain ⟨loc, h1, h2⟩ := ih hr
      refine ⟨loc, ?_, List.mem_cons_of_mem _ h2⟩
      unfold LocatorMap.find at h1
      rw [List.find?_cons_of_neg _ (by simpa using he)]
      exact h1

theorem LocatorMap.find_none (key : BytesKey) :
    ∀ m : LocatorMap, key ∉ m.keys → m.find key = none := by
  intro m
  induction m with
  | nil => intro _; rfl
  | cons e rest ih =>
    intro h
    simp only [LocatorMap.keys, List.map_cons, List.mem_cons, not_or] at h
    have hr := ih h.2
    unfold LocatorMap.find at hr ⊢
    have he : ¬ e.1 = key := fun hh => h.1 hh.symm
    rw [List.find?_cons_of_neg _ (by simpa using he)]
    exact hr

theorem packGlyph_locatorKeys (scale : ℚ) (M : Int) (firstGlyph : AtlasGlyph)
    (acc : PagesState × TextRun) (glyph : AtlasGlyph) (k : BytesKey) :
    k ∈ (packGlyph scale M firstGlyph acc glyph).1.glyphLocators.keys ↔
      k ∈ acc.1.glyphLocators.keys ∨ k = atlasKeyOf glyph := by
  unfold packGlyph
  simp only
  rw [LocatorMap.mem_keys_set]
  rfl

theorem foldl_packGlyph_locatorKeys (scale : ℚ) (M : Int) (firstGlyph : AtlasGlyph)
    (group : List AtlasGlyph) :
    ∀ (acc : PagesState × TextRun) (k : BytesKey),
      k ∈ (group.foldl (packGlyph scale M firstGlyph) acc).1.glyphLocators.keys ↔
        k ∈ acc.1.glyphLocators.keys ∨ k ∈ group.map atlasKeyOf := by
  induction group with
  | nil => intro acc k; simp
  | cons a rest ih =>
    intro acc k
    rw [List.foldl_cons, ih, packGlyph_locatorKeys]
    simp only [List.map_cons, List.mem_cons]
    tauto

theorem packGroup_locatorKeys (scale : ℚ) (M : Int) (st : PagesState)
    (group : List AtlasGlyph) (k : BytesKey) :
    k ∈ (packGroup scale M st group).glyphLocators.keys ↔
      k ∈ st.glyphLocators.keys ∨ k ∈ group.map atlasKeyOf := by
  unfold packGroup
  cases group with
  | nil => simp
  | cons firstGlyph rest =>
    simp only
    exact foldl_packGlyph_locatorKeys scale M firstGlyph (firstGlyph :: rest) _ k

theorem foldl_packGroup_locatorKeys (scale : ℚ) (M : Int) (styleMap : StyleMap)
    (styleKeys : List BytesKey) :
    ∀ (st : PagesState) (k : BytesKey),
      k ∈ (styleKeys.foldl (fun st key => packGroup scale M st (styleMap.get key))
          st).glyphLocators.keys ↔
        k ∈ st.glyphLocators.keys ∨
          ∃ key ∈ styleKeys, k ∈ (styleMap.get key).map atlasKeyOf := by
  induction styleKeys with
  | nil => intro st k; simp
  | cons a rest ih =>
    intro st k
    rw [List.foldl_cons, ih, packGroup_locatorKeys]
    simp only [List.mem_cons, exists_eq_or_imp]
    tauto

theorem StyleMap.get_nil (key : BytesKey) : StyleMap.get [] key = [] := rfl

theorem StyleMap.get_cons (e : BytesKey × List AtlasGlyph) (rest : StyleMap) (key : BytesKey) :
    StyleMap.get (e :: rest) key = if e.1 = key then e.2 else StyleMap.get rest key := by
  unfold StyleMap.get
  by_cases h : e.1 = key
  · rw [if_pos h, List.find?_cons_of_pos _ (by simpa using h)]
  · rw [if_neg h, List.find?_cons_of_neg _ (by simpa using h)]

theorem StyleMap.get_push (key key' : BytesKey) (g : AtlasGlyph) :
    ∀ m : StyleMap, (StyleMap.push m key g).get key' =
      if key' = key then m.get key ++ [g] else m.get key' := by
  intro m
  induction m with
  | nil =>
    simp only [StyleMap.push, StyleMap.get_cons, StyleMap.get_nil, List.nil_append]
    by_cases h : key = key'
    · rw [if_pos h, if_pos h.symm]
    · rw [if_neg h, if_neg (fun hh => h hh.symm)]
  | cons e rest ih =>
    simp only [StyleMap.push]
    by_cases he : e.1 = key
    · rw [if_pos he]
      simp only [StyleMap.get_cons]
      by_cases hk : key' = key
      · rw [if_pos hk, if_pos he, if_pos (he.trans hk.symm)]
      · rw [if_neg hk, if_neg (fun hh => hk (hh.symm.trans he))]
        rw [if_neg (fun hh => hk (hh.symm.trans he))]
    · rw [if_neg he]
      simp only [StyleMap.get_cons, ih]
      by_cases hk : key' = key
      · rw [if_pos hk, if_neg he, if_neg (fun hh => he (hh.trans hk)), if_pos hk]
      · rw [if_neg hk, if_neg hk]

theorem StyleMap.map_fst_push (key : BytesKey) (g : AtlasGlyph) :
    ∀ m : StyleMap, (StyleMap.push m key g).map Prod.fst =
      if key ∈ m.map Prod.fst then m.map Prod.fst else m.map Prod.fst ++ [key] := by
  intro m
  induction m with
  | nil => simp [StyleMap.push]
  | cons e rest ih =>
    simp only [StyleMap.push]
    by_cases he : e.1 = key
    · rw [if_pos he]
      simp [he]
    · rw [if_neg he]
      simp only [List.map_cons, ih, List.mem_cons]
      have hne : ¬ key = e.1 := fun hh => he hh.symm
      by_cases hm : key ∈ rest.map Prod.fst
      · rw [if_pos hm, if_pos (Or.inr hm)]
      · rw [if_neg hm, if_neg (by rintro (h | h); exact hne h; exact hm h)]
        rfl

theorem groupStep_fst (acc : List BytesKey × StyleMap) (g : AtlasGlyph) :
    (groupStep acc g).1 =
      if styleKeyOf g ∈ acc.2.map Prod.fst then acc.1 else acc.1 ++ [styleKeyOf g] := by
  unfold groupStep
  simp only
  have hlen : (StyleMap.push acc.2 (g.computeStyleKey []) g).length =
      ((StyleMap.push acc.2 (g.computeStyleKey []) g).map Prod.fst).length := by simp
  rw [StyleMap.map_fst_push] at hlen
  by_cases hm : styleKeyOf g ∈ acc.2.map Prod.fst
  · have hm' : g.computeStyleKey [] ∈ acc.2.map Prod.fst := hm
    rw [if_pos hm'] at hlen
    rw [if_pos hm, if_neg (by simp [hlen])]
  · have hm' : g.computeStyleKey [] ∉ acc.2.map Prod.fst := hm
    rw [if_neg hm'] at hlen
    rw [if_neg hm, if_pos (by simp [hlen])]
    rfl

theorem groupStep_snd (acc : List BytesKey × StyleMap) (g : AtlasGlyph) :
    (groupStep acc g).2 = StyleMap.push acc.2 (styleKeyOf g) g := by
  unfold groupStep
  simp only
  split_ifs <;> rfl

theorem groupStep_keysListed (acc : List BytesKey × StyleMap) (g : AtlasGlyph)
    (h : groupKeysListed acc) : groupKeysListed (groupStep acc g) := by
  intro e he
  rw [groupStep_snd] at he
  have hk : e.1 ∈ (StyleMap.push acc.2 (styleKeyOf g) g).map Prod.fst :=
    List.mem_map_of_mem Prod.fst he
  rw [StyleMap.map_fst_push] at hk
  rw [groupStep_fst]
  by_cases hm : styleKeyOf g ∈ acc.2.map Prod.fst
  · rw [if_pos hm] at hk ⊢
    obtain ⟨e', he', heq⟩ := List.mem_map.1 hk
    rw [← heq]
    exact h e' he'
  · rw [if_neg hm] at hk ⊢
    rcases List.mem_append.1 hk with h1 | h1
    · obtain ⟨e', he', heq⟩ := List.mem_map.1 h1
      rw [← heq]
      exact List.mem_append_left _ (h e' he')
    · exact List.mem_append_right _ h1

theorem foldl_groupStep_spec (glyphs : List AtlasGlyph) :
    ∀ acc : List BytesKey × StyleMap, groupKeysListed acc →
      groupKeysListed (glyphs.foldl groupStep acc) ∧
      (∀ k ∈ acc.1, k ∈ (glyphs.foldl groupStep acc).1) ∧
      (∀ k x, x ∈ acc.2.get k → x ∈ (glyphs.foldl groupStep acc).2.get k) ∧
      (∀ g ∈ glyphs, styleKeyOf g ∈ (glyphs.foldl groupStep acc).1 ∧
        g ∈ (glyphs.foldl groupStep acc).2.get (styleKeyOf g)) := by
  induction glyphs with
  | nil =>
    intro acc h
    exact ⟨h, fun _ hk => hk, fun _ _ hx => hx, fun g hg => by simp at hg⟩
  | cons a rest ih =>
    intro acc h
    rw [List.foldl_cons]
    obtain ⟨h1, h2, h3, h4⟩ := ih (groupStep acc a) (groupStep_keysListed acc a h)
    have hkeys : ∀ k ∈ acc.1, k ∈ (groupStep acc a).1 := by
      intro k hk
      rw [groupStep_fst]
      split_ifs
      · exact hk
      · exact List.mem_append_left _ hk
    have hget : ∀ k x, x ∈ acc.2.get k → x ∈ (groupStep acc a).2.get k := by
      intro k x hx
      rw [groupStep_snd, StyleMap.get_push]
      split_ifs with hk
      · rw [hk] at hx
        exact List.mem_append_left _ hx
      · exact hx
    have hself : styleKeyOf a ∈ (groupStep acc a).1 ∧
        a ∈ (groupStep acc a).2.get (styleKeyOf a) := by
      constructor
      · rw [groupStep_fst]
        split_ifs with hm
        · obtain ⟨e', he', heq⟩ := List.mem_map.1 hm
          rw [← heq]
          exact h e' he'
        · simp
      · rw [groupStep_snd, StyleMap.get_push, if_pos rfl]
        simp
    refine ⟨h1, fun k hk => h2 k (hkeys k hk), fun k x hx => h3 k x (hget k x hx), ?_⟩
    intro g hg
    rcases List.mem_cons.1 hg with hga | hgr
    · subst hga
      exact ⟨h2 _ hself.1, h3 _ _ hself.2⟩
    · exact h4 g hgr

theorem groupByStyle_covers (glyphs : List AtlasGlyph) (g : AtlasGlyph) (hg : g ∈ glyphs) :
    styleKeyOf g ∈ (groupByStyle glyphs).1 ∧
      g ∈ (groupByStyle glyphs).2.get (styleKeyOf g) :=
  (foldl_groupStep_spec glyphs ([], []) (fun e he => by simp at he)).2.2.2 g hg

theorem initPages_locatorKeys (glyphs : List AtlasGlyph) (scale : ℚ) (maxTextureSize : Int)
    (k : BytesKey) :
    k ∈ (Atlas.initPages glyphs scale maxTextureSize).glyphLocators.keys ↔
      k ∈ glyphs.map atlasKeyOf := by
  unfold Atlas.initPages
  simp only
  rw [foldl_packGroup_locatorKeys]
  constructor
  · rintro (h | ⟨key, _, h⟩)
    · simp [LocatorMap.keys] at h
    · obtain ⟨g, hg, hgk⟩ := List.mem_map.1 h
      exact List.mem_map.2
        ⟨g, StyleMap.get_within _ glyphs (groupByStyle_within glyphs) key g hg, hgk⟩
  · intro h
    obtain ⟨g, hg, hgk⟩ := List.mem_map.1 h
    obtain ⟨h1, h2⟩ := groupByStyle_covers glyphs g hg
    exact Or.inr ⟨styleKeyOf g, h1, List.mem_map.2 ⟨g, h2, hgk⟩⟩

/-! ## Lemmas on the glyph lists of a `TextAtlas` -/

theorem SortAtlasGlyphs_perm
    (stdSort : (AtlasGlyph → AtlasGlyph → Bool) → List AtlasGlyph → List AtlasGlyph)
    (hsort : ∀ l, (stdSort atlasGlyphOrder l).Perm l) (l : List AtlasGlyph) :
    (SortAtlasGlyphs stdSort l).Perm l := by
  unfold SortAtlasGlyphs
  split_ifs
  · exact List.Perm.refl l
  · exact hsort l

theorem exSort_perm (l : List AtlasGlyph) : (exSort atlasGlyphOrder l).Perm l :=
  List.perm_insertionSort _ l

theorem TextAtlas.new_maskGlyphs
    (stdSort : (AtlasGlyph → AtlasGlyph → Bool) → List AtlasGlyph → List AtlasGlyph)
    (docs : List GlyphDocument) :
    (TextAtlas.new stdSort docs).maskGlyphs =
      SortAtlasGlyphs stdSort
        ((requestedGlyphs docs).foldl GlyphLists.pushGlyph {}).maskGlyphs := by
  rw [← collectAtlasGlyphs_eq_foldl]
  rfl

theorem TextAtlas.new_colorGlyphs
    (stdSort : (AtlasGlyph → AtlasGlyph → Bool) → List AtlasGlyph → List AtlasGlyph)
    (docs : List GlyphDocument) :
    (TextAtlas.new stdSort docs).colorGlyphs =
      SortAtlasGlyphs stdSort
        ((requestedGlyphs docs).foldl GlyphLists.pushGlyph {}).colorGlyphs := by
  rw [← collectAtlasGlyphs_eq_foldl]
  rfl

theorem GlyphLists.empty_keysInSync : ({} : GlyphLists).keysInSync :=
  ⟨List.Perm.refl _, List.nodup_nil⟩

theorem GlyphLists.empty_colorSplit : ({} : GlyphLists).colorSplit :=
  ⟨fun a ha => by simp at ha, fun a ha => by simp at ha⟩

theorem TextAtlas.new_keys_perm
    (stdSort : (AtlasGlyph → AtlasGlyph → Bool) → List AtlasGlyph → List AtlasGlyph)
    (hsort : ∀ l, (stdSort atlasGlyphOrder l).Perm l) (docs : List GlyphDocument) :
    (((TextAtlas.new stdSort docs).maskGlyphs ++
        (TextAtlas.new stdSort docs).colorGlyphs).map atlasKeyOf).Perm
      ((requestedGlyphs docs).foldl GlyphLists.pushGlyph {}).atlasKeys := by
  rw [TextAtlas.new_maskGlyphs, TextAtlas.new_colorGlyphs]
  have hsync := foldl_pushGlyph_keysInSync (requestedGlyphs docs) {}
    GlyphLists.empty_keysInSync
  refine List.Perm.trans ?_ hsync.1.symm
  rw [← List.map_append]
  exact List.Perm.map _ (List.Perm.append (SortAtlasGlyphs_perm stdSort hsort _)
    (SortAtlasGlyphs_perm stdSort hsort _))

/-- If `std::sort` permutes its input, then after `initAtlasGlyphs` the
AtlasGlyphs of `maskGlyphs` and `colorGlyphs` have pairwise distinct atlas keys, and their
number is the number of distinct atlas keys among the AtlasGlyphs the documents ask for,
whatever the order of the documents. -/
theorem initAtlasGlyphs_dedup
    (stdSort : (AtlasGlyph → AtlasGlyph → Bool) → List AtlasGlyph → List AtlasGlyph)
    (hsort : ∀ l, (stdSort atlasGlyphOrder l).Perm l) (docs : List GlyphDocument) :
    (((TextAtlas.new stdSort docs).maskGlyphs ++
        (TextAtlas.new stdSort docs).colorGlyphs).map atlasKeyOf).Nodup ∧
    ((TextAtlas.new stdSort docs).maskGlyphs ++
        (TextAtlas.new stdSort docs).colorGlyphs).length =
      ((requestedGlyphs docs).map atlasKeyOf).dedup.length := by
  have hperm := TextAtlas.new_keys_perm stdSort hsort docs
  have hsync := foldl_pushGlyph_keysInSync (requestedGlyphs docs) {}
    GlyphLists.empty_keysInSync
  refine ⟨hperm.nodup_iff.2 hsync.2, ?_⟩
  have hlen := hperm.length_eq
  rw [List.length_map] at hlen
  rw [hlen]
  apply List.Perm.length_eq
  rw [List.perm_ext_iff_of_nodup hsync.2 (List.nodup_dedup _)]
  intro k
  rw [foldl_pushGlyph_atlasKeys, List.mem_dedup]
  simp

/-- With an insertion sort, two `Fill` documents with the same text "AB" in one non-color
typeface give exactly 2 AtlasGlyphs, with distinct atlas keys. -/
theorem initAtlasGlyphs_dedup_witness :
    (((TextAtlas.new exSort [exDocAB, exDocAB]).maskGlyphs ++
        (TextAtlas.new exSort [exDocAB, exDocAB]).colorGlyphs).map atlasKeyOf).Nodup ∧
    ((TextAtlas.new exSort [exDocAB, exDocAB]).maskGlyphs ++
        (TextAtlas.new exSort [exDocAB, exDocAB]).colorGlyphs).length =
      ((requestedGlyphs [exDocAB, exDocAB]).map atlasKeyOf).dedup.length ∧
    ((requestedGlyphs [exDocAB, exDocAB]).map atlasKeyOf).dedup.length = 2 :=
  ⟨(initAtlasGlyphs_dedup exSort exSort_perm [exDocAB, exDocAB]).1,
    (initAtlasGlyphs_dedup exSort exSort_perm [exDocAB, exDocAB]).2, by decide!⟩

theorem TextAtlas.new_colorSplit
    (stdSort : (AtlasGlyph → AtlasGlyph → Bool) → List AtlasGlyph → List AtlasGlyph)
    (hsort : ∀ l, (stdSort atlasGlyphOrder l).Perm l) (docs : List GlyphDocument) :
    (∀ a ∈ (TextAtlas.new stdSort docs).maskGlyphs, a.font.typeface.hasColor = false) ∧
    (∀ a ∈ (TextAtlas.new stdSort docs).colorGlyphs, a.font.typeface.hasColor = true) := by
  have hsplit := foldl_pushGlyph_colorSplit (requestedGlyphs docs) {}
    GlyphLists.empty_colorSplit
  rw [TextAtlas.new_maskGlyphs, TextAtlas.new_colorGlyphs]
  constructor
  · intro a ha
    exact hsplit.1 a ((SortAtlasGlyphs_perm stdSort hsort _).mem_iff.1 ha)
  · intro a ha
    exact hsplit.2 a ((SortAtlasGlyphs_perm stdSort hsort _).mem_iff.1 ha)

/-- If `std::sort` permutes its input, then after `initAtlasGlyphs` every
AtlasGlyph of `maskGlyphs` has a typeface without color and every AtlasGlyph of `colorGlyphs`
a typeface with color; hence, at every scale and texture limit, every locator of the atlas
built from `maskGlyphs` is stored under the atlas key of a glyph without color, and every
locator of the atlas built from `colorGlyphs` under the key of a glyph with color. -/
theorem initAtlasGlyphs_color_split
    (stdSort : (AtlasGlyph → AtlasGlyph → Bool) → List AtlasGlyph → List AtlasGlyph)
    (hsort : ∀ l, (stdSort atlasGlyphOrder l).Perm l) (docs : List GlyphDocument) :
    (∀ a ∈ (TextAtlas.new stdSort docs).maskGlyphs, a.font.typeface.hasColor = false) ∧
    (∀ a ∈ (TextAtlas.new stdSort docs).colorGlyphs, a.font.typeface.hasColor = true) ∧
    (∀ (scale : ℚ) (maxTextureSize : Int),
      ∀ e ∈ (Atlas.initPages (TextAtlas.new stdSort docs).maskGlyphs scale
          maxTextureSize).glyphLocators,
        ∃ a ∈ (TextAtlas.new stdSort docs).maskGlyphs,
          atlasKeyOf a = e.1 ∧ a.font.typeface.hasColor = false) ∧
    (∀ (scale : ℚ) (maxTextureSize : Int),
      ∀ e ∈ (Atlas.initPages (TextAtlas.new stdSort docs).colorGlyphs scale
          maxTextureSize).glyphLocators,
        ∃ a ∈ (TextAtlas.new stdSort docs).colorGlyphs,
          atlasKeyOf a = e.1 ∧ a.font.typeface.hasColor = true) := by
  obtain ⟨hm, hc⟩ := TextAtlas.new_colorSplit stdSort hsort docs
  refine ⟨hm, hc, ?_, ?_⟩
  · intro scale mts e he
    have hk : e.1 ∈ (Atlas.initPages (TextAtlas.new stdSort docs).maskGlyphs scale
        mts).glyphLocators.keys := List.mem_map_of_mem Prod.fst he
    rw [initPages_locatorKeys] at hk
    obtain ⟨a, ha, hak⟩ := List.mem_map.1 hk
    exact ⟨a, ha, hak, hm a ha⟩
  · intro scale mts e he
    have hk : e.1 ∈ (Atlas.initPages (TextAtlas.new stdSort docs).colorGlyphs scale
        mts).glyphLocators.keys := List.mem_map_of_mem Prod.fst he
    rw [initPages_locatorKeys] at hk
    obtain ⟨a, ha, hak⟩ := List.mem_map.1 hk
    exact ⟨a, ha, hak, hc a ha⟩

/-- The color split for an insertion sort and the documents "AB" (fill), "A"
(stroke and fill) and an emoji of a color typeface (stroke and fill). -/
theorem initAtlasGlyphs_color_split_witness :
    (∀ a ∈ (TextAtlas.new exSort [exDocAB, exDocStrokedA, exDocEmoji]).maskGlyphs,
      a.font.typeface.hasColor = false) ∧
    (∀ a ∈ (TextAtlas.new exSort [exDocAB, exDocStrokedA, exDocEmoji]).colorGlyphs,
      a.font.typeface.hasColor = true) ∧
    (TextAtlas.new exSort [exDocAB, exDocStrokedA, exDocEmoji]).maskGlyphs.length = 3 ∧
    (TextAtlas.new exSort [exDocAB, exDocStrokedA, exDocEmoji]).colorGlyphs.length = 1 :=
  ⟨(initAtlasGlyphs_color_split exSort exSort_perm [exDocAB, exDocStrokedA, exDocEmoji]).1,
    (initAtlasGlyphs_color_split exSort exSort_perm [exDocAB, exDocStrokedA, exDocEmoji]).2.1,
    by decide!, by decide!⟩

theorem stroke_fill_keys_ne (g : SimpleGlyph) (w : F32) :
    atlasKeyOf (AtlasGlyph.stroke g w) ≠ atlasKeyOf (AtlasGlyph.fill g) := by
  intro h
  unfold atlasKeyOf at h
  rw [AtlasGlyph.atlasKey_eq_iff] at h
  have := h.2.2.2.2.1
  simp [AtlasGlyph.stroke, AtlasGlyph.fill] at this

/-- C9: for one document with one glyph (with `std::sort` any routine that permutes its
input), `initAtlasGlyphs` creates, for a typeface without color, exactly the stroked
AtlasGlyph (style `Stroke`, width the paint's stroke width) when the text style is `Stroke`,
exactly the fill AtlasGlyph (style `Fill`, width 0) when it is `Fill`, and both, with distinct
atlas keys, when it is `StrokeAndFill`; for a typeface with color, exactly the fill AtlasGlyph
in `colorGlyphs` when the style is `Fill` or `StrokeAndFill`, and nothing when it is
`Stroke`. -/
theorem initAtlasGlyphs_single_glyph
    (stdSort : (AtlasGlyph → AtlasGlyph → Bool) → List AtlasGlyph → List AtlasGlyph)
    (hsort : ∀ l, (stdSort atlasGlyphOrder l).Perm l) (g : SimpleGlyph) (paint : TextPaint) :
    (g.font.typeface.hasColor = false → paint.style = TextStyle.Stroke →
      (TextAtlas.new stdSort [{ glyphs := [g], paint := paint }]).maskGlyphs =
          [{ glyph := g, strokeWidth := paint.strokeWidth, style := PaintStyle.Stroke }] ∧
        (TextAtlas.new stdSort [{ glyphs := [g], paint := paint }]).colorGlyphs = []) ∧
    (g.font.typeface.hasColor = false → paint.style = TextStyle.Fill →
      (TextAtlas.new stdSort [{ glyphs := [g], paint := paint }]).maskGlyphs =
          [{ glyph := g, strokeWidth := F32.zero, style := PaintStyle.Fill }] ∧
        (TextAtlas.new stdSort [{ glyphs := [g], paint := paint }]).colorGlyphs = []) ∧
    (g.font.typeface.hasColor = false → paint.style = TextStyle.StrokeAndFill →
      (TextAtlas.new stdSort [{ glyphs := [g], paint := paint }]).maskGlyphs.Perm
          [{ glyph := g, strokeWidth := paint.strokeWidth, style := PaintStyle.Stroke },
           { glyph := g, strokeWidth := F32.zero, style := PaintStyle.Fill }] ∧
        atlasKeyOf { glyph := g, strokeWidth := paint.strokeWidth, style := PaintStyle.Stroke } ≠
          atlasKeyOf { glyph := g, strokeWidth := F32.zero, style := PaintStyle.Fill } ∧
        (TextAtlas.new stdSort [{ glyphs := [g], paint := paint }]).colorGlyphs = []) ∧
    (g.font.typeface.hasColor = true →
      paint.style = TextStyle.Fill ∨ paint.style = TextStyle.StrokeAndFill →
      (TextAtlas.new stdSort [{ glyphs := [g], paint := paint }]).colorGlyphs =
          [{ glyph := g, strokeWidth := F32.zero, style := PaintStyle.Fill }] ∧
        (TextAtlas.new stdSort [{ glyphs := [g], paint := paint }]).maskGlyphs = []) ∧
    (g.font.typeface.hasColor = true → paint.style = TextStyle.Stroke →
      (TextAtlas.new stdSort [{ glyphs := [g], paint := paint }]).colorGlyphs = [] ∧
        (TextAtlas.new stdSort [{ glyphs := [g], paint := paint }]).maskGlyphs = []) := by
  have hnil : SortAtlasGlyphs stdSort [] = ([] : List AtlasGlyph) := rfl
  have hone : ∀ a : AtlasGlyph, SortAtlasGlyphs stdSort [a] = [a] := by
    intro a
    exact List.perm_singleton.1 (SortAtlasGlyphs_perm stdSort hsort [a])
  have hkey := stroke_fill_keys_ne g paint.strokeWidth
  simp only [AtlasGlyph.stroke, AtlasGlyph.fill, atlasKeyOf] at hkey
  have hkey' := fun h => hkey (Eq.symm h)
  rw [TextAtlas.new_maskGlyphs, TextAtlas.new_colorGlyphs]
  have hreq : requestedGlyphs [{ glyphs := [g], paint := paint }] = requestedFor paint g := by
    simp [requestedGlyphs]
  rw [hreq]
  refine ⟨?_, ?_, ?_, ?_, ?_⟩
  · intro hc hs
    simp [requestedFor, hc, hs, GlyphLists.pushGlyph, GlyphLists.pushIfNew, AtlasGlyph.stroke,
      hone, hnil]
  · intro hc hs
    simp [requestedFor, hc, hs, GlyphLists.pushGlyph, GlyphLists.pushIfNew, AtlasGlyph.fill,
      hone, hnil]
  · intro hc hs
    refine ⟨?_, hkey, ?_⟩
    · have : ((requestedFor paint g).foldl GlyphLists.pushGlyph {}).maskGlyphs =
          [AtlasGlyph.stroke g paint.strokeWidth, AtlasGlyph.fill g] := by
        simp [requestedFor, hc, hs, GlyphLists.pushGlyph, GlyphLists.pushIfNew,
          AtlasGlyph.stroke, AtlasGlyph.fill]
        rw [if_neg hkey']
      rw [this]
      exact SortAtlasGlyphs_perm stdSort hsort _
    · simp [requestedFor, hc, hs, GlyphLists.pushGlyph, GlyphLists.pushIfNew,
        AtlasGlyph.stroke, AtlasGlyph.fill]
      rw [if_neg hkey']
      exact hnil
  · intro hc hs
    rcases hs with hs | hs <;>
      simp [requestedFor, hc, hs, GlyphLists.pushGlyph, GlyphLists.pushIfNew, AtlasGlyph.fill,
        hone, hnil]
  · intro hc hs
    simp [requestedFor, hc, hs, hnil]

/-- C9 (witness): the glyph "A" of a typeface without color with style `StrokeAndFill` and
stroke width 4 gives the stroked and the fill AtlasGlyph, and the emoji of a color typeface
with the same paint gives the fill AtlasGlyph only. -/
theorem initAtlasGlyphs_single_glyph_witness :
    ((TextAtlas.new exSort [{ glyphs := [exSimpleA], paint := exDocStrokedA.paint }]).maskGlyphs.Perm
        [{ glyph := exSimpleA, strokeWidth := exDocStrokedA.paint.strokeWidth,
           style := PaintStyle.Stroke },
         { glyph := exSimpleA, strokeWidth := F32.zero, style := PaintStyle.Fill }] ∧
      atlasKeyOf { glyph := exSimpleA, strokeWidth := exDocStrokedA.paint.strokeWidth,
                   style := PaintStyle.Stroke } ≠
        atlasKeyOf { glyph := exSimpleA, strokeWidth := F32.zero, style := PaintStyle.Fill } ∧
      (TextAtlas.new exSort
        [{ glyphs := [exSimpleA], paint := exDocStrokedA.paint }]).colorGlyphs = []) ∧
    ((TextAtlas.new exSort [{ glyphs := [exEmoji], paint := exDocEmoji.paint }]).colorGlyphs =
        [{ glyph := exEmoji, strokeWidth := F32.zero, style := PaintStyle.Fill }] ∧
      (TextAtlas.new exSort
        [{ glyphs := [exEmoji], paint := exDocEmoji.paint }]).maskGlyphs = []) :=
  ⟨(initAtlasGlyphs_single_glyph exSort exSort_perm exSimpleA exDocStrokedA.paint).2.2.1
      (by decide) (by decide),
    (initAtlasGlyphs_single_glyph exSort exSort_perm exEmoji exDocEmoji.paint).2.2.2.1
      (by decide) (by decide)⟩

/-! ## Lemmas on `generateIfNeeded` and the lookup -/

theorem TextAtlas.generateAll_snoc (t : TextAtlas) (calls : List (ℚ × Int)) (scale : ℚ)
    (m : Int) :
    t.generateAll (calls ++ [(scale, m)]) = (t.generateAll calls).generateIfNeeded scale m := by
  unfold TextAtlas.generateAll
  rw [List.foldl_append]
  rfl

theorem TextAtlas.generateAll_maskGlyphs (calls : List (ℚ × Int)) :
    ∀ t : TextAtlas, (t.generateAll calls).maskGlyphs = t.maskGlyphs ∧
      (t.generateAll calls).colorGlyphs = t.colorGlyphs := by
  induction calls with
  | nil => intro t; exact ⟨rfl, rfl⟩
  | cons c rest ih =>
    intro t
    unfold TextAtlas.generateAll
    rw [List.foldl_cons]
    exact ih (t.generateIfNeeded c.1 c.2)

theorem TextAtlas.generateIfNeeded_atlasesBuilt (t : TextAtlas) (scale : ℚ) (m : Int)
    (h : t.atlasesBuilt) : (t.generateIfNeeded scale m).atlasesBuilt := by
  obtain ⟨hm, hc⟩ := h
  unfold TextAtlas.generateIfNeeded TextAtlas.atlasesBuilt
  simp only
  constructor
  · intro a ha
    split_ifs at ha with hcond
    · unfold Atlas.Make at ha
      split_ifs at ha
      exact ⟨scale, m, (Option.some.inj ha).symm⟩
    · exact hm a ha
  · intro a ha
    split_ifs at ha with hcond
    · unfold Atlas.Make at ha
      split_ifs at ha
      exact ⟨scale, m, (Option.some.inj ha).symm⟩
    · exact hc a ha

theorem TextAtlas.generateAll_atlasesBuilt (calls : List (ℚ × Int)) (t : TextAtlas)
    (h : t.atlasesBuilt) : (t.generateAll calls).atlasesBuilt := by
  unfold TextAtlas.generateAll
  refine foldl_invariant (fun t => TextAtlas.atlasesBuilt t) (fun _ => True)
    (fun t c => t.generateIfNeeded c.1 c.2) ?_ calls t (fun _ _ => trivial) h
  intro b a hb _
  exact TextAtlas.generateIfNeeded_atlasesBuilt b a.1 a.2 hb

theorem TextAtlas.generateIfNeeded_maskAtlas_present (t : TextAtlas) (scale : ℚ) (m : Int)
    (h : t.atlasesBuilt) (hne : t.maskGlyphs ≠ []) :
    ∃ a s' m', (t.generateIfNeeded scale m).maskAtlas = some a ∧
      a = Atlas.initPages t.maskGlyphs s' m' := by
  unfold TextAtlas.generateIfNeeded
  simp only
  have hmake : Atlas.Make scale t.maskGlyphs m =
      some (Atlas.initPages t.maskGlyphs scale m) := by
    unfold Atlas.Make
    rw [if_neg]
    intro he
    exact hne (List.isEmpty_iff.1 he)
  split_ifs with hcond
  · exact ⟨_, scale, m, hmake, rfl⟩
  · have hsome : t.maskAtlas ≠ none := fun hn => hcond (Or.inl hn)
    obtain ⟨a, ha⟩ := Option.ne_none_iff_exists'.1 hsome
    obtain ⟨s', m', hb⟩ := h.1 a ha
    exact ⟨a, s', m', ha, hb⟩

theorem foldl_pushGlyph_within (src : List AtlasGlyph) (cands : List AtlasGlyph)
    (hc : ∀ a ∈ cands, a ∈ src) (st : GlyphLists) (h : st.within src) :
    (cands.foldl GlyphLists.pushGlyph st).within src := by
  refine foldl_invariant (fun st => GlyphLists.within st src) (fun a => a ∈ src)
    GlyphLists.pushGlyph ?_ cands st hc h
  intro b a hb ha
  unfold GlyphLists.pushGlyph GlyphLists.pushIfNew GlyphLists.within
  simp only
  split_ifs
  · exact hb
  · refine ⟨hb.1, ?_⟩
    intro x hx
    rcases List.mem_append.1 hx with h1 | h1
    · exact hb.2 x h1
    · rw [List.mem_singleton] at h1; rw [h1]; exact ha
  · refine ⟨?_, hb.2⟩
    intro x hx
    rcases List.mem_append.1 hx with h1 | h1
    · exact hb.1 x h1
    · rw [List.mem_singleton] at h1; rw [h1]; exact ha

theorem requestedFor_glyph (paint : TextPaint) (g : SimpleGlyph) (a : AtlasGlyph)
    (h : a ∈ requestedFor paint g) : a.glyph = g := by
  unfold requestedFor at h
  split_ifs at h <;>
    simp [AtlasGlyph.fill, AtlasGlyph.stroke] at h <;>
    (rcases h with rfl | rfl <;> rfl)

theorem requestedGlyphs_source (docs : List GlyphDocument) (a : AtlasGlyph)
    (h : a ∈ requestedGlyphs docs) : ∃ d ∈ docs, a.glyph ∈ d.glyphs := by
  unfold requestedGlyphs at h
  obtain ⟨d, hd, h1⟩ := List.mem_flatMap.1 h
  obtain ⟨g, hg, h2⟩ := List.mem_flatMap.1 h1
  exact ⟨d, hd, by rw [requestedFor_glyph d.paint g a h2]; exact hg⟩

theorem atlasGlyphFor_requested (g : SimpleGlyph) (paint : TextPaint) (style : PaintStyle)
    (hcolor : g.font.typeface.hasColor = false)
    (hstyle : style ∈ GetGlyphPaintStyles (Glyph.make g paint)) :
    atlasGlyphFor g paint style ∈ requestedFor paint g := by
  unfold GetGlyphPaintStyles Glyph.make at hstyle
  unfold requestedFor atlasGlyphFor
  simp only at hstyle
  cases hs : paint.style <;> cases style <;> simp [hs, hcolor] at hstyle ⊢

theorem ComputeAtlasKey_eq (g : SimpleGlyph) (paint : TextPaint) (style : PaintStyle) :
    ComputeAtlasKey (Glyph.make g paint) style [] = atlasKeyOf (atlasGlyphFor g paint style) := by
  cases style <;> rfl

theorem TextAtlas.new_within
    (stdSort : (AtlasGlyph → AtlasGlyph → Bool) → List AtlasGlyph → List AtlasGlyph)
    (hsort : ∀ l, (stdSort atlasGlyphOrder l).Perm l) (docs : List GlyphDocument) :
    (∀ a ∈ (TextAtlas.new stdSort docs).maskGlyphs, a ∈ requestedGlyphs docs) ∧
    (∀ a ∈ (TextAtlas.new stdSort docs).colorGlyphs, a ∈ requestedGlyphs docs) := by
  have hw := foldl_pushGlyph_within (requestedGlyphs docs) (requestedGlyphs docs)
    (fun a ha => ha) {} ⟨fun a ha => by simp at ha, fun a ha => by simp at ha⟩
  rw [TextAtlas.new_maskGlyphs, TextAtlas.new_colorGlyphs]
  constructor
  · intro a ha
    exact hw.1 a ((SortAtlasGlyphs_perm stdSort hsort _).mem_iff.1 ha)
  · intro a ha
    exact hw.2 a ((SortAtlasGlyphs_perm stdSort hsort _).mem_iff.1 ha)

theorem TextAtlas.new_atlasesBuilt
    (stdSort : (AtlasGlyph → AtlasGlyph → Bool) → List AtlasGlyph → List AtlasGlyph)
    (docs : List GlyphDocument) : (TextAtlas.new stdSort docs).atlasesBuilt :=
  ⟨fun a ha => by simp [TextAtlas.new, TextAtlas.initAtlasGlyphs] at ha,
    fun a ha => by simp [TextAtlas.new, TextAtlas.initAtlasGlyphs] at ha⟩

theorem TextAtlas.new_has_mask_glyph
    (stdSort : (AtlasGlyph → AtlasGlyph → Bool) → List AtlasGlyph → List AtlasGlyph)
    (hsort : ∀ l, (stdSort atlasGlyphOrder l).Perm l) (docs : List GlyphDocument)
    (hid : uniqueTypefaceIDs docs) (doc : GlyphDocument) (hdoc : doc ∈ docs)
    (g : SimpleGlyph) (hg : g ∈ doc.glyphs) (hcolor : g.font.typeface.hasColor = false)
    (style : PaintStyle) (hstyle : style ∈ GetGlyphPaintStyles (Glyph.make g doc.paint)) :
    ∃ a ∈ (TextAtlas.new stdSort docs).maskGlyphs,
      atlasKeyOf a = atlasKeyOf (atlasGlyphFor g doc.paint style) := by
  have hreq : atlasGlyphFor g doc.paint style ∈ requestedGlyphs docs := by
    unfold requestedGlyphs
    exact List.mem_flatMap.2 ⟨doc, hdoc, List.mem_flatMap.2
      ⟨g, hg, atlasGlyphFor_requested g doc.paint style hcolor hstyle⟩⟩
  have hkey : atlasKeyOf (atlasGlyphFor g doc.paint style) ∈
      ((requestedGlyphs docs).foldl GlyphLists.pushGlyph {}).atlasKeys := by
    rw [foldl_pushGlyph_atlasKeys]
    exact Or.inr (List.mem_map_of_mem _ hreq)
  have hmem := (TextAtlas.new_keys_perm stdSort hsort docs).mem_iff.2 hkey
  obtain ⟨a, ha, hak⟩ := List.mem_map.1 hmem
  refine ⟨a, ?_, hak⟩
  rcases List.mem_append.1 ha with h | h
  · exact h
  · exfalso
    have hac := (TextAtlas.new_colorSplit stdSort hsort docs).2 a h
    obtain ⟨d', hd', hg'⟩ := requestedGlyphs_source docs a
      ((TextAtlas.new_within stdSort hsort docs).2 a h)
    have hu := ((AtlasGlyph.atlasKey_eq_iff _ _).1 hak).2.2.2.1
    have hglyph : (atlasGlyphFor g doc.paint style).glyph = g := by
      cases style <;> rfl
    have hsame := hid d' hd' a.glyph hg' doc hdoc g hg
      (by simpa [AtlasGlyph.font, hglyph] using hu)
    rw [hcolor] at hsame
    simp only [AtlasGlyph.font] at hac
    rw [hac] at hsame
    exact Bool.noConfusion hsame

/-- If `std::sort` permutes its input: for documents whose typeface ids identify the typeface
color, for every glyph of a collected document with a
typeface without color and every paint style that `GetGlyphPaintStyles` gives for the display
glyph built from it, the key that `ComputeAtlasKey` builds for the lookup is the atlas key
that `initAtlasGlyphs` stored for the glyph and style; and after any sequence of
`generateIfNeeded` calls with at least one call the mask atlas is present,
`TextAtlas::getLocator` succeeds, and the locator it returns is the entry that `initPages`
recorded under that key when it built the mask atlas from `maskGlyphs`. -/
theorem getLocator_finds_collected_glyph
    (stdSort : (AtlasGlyph → AtlasGlyph → Bool) → List AtlasGlyph → List AtlasGlyph)
    (hsort : ∀ l, (stdSort atlasGlyphOrder l).Perm l) (docs : List GlyphDocument)
    (hid : uniqueTypefaceIDs docs) (doc : GlyphDocument) (hdoc : doc ∈ docs)
    (g : SimpleGlyph) (hg : g ∈ doc.glyphs) (hcolor : g.font.typeface.hasColor = false)
    (style : PaintStyle) (hstyle : style ∈ GetGlyphPaintStyles (Glyph.make g doc.paint))
    (calls : List (ℚ × Int)) (scale : ℚ) (maxTextureSize : Int) :
    ComputeAtlasKey (Glyph.make g doc.paint) style [] =
      (atlasGlyphFor g doc.paint style).computeAtlasKey [] ∧
    (∃ a ∈ (TextAtlas.new stdSort docs).maskGlyphs,
      a.computeAtlasKey [] = ComputeAtlasKey (Glyph.make g doc.paint) style []) ∧
    ∃ atlas locator,
      ((TextAtlas.new stdSort docs).generateAll
        (calls ++ [(scale, maxTextureSize)])).maskAtlas = some atlas ∧
      (∃ s m, atlas = Atlas.initPages (TextAtlas.new stdSort docs).maskGlyphs s m) ∧
      ((TextAtlas.new stdSort docs).generateAll
        (calls ++ [(scale, maxTextureSize)])).getLocator (Glyph.make g doc.paint) style =
          some locator ∧
      (ComputeAtlasKey (Glyph.make g doc.paint) style [], locator) ∈ atlas.glyphLocators := by
  have hkeyEq := ComputeAtlasKey_eq g doc.paint style
  obtain ⟨a, ha, hak⟩ :=
    TextAtlas.new_has_mask_glyph stdSort hsort docs hid doc hdoc g hg hcolor style hstyle
  refine ⟨hkeyEq, ⟨a, ha, by rw [hkeyEq]; exact hak⟩, ?_⟩
  rw [TextAtlas.generateAll_snoc]
  have hinv := TextAtlas.generateAll_atlasesBuilt calls _
    (TextAtlas.new_atlasesBuilt stdSort docs)
  have hglyphs := (TextAtlas.generateAll_maskGlyphs calls (TextAtlas.new stdSort docs)).1
  have hne : ((TextAtlas.new stdSort docs).generateAll calls).maskGlyphs ≠ [] := by
    rw [hglyphs]
    exact List.ne_nil_of_mem ha
  obtain ⟨atlas, s', m', hatlas, hbuilt⟩ :=
    TextAtlas.generateIfNeeded_maskAtlas_present _ scale maxTextureSize hinv hne
  rw [hglyphs] at hbuilt
  have hin : ComputeAtlasKey (Glyph.make g doc.paint) style [] ∈ atlas.glyphLocators.keys := by
    rw [hbuilt, initPages_locatorKeys, hkeyEq, ← hak]
    exact List.mem_map_of_mem _ ha
  obtain ⟨loc, hfind, hmem⟩ := LocatorMap.find_isSome _ _ hin
  refine ⟨atlas, loc, hatlas, ⟨s', m', hbuilt⟩, ?_, hmem⟩
  unfold TextAtlas.getLocator
  have hfont : (Glyph.make g doc.paint).getFont.typeface.hasColor = false := hcolor
  rw [hfont, hatlas]
  exact hfind

/-- With an insertion sort, for the documents "AB" (fill) and "A" (stroke and fill, width 4), after
`generateIfNeeded` at scale 1 and then at scale 2 the stroked "A" of the second document is
found in the mask atlas. -/
theorem getLocator_finds_collected_glyph_witness :
    ∃ atlas locator,
      ((TextAtlas.new exSort [exDocAB, exDocStrokedA]).generateAll
        ([(1, 1024)] ++ [(2, 1024)])).maskAtlas = some atlas ∧
      (∃ s m, atlas =
        Atlas.initPages (TextAtlas.new exSort [exDocAB, exDocStrokedA]).maskGlyphs s m) ∧
      ((TextAtlas.new exSort [exDocAB, exDocStrokedA]).generateAll
        ([(1, 1024)] ++ [(2, 1024)])).getLocator
          (Glyph.make exSimpleA exDocStrokedA.paint) PaintStyle.Stroke = some locator ∧
      (ComputeAtlasKey (Glyph.make exSimpleA exDocStrokedA.paint) PaintStyle.Stroke [],
        locator) ∈ atlas.glyphLocators :=
  (getLocator_finds_collected_glyph exSort exSort_perm [exDocAB, exDocStrokedA]
    (by unfold uniqueTypefaceIDs; decide) exDocStrokedA (by decide) exSimpleA (by decide)
    (by decide) PaintStyle.Stroke (by decide) [(1, 1024)] 2 1024).2.2

/-- C10 (failing input): a TextAtlas for the document "AB" receives `generateIfNeeded` with
scale 1 and then with scale 129/128, which differs from 1 by less than `0.01f`; afterwards the
mask atlas is present and was built with scale 1, while `getScale()` returns 129/128. Going
on in steps of 1/128 up to scale 2, each step below `0.01f`, no call rebuilds the atlas: in
the end `getScale()` returns 2 and the mask atlas is still the one built with scale 1. -/
theorem getScale_differs_from_build_scale :
    ((TextAtlas.new exSort [exDocAB]).generateAll
      [(1, 1024), (129 / 128, 1024)]).maskAtlas.map Atlas.scale = some 1 ∧
    ((TextAtlas.new exSort [exDocAB]).generateAll
      [(1, 1024), (129 / 128, 1024)]).getScale = 129 / 128 ∧
    (129 / 128 : ℚ) ≠ 1 ∧
    exZoomCalls.length = 129 ∧ exZoomCalls.head? = some (1, 1024) ∧
    exZoomCalls.getLast? = some (2, 1024) ∧ (1 / 128 : ℚ) < scaleTolerance ∧
    ((TextAtlas.new exSort [exDocAB]).generateAll exZoomCalls).maskAtlas.map Atlas.scale =
      some 1 ∧
    ((TextAtlas.new exSort [exDocAB]).generateAll exZoomCalls).getScale = 2 := by
  decide!

/-- After any sequence of `generateIfNeeded` calls, whenever an atlas is present and the most
recent call built it, because the atlas was absent before that call or the reported scale
differed from the stored one by more than `0.01f`, the scale returned by `getScale()` equals
the scale that atlas was built with. -/
theorem getScale_after_generateIfNeeded (t : TextAtlas) (calls : List (ℚ × Int)) (scale : ℚ)
    (maxTextureSize : Int) :
    ((t.generateAll calls).maskAtlas = none ∨
        |(t.generateAll calls).getScale - scale| > scaleTolerance →
      ∀ a, (t.generateAll (calls ++ [(scale, maxTextureSize)])).maskAtlas = some a →
        (t.generateAll (calls ++ [(scale, maxTextureSize)])).getScale = a.scale) ∧
    ((t.generateAll calls).colorAtlas = none ∨
        |(t.generateAll calls).getScale - scale| > scaleTolerance →
      ∀ a, (t.generateAll (calls ++ [(scale, maxTextureSize)])).colorAtlas = some a →
        (t.generateAll (calls ++ [(scale, maxTextureSize)])).getScale = a.scale) := by
  rw [TextAtlas.generateAll_snoc]
  have hmake : ∀ (l : List AtlasGlyph) (a : Atlas),
      Atlas.Make scale l maxTextureSize = some a → a.scale = scale := by
    intro l a ha
    unfold Atlas.Make at ha
    split_ifs at ha
    rw [← Option.some.inj ha]
    rfl
  have hscale : ((t.generateAll calls).generateIfNeeded scale maxTextureSize).getScale =
      scale := rfl
  rw [hscale]
  refine ⟨?_, ?_⟩
  · intro hcond a ha
    unfold TextAtlas.generateIfNeeded at ha
    simp only at ha
    rw [if_pos (by simpa [TextAtlas.getScale] using hcond)] at ha
    exact (hmake _ a ha).symm
  · intro hcond a ha
    unfold TextAtlas.generateIfNeeded at ha
    simp only at ha
    rw [if_pos (by simpa [TextAtlas.getScale] using hcond)] at ha
    exact (hmake _ a ha).symm

/-- A TextAtlas for the document "AB" built at scale 1 and then asked for
scale 2 has its mask atlas rebuilt, and `getScale()` returns the scale of the new atlas. -/
theorem getScale_after_generateIfNeeded_witness :
    (((TextAtlas.new exSort [exDocAB]).generateAll [(1, 1024)]).maskAtlas = none ∨
      |((TextAtlas.new exSort [exDocAB]).generateAll [(1, 1024)]).getScale - 2| >
        scaleTolerance) ∧
    (∀ a, ((TextAtlas.new exSort [exDocAB]).generateAll
      ([(1, 1024)] ++ [(2, 1024)])).maskAtlas = some a →
        ((TextAtlas.new exSort [exDocAB]).generateAll
          ([(1, 1024)] ++ [(2, 1024)])).getScale = a.scale) ∧
    ((TextAtlas.new exSort [exDocAB]).generateAll
      ([(1, 1024)] ++ [(2, 1024)])).maskAtlas.map Atlas.scale = some 2 :=
  ⟨Or.inr (by decide!),
    (getScale_after_generateIfNeeded (TextAtlas.new exSort [exDocAB]) [(1, 1024)] 2 1024).1
      (Or.inr (by decide!)),
    by decide!⟩

/-! ## CGTypefaceCache -/

theorem purgeLoop_split {α : Type} (unique : α → Bool) :
    ∀ (l : List α) (n : Nat), 1 ≤ n → n < 2 ^ 64 →
      ∃ pre post, l = pre ++ post ∧
        purgeLoop unique n l = pre.filter (fun t => !unique t) ++ post ∧
        (pre.filter unique).length = min n (l.filter unique).length := by
  intro l
  induction l with
  | nil =>
    intro n _ _
    exact ⟨[], [], rfl, rfl, by simp⟩
  | cons x rest ih =>
    intro n h1 h2
    have hdec : (n + (2 ^ 64 - 1)) % 2 ^ 64 = n - 1 := by omega
    by_cases hx : unique x = true
    · by_cases hn : n - 1 = 0
      · refine ⟨[x], rest, rfl, ?_, ?_⟩
        · simp only [purgeLoop, hx, if_true, hdec, hn]
          simp [hx]
        · simp [hx]
          omega
      · obtain ⟨pre, post, hl, hp, hc⟩ := ih (n - 1) (by omega) (by omega)
        refine ⟨x :: pre, post, by rw [hl]; rfl, ?_, ?_⟩
        · simp only [purgeLoop, hx, if_true, hdec, hn, if_false, hp]
          simp [hx]
        · simp [hx, hc]
          omega
    · obtain ⟨pre, post, hl, hp, hc⟩ := ih n h1 h2
      refine ⟨x :: pre, post, by rw [hl]; rfl, ?_, ?_⟩
      · simp [purgeLoop, hx, hp]
      · simp [hx, hc]
theorem purge_length {α : Type} (unique : α → Bool) (l : List α) :
    (CGTypefaceCache.purge unique l).length + min 256 (l.filter unique).length = l.length := by
  obtain ⟨pre, post, hl, hp, hc⟩ := purgeLoop_split unique l (kTypefaceCacheCount >>> 2)
    (by decide) (by decide)
  have hk : kTypefaceCacheCount >>> 2 = 256 := by decide
  rw [hk] at hc
  unfold CGTypefaceCache.purge
  rw [hp, ← hc]
  have hpart := List.length_eq_length_filter_add (l := pre) unique
  rw [hl]
  simp only [List.length_append]
  omega

theorem add_length_le {α : Type} (unique : α → Bool) (l : List α) (t : α)
    (hlen : l.length ≤ kTypefaceCacheCount)
    (hev : kTypefaceCacheCount ≤ l.length → ∃ x ∈ l, unique x = true) :
    (CGTypefaceCache.add unique l t).length ≤ kTypefaceCacheCount := by
  unfold CGTypefaceCache.add
  simp only [List.length_append, List.length_singleton]
  by_cases h : l.length ≥ kTypefaceCacheCount
  · rw [if_pos h]
    obtain ⟨x, hx, hux⟩ := hev h
    have hpos : 1 ≤ (l.filter unique).length :=
      List.length_pos_of_mem (List.mem_filter.2 ⟨hx, hux⟩)
    have := purge_length unique l
    omega
  · rw [if_neg h]
    omega

/-- C19 (amended): starting from a cache of at most 1024 typefaces (in particular the empty
cache), after any sequence of `add` calls in which, at every call made while the cache holds
1024 typefaces, at least one cached typeface is held by a single reference, the cache holds at
most 1024 typefaces. -/
theorem cache_within_budget {α : Type} (calls : List ((α → Bool) × α)) :
    ∀ typefaces : List α, typefaces.length ≤ kTypefaceCacheCount →
      CGTypefaceCache.evictable typefaces calls →
      (CGTypefaceCache.addAll typefaces calls).length ≤ kTypefaceCacheCount := by
  induction calls with
  | nil => intro l hl _; exact hl
  | cons c rest ih =>
    intro l hl hev
    unfold CGTypefaceCache.addAll
    rw [List.foldl_cons]
    exact ih _ (add_length_le c.1 l c.2 hl hev.1) hev.2

theorem purgeLoop_none_unique {α : Type} (n : Nat) :
    ∀ l : List α, purgeLoop (fun _ => false) n l = l := by
  intro l
  induction l with
  | nil => rfl
  | cons x rest ih => simp [purgeLoop, ih]

theorem addAll_none_unique_length {α : Type} (calls : List ((α → Bool) × α))
    (hcalls : ∀ c ∈ calls, c.1 = fun _ => false) :
    ∀ l : List α, (CGTypefaceCache.addAll l calls).length = l.length + calls.length := by
  induction calls with
  | nil => intro l; rfl
  | cons c rest ih =>
    intro l
    have hc : c.1 = fun _ => false := hcalls c (List.mem_cons_self _ _)
    have hrest := ih (fun x hx => hcalls x (List.mem_cons_of_mem _ hx))
    unfold CGTypefaceCache.addAll at hrest ⊢
    rw [List.foldl_cons, hrest]
    simp only [CGTypefaceCache.add, CGTypefaceCache.purge, hc, purgeLoop_none_unique, ite_self,
      List.length_append, List.length_singleton, List.length_cons, List.length_nil]
    omega

/-- C19 (counterexample): 1025 `add` calls on the empty cache, for the typefaces with the ids 0
to 1024, made while every cached typeface has an outside reference, leave 1025 typefaces in
the cache. -/
theorem cache_exceeds_budget :
    (CGTypefaceCache.addAll ([] : List Typeface)
      ((List.range 1025).map
        (fun i => ((fun _ => false), { uniqueID := i, hasColor := false })))).length = 1025 ∧
    kTypefaceCacheCount = 1024 := by
  refine ⟨?_, rfl⟩
  rw [addAll_none_unique_length _ (fun c hc => by
    obtain ⟨i, _, hi⟩ := List.mem_map.1 hc
    rw [← hi])]
  simp

/-- C20: `add` purges exactly when the cache already holds at least 1024 typefaces and then
appends the new typeface at the back; and a purge splits the cache into a front part and a
rest, drops from the front part the typefaces held by a single reference, which are the
first min(256, k) of the k such typefaces of the cache, and keeps every other typeface in its
original order, so that the cache shrinks by min(256, k). -/
theorem add_purges_first_unique {α : Type} (unique : α → Bool) (typefaces : List α)
    (typeface : α) :
    CGTypefaceCache.add unique typefaces typeface =
      (if 1024 ≤ typefaces.length then CGTypefaceCache.purge unique typefaces
        else typefaces) ++ [typeface] ∧
    ∃ pre post, typefaces = pre ++ post ∧
      CGTypefaceCache.purge unique typefaces = pre.filter (fun t => !unique t) ++ post ∧
      (pre.filter unique).length = min 256 (typefaces.filter unique).length ∧
      (CGTypefaceCache.purge unique typefaces).length +
        min 256 (typefaces.filter unique).length = typefaces.length := by
  obtain ⟨pre, post, h1, h2, h3⟩ :=
    purgeLoop_split unique typefaces (kTypefaceCacheCount >>> 2) (by decide) (by decide)
  exact ⟨rfl, pre, post, h1, h2, h3, purge_length unique typefaces⟩
/-- C19 (witness): a cache of 1024 typefaces without outside references receives one more
`add`; a purge makes room and the cache stays within 1024. -/
theorem cache_within_budget_witness :
    (List.replicate 1024 exTypeface).length ≤ kTypefaceCacheCount ∧
    CGTypefaceCache.evictable (List.replicate 1024 exTypeface)
      [((fun _ => true), exTypeface)] ∧
    (CGTypefaceCache.addAll (List.replicate 1024 exTypeface)
      [((fun _ => true), exTypeface)]).length ≤ kTypefaceCacheCount :=
  ⟨le_of_eq (List.length_replicate 1024 exTypeface),
    ⟨fun _ => ⟨exTypeface, List.mem_replicate.2 ⟨by decide, rfl⟩, rfl⟩, trivial⟩,
    cache_within_budget [((fun _ => true), exTypeface)] (List.replicate 1024 exTypeface)
      (le_of_eq (List.length_replicate 1024 exTypeface))
      ⟨fun _ => ⟨exTypeface, List.mem_replicate.2 ⟨by decide, rfl⟩, rfl⟩, trivial⟩⟩

/-! ## The lookup with its output parameter -/

theorem Atlas.getLocatorInto_fst (atlas : Atlas) (glyph : Glyph) (style : PaintStyle)
    (out : Option AtlasLocator) :
    ((atlas.getLocatorInto glyph style out).1 = true ↔
        ComputeAtlasKey glyph style [] ∈ atlas.glyphLocators.keys) ∧
      ((atlas.getLocatorInto glyph style out).1 = false →
        (atlas.getLocatorInto glyph style out).2 = out) := by
  unfold Atlas.getLocatorInto
  simp only
  by_cases hk : ComputeAtlasKey glyph style [] ∈ atlas.glyphLocators.keys
  · obtain ⟨loc, hfind, _⟩ := LocatorMap.find_isSome _ _ hk
    unfold LocatorMap.find at hfind
    cases hf : List.find? (fun e => e.1 == ComputeAtlasKey glyph style [])
        atlas.glyphLocators with
    | none => rw [hf] at hfind; simp at hfind
    | some e => simp [hk]
  · have hfind := LocatorMap.find_none _ _ hk
    unfold LocatorMap.find at hfind
    cases hf : List.find? (fun e => e.1 == ComputeAtlasKey glyph style [])
        atlas.glyphLocators with
    | none => simp [hk]
    | some e => rw [hf] at hfind; simp at hfind

/-- C18: `TextAtlas::getLocator` returns true exactly when the atlas selected by the color of
the glyph's typeface (the color atlas for a color typeface, the mask atlas otherwise) is
present and its locator map has an entry under the key of the glyph and style; when it returns
false the output locator is what it was before the call; and the result does not depend on
the other atlas. -/
theorem getLocator_true_iff (t : TextAtlas) (glyph : Glyph) (style : PaintStyle)
    (out : Option AtlasLocator) :
    ((t.getLocatorInto glyph style out).1 = true ↔
      ∃ atlas, t.atlasFor glyph = some atlas ∧
        ComputeAtlasKey glyph style [] ∈ atlas.glyphLocators.keys) ∧
    ((t.getLocatorInto glyph style out).1 = false →
      (t.getLocatorInto glyph style out).2 = out) ∧
    (glyph.getFont.typeface.hasColor = true → ∀ other : Option Atlas,
      ({ t with maskAtlas := other } : TextAtlas).getLocatorInto glyph style out =
        t.getLocatorInto glyph style out) ∧
    (glyph.getFont.typeface.hasColor = false → ∀ other : Option Atlas,
      ({ t with colorAtlas := other } : TextAtlas).getLocatorInto glyph style out =
        t.getLocatorInto glyph style out) := by
  refine ⟨?_, ?_, ?_, ?_⟩
  · unfold TextAtlas.getLocatorInto TextAtlas.atlasFor
    cases hc : glyph.getFont.typeface.hasColor
    · cases hm : t.maskAtlas with
      | none => simp
      | some a => simpa using (Atlas.getLocatorInto_fst a glyph style out).1
    · cases hm : t.colorAtlas with
      | none => simp
      | some a => simpa using (Atlas.getLocatorInto_fst a glyph style out).1
  · unfold TextAtlas.getLocatorInto
    cases hc : glyph.getFont.typeface.hasColor
    · cases hm : t.maskAtlas with
      | none => simp
      | some a => simpa using (Atlas.getLocatorInto_fst a glyph style out).2
    · cases hm : t.colorAtlas with
      | none => simp
      | some a => simpa using (Atlas.getLocatorInto_fst a glyph style out).2
  · intro hc other
    simp [TextAtlas.getLocatorInto, hc]
  · intro hc other
    simp [TextAtlas.getLocatorInto, hc]
/-- C18 (witness): a TextAtlas for the document "AB" has no color atlas after
`generateIfNeeded`; the lookup of an emoji of a color typeface returns false and leaves the
output locator as it was. -/
theorem getLocator_true_iff_witness :
    (((TextAtlas.new exSort [exDocAB]).generateAll [(1, 1024)]).getLocatorInto
        (Glyph.make exEmoji exDocEmoji.paint) PaintStyle.Fill
        (some ⟨5, ⟨0, 0, 1, 1⟩⟩)).1 = false ∧
    (((TextAtlas.new exSort [exDocAB]).generateAll [(1, 1024)]).getLocatorInto
        (Glyph.make exEmoji exDocEmoji.paint) PaintStyle.Fill
        (some ⟨5, ⟨0, 0, 1, 1⟩⟩)).2 = some ⟨5, ⟨0, 0, 1, 1⟩⟩ :=
  ⟨by decide!,
    (getLocator_true_iff ((TextAtlas.new exSort [exDocAB]).generateAll [(1, 1024)])
      (Glyph.make exEmoji exDocEmoji.paint) PaintStyle.Fill (some ⟨5, ⟨0, 0, 1, 1⟩⟩)).2.1
      (by decide!)⟩

/-! ## Rebuilding on a scale change -/

theorem TextAtlas.generateIfNeeded_atlasesBacked (t : TextAtlas) (scale : ℚ) (m : Int)
    (h : t.atlasesBacked) : (t.generateIfNeeded scale m).atlasesBacked := by
  obtain ⟨hm, hc⟩ := h
  unfold TextAtlas.generateIfNeeded TextAtlas.atlasesBacked
  simp only
  constructor
  · intro hne
    split_ifs at hne with hcond
    · intro hnil
      apply hne
      unfold Atlas.Make
      rw [if_pos (by rw [hnil]; rfl)]
    · exact hm hne
  · intro hne
    split_ifs at hne with hcond
    · intro hnil
      apply hne
      unfold Atlas.Make
      rw [if_pos (by rw [hnil]; rfl)]
    · exact hc hne

theorem TextAtlas.generateAll_atlasesBacked (calls : List (ℚ × Int)) (t : TextAtlas)
    (h : t.atlasesBacked) : (t.generateAll calls).atlasesBacked := by
  unfold TextAtlas.generateAll
  refine foldl_invariant (fun t => TextAtlas.atlasesBacked t) (fun _ => True)
    (fun t c => t.generateIfNeeded c.1 c.2) ?_ calls t (fun _ _ => trivial) h
  intro b a hb _
  exact TextAtlas.generateIfNeeded_atlasesBacked b a.1 a.2 hb

theorem TextAtlas.new_atlasesBacked
    (stdSort : (AtlasGlyph → AtlasGlyph → Bool) → List AtlasGlyph → List AtlasGlyph)
    (docs : List GlyphDocument) : (TextAtlas.new stdSort docs).atlasesBacked :=
  ⟨fun h => absurd rfl h, fun h => absurd rfl h⟩

theorem Atlas.Make_of_ne_nil (scale : ℚ) (glyphs : List AtlasGlyph) (m : Int)
    (h : glyphs ≠ []) : Atlas.Make scale glyphs m = some (Atlas.initPages glyphs scale m) := by
  unfold Atlas.Make
  rw [if_neg]
  intro he
  exact h (List.isEmpty_iff.1 he)

theorem Atlas.Make_eq_none_iff (scale : ℚ) (glyphs : List AtlasGlyph) (m : Int) :
    Atlas.Make scale glyphs m = none ↔ glyphs = [] := by
  unfold Atlas.Make
  cases glyphs with
  | nil => simp
  | cons a rest => simp

/-- C11: let a TextAtlas be in any state reached from its construction by `generateIfNeeded`
calls, and let one more call report the scale `scale`. If both atlases are present and the
scale differs from the stored one by at most `0.01f`, both atlases are left as they are; if
both are present and it differs by more, both are replaced by the atlases that `initPages`
builds from the glyph lists at the new scale; and an atlas that is absent is rebuilt by
`Atlas::Make` at the new scale, which leaves it absent exactly when its glyph list is empty. -/
theorem generateIfNeeded_rebuilds
    (stdSort : (AtlasGlyph → AtlasGlyph → Bool) → List AtlasGlyph → List AtlasGlyph)
    (docs : List GlyphDocument) (calls : List (ℚ × Int)) (scale : ℚ) (maxTextureSize : Int) :
    (((TextAtlas.new stdSort docs).generateAll calls).maskAtlas ≠ none →
      ((TextAtlas.new stdSort docs).generateAll calls).colorAtlas ≠ none →
      |((TextAtlas.new stdSort docs).generateAll calls).getScale - scale| ≤ scaleTolerance →
      (((TextAtlas.new stdSort docs).generateAll calls).generateIfNeeded scale
          maxTextureSize).maskAtlas = ((TextAtlas.new stdSort docs).generateAll calls).maskAtlas ∧
        (((TextAtlas.new stdSort docs).generateAll calls).generateIfNeeded scale
          maxTextureSize).colorAtlas =
            ((TextAtlas.new stdSort docs).generateAll calls).colorAtlas) ∧
    (((TextAtlas.new stdSort docs).generateAll calls).maskAtlas ≠ none →
      ((TextAtlas.new stdSort docs).generateAll calls).colorAtlas ≠ none →
      |((TextAtlas.new stdSort docs).generateAll calls).getScale - scale| > scaleTolerance →
      (((TextAtlas.new stdSort docs).generateAll calls).generateIfNeeded scale
          maxTextureSize).maskAtlas =
            some (Atlas.initPages ((TextAtlas.new stdSort docs).generateAll calls).maskGlyphs
              scale maxTextureSize) ∧
        (((TextAtlas.new stdSort docs).generateAll calls).generateIfNeeded scale
          maxTextureSize).colorAtlas =
            some (Atlas.initPages ((TextAtlas.new stdSort docs).generateAll calls).colorGlyphs
              scale maxTextureSize)) ∧
    (((TextAtlas.new stdSort docs).generateAll calls).maskAtlas = none →
      (((TextAtlas.new stdSort docs).generateAll calls).generateIfNeeded scale
          maxTextureSize).maskAtlas =
            Atlas.Make scale ((TextAtlas.new stdSort docs).generateAll calls).maskGlyphs
              maxTextureSize ∧
        ((((TextAtlas.new stdSort docs).generateAll calls).generateIfNeeded scale
          maxTextureSize).maskAtlas = none ↔
            ((TextAtlas.new stdSort docs).generateAll calls).maskGlyphs = [])) ∧
    (((TextAtlas.new stdSort docs).generateAll calls).colorAtlas = none →
      (((TextAtlas.new stdSort docs).generateAll calls).generateIfNeeded scale
          maxTextureSize).colorAtlas =
            Atlas.Make scale ((TextAtlas.new stdSort docs).generateAll calls).colorGlyphs
              maxTextureSize ∧
        ((((TextAtlas.new stdSort docs).generateAll calls).generateIfNeeded scale
          maxTextureSize).colorAtlas = none ↔
            ((TextAtlas.new stdSort docs).generateAll calls).colorGlyphs = [])) := by
  have hback := TextAtlas.generateAll_atlasesBacked calls _
    (TextAtlas.new_atlasesBacked stdSort docs)
  generalize (TextAtlas.new stdSort docs).generateAll calls = t at hback ⊢
  refine ⟨?_, ?_, ?_, ?_⟩
  · intro hm hc hle
    have hnot : ¬ |t.scale - scale| > scaleTolerance := not_lt.2 hle
    simp [TextAtlas.generateIfNeeded, hm, hc, hnot]
  · intro hm hc hgt
    have hgt' : |t.scale - scale| > scaleTolerance := hgt
    simp only [TextAtlas.generateIfNeeded, hgt', decide_True, or_true, if_true]
    exact ⟨Atlas.Make_of_ne_nil _ _ _ (hback.1 hm), Atlas.Make_of_ne_nil _ _ _ (hback.2 hc)⟩
  · intro hm
    have h1 : (t.generateIfNeeded scale maxTextureSize).maskAtlas =
        Atlas.Make scale t.maskGlyphs maxTextureSize := by
      simp [TextAtlas.generateIfNeeded, hm]
    exact ⟨h1, by rw [h1]; exact Atlas.Make_eq_none_iff _ _ _⟩
  · intro hc
    have h1 : (t.generateIfNeeded scale maxTextureSize).colorAtlas =
        Atlas.Make scale t.colorGlyphs maxTextureSize := by
      simp [TextAtlas.generateIfNeeded, hc]
    exact ⟨h1, by rw [h1]; exact Atlas.Make_eq_none_iff _ _ _⟩
/-- C11 (witness): a TextAtlas for the documents "AB" and an emoji, built at scale 1, keeps
both atlases at scale 129/128 and has both replaced by the atlases built at scale 2. -/
theorem generateIfNeeded_rebuilds_witness :
    ((((TextAtlas.new exSort [exDocAB, exDocEmoji]).generateAll [(1, 1024)]).generateIfNeeded
          (129 / 128) 1024).maskAtlas =
        ((TextAtlas.new exSort [exDocAB, exDocEmoji]).generateAll [(1, 1024)]).maskAtlas ∧
      (((TextAtlas.new exSort [exDocAB, exDocEmoji]).generateAll [(1, 1024)]).generateIfNeeded
          (129 / 128) 1024).colorAtlas =
        ((TextAtlas.new exSort [exDocAB, exDocEmoji]).generateAll [(1, 1024)]).colorAtlas) ∧
    ((((TextAtlas.new exSort [exDocAB, exDocEmoji]).generateAll [(1, 1024)]).generateIfNeeded
          2 1024).maskAtlas =
        some (Atlas.initPages
          ((TextAtlas.new exSort [exDocAB, exDocEmoji]).generateAll [(1, 1024)]).maskGlyphs
          2 1024) ∧
      (((TextAtlas.new exSort [exDocAB, exDocEmoji]).generateAll [(1, 1024)]).generateIfNeeded
          2 1024).colorAtlas =
        some (Atlas.initPages
          ((TextAtlas.new exSort [exDocAB, exDocEmoji]).generateAll [(1, 1024)]).colorGlyphs
          2 1024)) :=
  ⟨(generateIfNeeded_rebuilds exSort [exDocAB, exDocEmoji] [(1, 1024)] (129 / 128) 1024).1
      (by decide!) (by decide!) (by decide!),
    (generateIfNeeded_rebuilds exSort [exDocAB, exDocEmoji] [(1, 1024)] 2 1024).2.1
      (by decide!) (by decide!) (by decide!)⟩

/-! ## The placements of `initPages` -/

theorem packGlyph_place (scale : ℚ) (M : Int) (firstGlyph : AtlasGlyph)
    (acc : PagesState × TextRun) (glyph : AtlasGlyph) :
    ((packGlyph scale M firstGlyph acc glyph).1.pack,
        (packGlyph scale M firstGlyph acc glyph).1.pageIndex) =
      (placeRect scale M (acc.1.pack, acc.1.pageIndex) (packedWidth glyph)
        (packedHeight glyph)).1 ∧
    (packGlyph scale M firstGlyph acc glyph).1.glyphLocators =
      acc.1.glyphLocators.set (atlasKeyOf glyph)
        (placeRect scale M (acc.1.pack, acc.1.pageIndex) (packedWidth glyph)
          (packedHeight glyph)).2 :=
  ⟨rfl, rfl⟩

theorem packGlyph_pages_length (scale : ℚ) (M : Int) (firstGlyph : AtlasGlyph)
    (acc : PagesState × TextRun) (glyph : AtlasGlyph) :
    (packGlyph scale M firstGlyph acc glyph).1.pages.length + acc.1.pageIndex =
      acc.1.pages.length + (packGlyph scale M firstGlyph acc glyph).1.pageIndex := by
  unfold packGlyph
  simp only
  split_ifs
  · simp only [List.length_append, List.length_singleton]
    omega
  · omega

theorem LocatorMap.mem_set (key : BytesKey) (locator : AtlasLocator)
    (e : BytesKey × AtlasLocator) :
    ∀ m : LocatorMap, e ∈ m.set key locator → e ∈ m ∨ e = (key, locator) := by
  intro m
  induction m with
  | nil =>
    intro h
    simp only [LocatorMap.set, List.mem_singleton] at h
    exact Or.inr h
  | cons x rest ih =>
    intro h
    simp only [LocatorMap.set] at h
    split_ifs at h
    · rcases List.mem_cons.1 h with h1 | h1
      · exact Or.inr h1
      · exact Or.inl (List.mem_cons_of_mem _ h1)
    · rcases List.mem_cons.1 h with h1 | h1
      · exact Or.inl (by rw [h1]; exact List.mem_cons_self _ _)
      · rcases ih h1 with h2 | h2
        · exact Or.inl (List.mem_cons_of_mem _ h2)
        · exact Or.inr h2

theorem placeRect_location_size (scale : ℚ) (M : Int) (pk : RectanglePack × Nat)
    (width height : Int) :
    (placeRect scale M pk width height).2.location.width = (width : ℚ) * scale ∧
      (placeRect scale M pk width height).2.location.height = (height : ℚ) * scale := by
  unfold placeRect Rect.width Rect.height Rect.scale Rect.MakeXYWH
  simp only
  constructor <;> ring
theorem packGlyph_sized (scale : ℚ) (M : Int) (firstGlyph : AtlasGlyph) (src : List AtlasGlyph)
    (acc : PagesState × TextRun) (glyph : AtlasGlyph)
    (h : acc.1.glyphLocators.sized scale src) (hg : glyph ∈ src) :
    (packGlyph scale M firstGlyph acc glyph).1.glyphLocators.sized scale src := by
  rw [(packGlyph_place scale M firstGlyph acc glyph).2]
  intro e he
  rcases LocatorMap.mem_set _ _ e _ he with h1 | h1
  · exact h e h1
  · refine ⟨glyph, hg, by rw [h1], ?_⟩
    rw [h1]
    exact placeRect_location_size scale M _ _ _

theorem packGroup_sized (scale : ℚ) (M : Int) (src : List AtlasGlyph) (st : PagesState)
    (group : List AtlasGlyph) (h : st.glyphLocators.sized scale src)
    (hg : ∀ g ∈ group, g ∈ src) : (packGroup scale M st group).glyphLocators.sized scale src := by
  unfold packGroup
  cases group with
  | nil => exact h
  | cons firstGlyph rest =>
    simp only
    refine foldl_invariant
      (fun acc : PagesState × TextRun => acc.1.glyphLocators.sized scale src)
      (fun g => g ∈ src) (packGlyph scale M firstGlyph) ?_ (firstGlyph :: rest)
      (st, CreateTextRun firstGlyph) hg h
    intro b a hb ha
    exact packGlyph_sized scale M firstGlyph src b a hb ha

theorem initPages_sized (glyphs : List AtlasGlyph) (scale : ℚ) (maxTextureSize : Int) :
    (Atlas.initPages glyphs scale maxTextureSize).glyphLocators.sized scale glyphs := by
  unfold Atlas.initPages
  simp only
  refine foldl_invariant
    (fun st : PagesState => st.glyphLocators.sized scale glyphs) (fun _ : BytesKey => True)
    (fun st key => packGroup scale (maxPageSize maxTextureSize scale) st
      ((groupByStyle glyphs).2.get key)) ?_ (groupByStyle glyphs).1 ({} : PagesState)
    (fun _ _ => trivial) (fun e he => by simp at he)
  intro st key hst _
  exact packGroup_sized scale _ glyphs st _ hst
    (fun g hg => StyleMap.get_within _ glyphs (groupByStyle_within glyphs) key g hg)

theorem atlasKeyOf_inj_of_nodup (glyphs : List AtlasGlyph)
    (hnodup : (glyphs.map atlasKeyOf).Nodup) (a b : AtlasGlyph) (ha : a ∈ glyphs)
    (hb : b ∈ glyphs) (h : atlasKeyOf a = atlasKeyOf b) : a = b :=
  List.inj_on_of_nodup_map hnodup ha hb h

theorem initPages_locator_size (glyphs : List AtlasGlyph) (scale : ℚ) (maxTextureSize : Int)
    (hnodup : (glyphs.map atlasKeyOf).Nodup) (a : AtlasGlyph) (ha : a ∈ glyphs) :
    ∃ loc, (Atlas.initPages glyphs scale maxTextureSize).glyphLocators.find (atlasKeyOf a) =
        some loc ∧
      loc.location.width = (packedWidth a : ℚ) * scale ∧
      loc.location.height = (packedHeight a : ℚ) * scale := by
  have hk : atlasKeyOf a ∈ (Atlas.initPages glyphs scale maxTextureSize).glyphLocators.keys :=
    (initPages_locatorKeys glyphs scale maxTextureSize _).2 (List.mem_map_of_mem _ ha)
  obtain ⟨loc, hfind, hmem⟩ := LocatorMap.find_isSome _ _ hk
  obtain ⟨b, hb, hkey, hw, hh⟩ := initPages_sized glyphs scale maxTextureSize _ hmem
  have hab : a = b := atlasKeyOf_inj_of_nodup glyphs hnodup a b ha hb hkey
  subst hab
  exact ⟨loc, hfind, hw, hh⟩

/-- C12: when `initPages` packs a list of AtlasGlyphs with pairwise distinct atlas keys that
holds both the fill and the stroked AtlasGlyph (stroke width `sw`) of one glyph, both have a
locator, and the stroke locator's rectangle is wider and taller than the fill locator's by
2 * ceil(sw) times the scale: by exactly 2 * ceil(sw) at scale 1. -/
theorem stroke_locator_exceeds_fill (glyphs : List AtlasGlyph) (scale : ℚ)
    (maxTextureSize : Int) (hnodup : (glyphs.map atlasKeyOf).Nodup) (g : SimpleGlyph) (sw : F32)
    (hfill : AtlasGlyph.fill g ∈ glyphs) (hstroke : AtlasGlyph.stroke g sw ∈ glyphs) :
    ∃ fillLoc strokeLoc,
      (Atlas.initPages glyphs scale maxTextureSize).glyphLocators.find
        ((AtlasGlyph.fill g).computeAtlasKey []) = some fillLoc ∧
      (Atlas.initPages glyphs scale maxTextureSize).glyphLocators.find
        ((AtlasGlyph.stroke g sw).computeAtlasKey []) = some strokeLoc ∧
      strokeLoc.location.width - fillLoc.location.width = 2 * (⌈sw.toRat⌉ : ℚ) * scale ∧
      strokeLoc.location.height - fillLoc.location.height = 2 * (⌈sw.toRat⌉ : ℚ) * scale ∧
      (scale = 1 →
        strokeLoc.location.width - fillLoc.location.width = 2 * (⌈sw.toRat⌉ : ℚ) ∧
        strokeLoc.location.height - fillLoc.location.height = 2 * (⌈sw.toRat⌉ : ℚ)) := by
  obtain ⟨lf, hlf, hfw, hfh⟩ :=
    initPages_locator_size glyphs scale maxTextureSize hnodup _ hfill
  obtain ⟨ls, hls, hsw, hsh⟩ :=
    initPages_locator_size glyphs scale maxTextureSize hnodup _ hstroke
  have hw : ls.location.width - lf.location.width = 2 * (⌈sw.toRat⌉ : ℚ) * scale := by
    rw [hsw, hfw]
    simp only [packedWidth, strokeInset, AtlasGlyph.stroke, AtlasGlyph.fill, AtlasGlyph.bounds]
    simp
    ring
  have hh : ls.location.height - lf.location.height = 2 * (⌈sw.toRat⌉ : ℚ) * scale := by
    rw [hsh, hfh]
    simp only [packedHeight, strokeInset, AtlasGlyph.stroke, AtlasGlyph.fill, AtlasGlyph.bounds]
    simp
    ring
  refine ⟨lf, ls, hlf, hls, hw, hh, ?_⟩
  intro h1
  rw [h1, mul_one] at hw hh
  exact ⟨hw, hh⟩
/-- C12 (witness): for the fill and the stroked AtlasGlyph of "A" with stroke width 4 at scale
1, the stroke locator exceeds the fill locator by 8 on each axis. -/
theorem stroke_locator_exceeds_fill_witness :
    ([AtlasGlyph.stroke exSimpleA ⟨0x40800000⟩, AtlasGlyph.fill exSimpleA].map
      atlasKeyOf).Nodup ∧
    (∃ fillLoc strokeLoc,
      (Atlas.initPages [AtlasGlyph.stroke exSimpleA ⟨0x40800000⟩, AtlasGlyph.fill exSimpleA]
        1 1024).glyphLocators.find ((AtlasGlyph.fill exSimpleA).computeAtlasKey []) =
          some fillLoc ∧
      (Atlas.initPages [AtlasGlyph.stroke exSimpleA ⟨0x40800000⟩, AtlasGlyph.fill exSimpleA]
        1 1024).glyphLocators.find
          ((AtlasGlyph.stroke exSimpleA ⟨0x40800000⟩).computeAtlasKey []) = some strokeLoc ∧
      strokeLoc.location.width - fillLoc.location.width =
        2 * (⌈(⟨0x40800000⟩ : F32).toRat⌉ : ℚ) * 1 ∧
      strokeLoc.location.height - fillLoc.location.height =
        2 * (⌈(⟨0x40800000⟩ : F32).toRat⌉ : ℚ) * 1 ∧
      ((1 : ℚ) = 1 →
        strokeLoc.location.width - fillLoc.location.width =
          2 * (⌈(⟨0x40800000⟩ : F32).toRat⌉ : ℚ) ∧
        strokeLoc.location.height - fillLoc.location.height =
          2 * (⌈(⟨0x40800000⟩ : F32).toRat⌉ : ℚ))) ∧
    2 * (⌈(⟨0x40800000⟩ : F32).toRat⌉ : ℚ) = 8 :=
  ⟨by decide!,
    stroke_locator_exceeds_fill
      [AtlasGlyph.stroke exSimpleA ⟨0x40800000⟩, AtlasGlyph.fill exSimpleA] 1 1024
      (by decide!) exSimpleA ⟨0x40800000⟩ (by decide) (by decide),
    by decide!⟩

theorem foldl_packGlyph_placeAll (scale : ℚ) (M : Int) (firstGlyph : AtlasGlyph)
    (group : List AtlasGlyph) :
    ∀ acc : PagesState × TextRun,
      ((group.foldl (packGlyph scale M firstGlyph) acc).1.pack,
          (group.foldl (packGlyph scale M firstGlyph) acc).1.pageIndex) =
        (placeAll scale M (acc.1.pack, acc.1.pageIndex) (group.map packedSize)).1 ∧
      (∀ e ∈ (group.foldl (packGlyph scale M firstGlyph) acc).1.glyphLocators,
        e ∈ acc.1.glyphLocators ∨
          e.2 ∈ (placeAll scale M (acc.1.pack, acc.1.pageIndex) (group.map packedSize)).2) ∧
      (group.foldl (packGlyph scale M firstGlyph) acc).1.pages.length + acc.1.pageIndex =
        acc.1.pages.length + (group.foldl (packGlyph scale M firstGlyph) acc).1.pageIndex := by
  induction group with
  | nil =>
    intro acc
    exact ⟨rfl, fun e he => Or.inl he, rfl⟩
  | cons g rest ih =>
    intro acc
    rw [List.foldl_cons]
    obtain ⟨h1, h2, h3⟩ := ih (packGlyph scale M firstGlyph acc g)
    have hp := packGlyph_place scale M firstGlyph acc g
    have hl := packGlyph_pages_length scale M firstGlyph acc g
    simp only [List.map_cons, placeAll, packedSize]
    rw [← hp.1]
    refine ⟨h1, ?_, by omega⟩
    intro e he
    rcases h2 e he with h4 | h4
    · rw [hp.2] at h4
      rcases LocatorMap.mem_set _ _ e _ h4 with h5 | h5
      · exact Or.inl h5
      · right
        rw [h5]
        exact List.mem_cons_self _ _
    · exact Or.inr (List.mem_cons_of_mem _ h4)

theorem foldl_groupStep_uniform (k : BytesKey) (l : List AtlasGlyph)
    (hk : ∀ g ∈ l, styleKeyOf g = k) :
    ∀ pre : List AtlasGlyph,
      l.foldl groupStep ([k], [(k, pre)]) = ([k], [(k, pre ++ l)]) := by
  induction l with
  | nil => intro pre; simp
  | cons g rest ih =>
    intro pre
    rw [List.foldl_cons]
    have hg : g.computeStyleKey [] = k := hk g (List.mem_cons_self _ _)
    have hstep : groupStep ([k], [(k, pre)]) g = ([k], [(k, pre ++ [g])]) := by
      simp [groupStep, StyleMap.push, hg]
    rw [hstep, ih (fun x hx => hk x (List.mem_cons_of_mem _ hx))]
    simp

theorem groupByStyle_uniform (k : BytesKey) (g : AtlasGlyph) (rest : List AtlasGlyph)
    (hk : ∀ x ∈ g :: rest, styleKeyOf x = k) :
    groupByStyle (g :: rest) = ([k], [(k, g :: rest)]) := by
  unfold groupByStyle
  rw [List.foldl_cons]
  have hg : g.computeStyleKey [] = k := hk g (List.mem_cons_self _ _)
  have hstep : groupStep ([], []) g = ([k], [(k, [g])]) := by
    simp [groupStep, StyleMap.push, hg]
  rw [hstep, foldl_groupStep_uniform k rest (fun x hx => hk x (List.mem_cons_of_mem _ hx))]
  rfl

theorem initPages_uniform (k : BytesKey) (g : AtlasGlyph) (rest : List AtlasGlyph)
    (hk : ∀ x ∈ g :: rest, styleKeyOf x = k) (scale : ℚ) (maxTextureSize : Int) :
    (Atlas.initPages (g :: rest) scale maxTextureSize).pages.length =
        (placeAll scale (maxPageSize maxTextureSize scale) (RectanglePack.reset, 0)
          ((g :: rest).map packedSize)).1.2 + 1 ∧
      ∀ e ∈ (Atlas.initPages (g :: rest) scale maxTextureSize).glyphLocators,
        e.2 ∈ (placeAll scale (maxPageSize maxTextureSize scale) (RectanglePack.reset, 0)
          ((g :: rest).map packedSize)).2 := by
  unfold Atlas.initPages
  rw [groupByStyle_uniform k g rest hk]
  simp only [List.foldl_cons, List.foldl_nil, StyleMap.get_cons, if_true, packGroup,
    List.length_append, List.length_singleton]
  obtain ⟨h1, h2, h3⟩ := foldl_packGlyph_placeAll scale (maxPageSize maxTextureSize scale) g
    (g :: rest) (({} : PagesState), CreateTextRun g)
  rw [List.foldl_cons] at h1 h2 h3
  constructor
  · have hidx := congrArg Prod.snd h1
    simp only at hidx
    rw [← hidx]
    simpa using h3
  · intro e he
    rcases h2 e he with h4 | h4
    · simp at h4
    · exact h4
theorem placeAll_scenario :
    (placeAll 1 1024 (RectanglePack.reset, 0) (List.replicate 200 (300, 300))).1.2 = 22 ∧
    ∀ loc ∈ (placeAll 1 1024 (RectanglePack.reset, 0) (List.replicate 200 (300, 300))).2,
      loc.pageIndex < 23 ∧ 0 ≤ loc.location.left ∧ loc.location.right ≤ 1024 ∧
        0 ≤ loc.location.top ∧ loc.location.bottom ≤ 1024 := by
  decide!

theorem packedSize_fill (g : AtlasGlyph) (w h : Int) (hs : g.style = PaintStyle.Fill)
    (hw : g.bounds.width = (w : ℚ)) (hh : g.bounds.height = (h : ℚ)) (hw0 : 0 ≤ w)
    (hh0 : 0 ≤ h) : packedSize g = (w, h) := by
  have h1 : (0 : ℚ) ≤ (w : ℚ) := by exact_mod_cast hw0
  have h2 : (0 : ℚ) ≤ (h : ℚ) := by exact_mod_cast hh0
  simp [packedSize, packedWidth, packedHeight, strokeInset, truncToInt, hw, hh, hs, h1, h2]

/-- C13: for 200 fill glyphs with bounds of 300 x 300 and one shared style key, `initPages`
with maxTextureSize 1024 and scale 1 produces 23 pages, which is at least 18, and every
locator names one of these pages and has its rectangle inside [0, 1024] x [0, 1024]. -/
theorem scenario_pagination (glyphs : List AtlasGlyph) (styleKey : BytesKey)
    (hlen : glyphs.length = 200)
    (hsize : ∀ g ∈ glyphs, g.style = PaintStyle.Fill ∧ g.bounds.width = 300 ∧
      g.bounds.height = 300)
    (hstyle : ∀ g ∈ glyphs, g.computeStyleKey [] = styleKey) :
    18 ≤ (Atlas.initPages glyphs 1 1024).pages.length ∧
    (Atlas.initPages glyphs 1 1024).pages.length = 23 ∧
    ∀ e ∈ (Atlas.initPages glyphs 1 1024).glyphLocators,
      e.2.pageIndex < (Atlas.initPages glyphs 1 1024).pages.length ∧
      0 ≤ e.2.location.left ∧ e.2.location.right ≤ 1024 ∧
      0 ≤ e.2.location.top ∧ e.2.location.bottom ≤ 1024 := by
  have hM : maxPageSize 1024 1 = 1024 := by decide!
  have hdims : glyphs.map packedSize = List.replicate 200 (300, 300) := by
    rw [List.eq_replicate_iff]
    refine ⟨by rw [List.length_map, hlen], ?_⟩
    intro b hb
    obtain ⟨g, hg, hgb⟩ := List.mem_map.1 hb
    rw [← hgb]
    obtain ⟨hs, hw, hh⟩ := hsize g hg
    exact packedSize_fill g 300 300 hs (by rw [hw]; norm_num) (by rw [hh]; norm_num)
      (by norm_num) (by norm_num)
  cases glyphs with
  | nil => simp at hlen
  | cons g rest =>
    obtain ⟨hp, hl⟩ := initPages_uniform styleKey g rest hstyle 1 1024
    rw [hM, hdims] at hp hl
    rw [placeAll_scenario.1] at hp
    refine ⟨by rw [hp]; norm_num, hp, ?_⟩
    intro e he
    rw [hp]
    exact placeAll_scenario.2 e.2 (hl e he)
/-- C13 (witness): the scenario for the glyph ids 0 to 199 of one font, which have pairwise
distinct atlas keys. -/
theorem scenario_pagination_witness :
    exScenarioGlyphs.length = 200 ∧
    (exScenarioGlyphs.map atlasKeyOf).Nodup ∧
    (∀ g ∈ exScenarioGlyphs, g.style = PaintStyle.Fill ∧ g.bounds.width = 300 ∧
      g.bounds.height = 300) ∧
    (∀ g ∈ exScenarioGlyphs, g.computeStyleKey [] = exTall24.computeStyleKey []) ∧
    18 ≤ (Atlas.initPages exScenarioGlyphs 1 1024).pages.length ∧
    (Atlas.initPages exScenarioGlyphs 1 1024).pages.length = 23 ∧
    (∀ e ∈ (Atlas.initPages exScenarioGlyphs 1 1024).glyphLocators,
      e.2.pageIndex < (Atlas.initPages exScenarioGlyphs 1 1024).pages.length ∧
      0 ≤ e.2.location.left ∧ e.2.location.right ≤ 1024 ∧
      0 ≤ e.2.location.top ∧ e.2.location.bottom ≤ 1024) :=
  ⟨by decide!, by decide!, by decide!, by decide!,
    scenario_pagination exScenarioGlyphs (exTall24.computeStyleKey []) (by decide!)
      (by decide!) (by decide!)⟩

/-! ## GetSimpleGlyphs -/

theorem resolvedGlyph_name (fm : FontManager) (doc : TextDocument) (name : String) :
    (resolvedGlyph fm doc name).name = name := by
  unfold resolvedGlyph
  simp only
  split
  · split_ifs <;> rfl
  · rfl

theorem simpleGlyphStep_memoized (fm : FontManager) (doc : TextDocument) (seen : List String)
    (st : GlyphLoop) (name : String) (h : st.memoized fm doc seen) :
    (simpleGlyphStep fm (fm.GetTypefaceWithoutFallback doc.fontFamily doc.fontStyle) st
      name).memoized fm doc (seen ++ [name]) := by
  obtain ⟨hnames, hlist, hmap, hsize, hbold, hitalic⟩ := h
  rcases st with ⟨⟨tf0, sz, fb, fi⟩, gmap, glist⟩
  simp only at hnames hlist hmap hsize hbold hitalic
  subst hsize hbold hitalic
  unfold simpleGlyphStep
  simp only
  cases hlook : List.lookup name gmap with
  | some e =>
    simp only
    have hname : e.glyph.name = name := by
      rw [hmap name e hlook]
      exact resolvedGlyph_name fm doc name
    refine ⟨?_, ?_, hmap, rfl, rfl, rfl⟩
    · simp only [List.map_append, List.map_cons, List.map_nil, hnames, hname]
    · intro x hx
      rcases List.mem_append.1 hx with h1 | h1
      · exact hlist x h1
      · rw [List.mem_singleton] at h1
        rw [h1, hname]
        exact hlook
  | none =>
    simp only
    have hnew : ∀ (g : SharedGlyph), g.glyph.name = name →
        g.glyph = resolvedGlyph fm doc name →
        ∀ (font : Font), font.size = doc.fontSize → font.fauxBold = doc.fauxBold →
          font.fauxItalic = doc.fauxItalic →
          GlyphLoop.memoized fm doc (seen ++ [name])
            { textFont := font, glyphMap := (name, g) :: gmap, glyphList := glist ++ [g] } := by
      intro g hgname hg font h1 h2 h3
      refine ⟨?_, ?_, ?_, h1, h2, h3⟩
      · simp only [List.map_append, List.map_cons, List.map_nil, hnames, hgname]
      · intro x hx
        rcases List.mem_append.1 hx with h4 | h4
        · have hx' := hlist x h4
          have hne : x.glyph.name ≠ name := by
            intro heq
            rw [heq, hlook] at hx'
            exact Option.noConfusion hx'
          simp only [List.lookup_cons]
          rw [show (x.glyph.name == name) = false from by simpa using hne]
          exact hx'
        · rw [List.mem_singleton] at h4
          rw [h4, hgname]
          simp [List.lookup_cons]
      · intro n e he
        simp only [List.lookup_cons] at he
        by_cases hn : n = name
        · rw [hn] at he ⊢
          simp only [beq_self_eq_true] at he
          rw [← Option.some.inj he]
          exact hg
        · rw [show (n == name) = false from by simpa using hn] at he
          exact hmap n e he
    apply hnew
    · rfl
    · unfold resolvedGlyph
      simp only
      cases htf : fm.GetTypefaceWithoutFallback doc.fontFamily doc.fontStyle with
      | none => simp
      | some tf =>
        by_cases hid : fm.getGlyphID tf name = 0
        · simp [hid]
        · simp [hid]
    · cases htf : fm.GetTypefaceWithoutFallback doc.fontFamily doc.fontStyle with
      | none => simp
      | some tf =>
        by_cases hid : fm.getGlyphID tf name = 0
        · simp [hid]
        · simp [hid]
    · cases htf : fm.GetTypefaceWithoutFallback doc.fontFamily doc.fontStyle with
      | none => simp
      | some tf =>
        by_cases hid : fm.getGlyphID tf name = 0
        · simp [hid]
        · simp [hid]
    · cases htf : fm.GetTypefaceWithoutFallback doc.fontFamily doc.fontStyle with
      | none => simp
      | some tf =>
        by_cases hid : fm.getGlyphID tf name = 0
        · simp [hid]
        · simp [hid]

theorem foldl_simpleGlyphStep_memoized (fm : FontManager) (doc : TextDocument)
    (names : List String) :
    ∀ (seen : List String) (st : GlyphLoop), st.memoized fm doc seen →
      (names.foldl (simpleGlyphStep fm
        (fm.GetTypefaceWithoutFallback doc.fontFamily doc.fontStyle)) st).memoized fm doc
          (seen ++ names) := by
  induction names with
  | nil => intro seen st h; simpa using h
  | cons n rest ih =>
    intro seen st h
    rw [List.foldl_cons]
    have := ih (seen ++ [n]) _ (simpleGlyphStep_memoized fm doc seen st n h)
    simpa using this

theorem GetSharedGlyphs_memoized (fm : FontManager) (doc : TextDocument) :
    ∃ st : GlyphLoop, st.glyphList = GetSharedGlyphs fm doc ∧
      st.memoized fm doc (codePointNames doc.text) := by
  refine ⟨_, rfl, ?_⟩
  have := foldl_simpleGlyphStep_memoized fm doc (codePointNames doc.text) []
    { textFont := { typeface := fm.defaultTypeface, size := doc.fontSize,
                    fauxBold := doc.fauxBold, fauxItalic := doc.fauxItalic } }
    ⟨rfl, fun e he => by simp at he, fun n e he => by simp at he, rfl, rfl, rfl⟩
  simpa using this
/-- C16: for every text, `GetSimpleGlyphs` returns one entry per code-point name of the text,
in source order (the names of the entries are the names of the text), and any two entries
with equal names are the same object (same identity, same SimpleGlyph). -/
theorem GetSimpleGlyphs_one_per_name (fm : FontManager) (doc : TextDocument) :
    (GetSimpleGlyphs fm doc).map (fun g => g.name) = codePointNames doc.text ∧
    (GetSimpleGlyphs fm doc).length = (codePointNames doc.text).length ∧
    ∀ a ∈ GetSharedGlyphs fm doc, ∀ b ∈ GetSharedGlyphs fm doc,
      a.glyph.name = b.glyph.name → a = b := by
  obtain ⟨st, hst, hnames, hlist, _⟩ := GetSharedGlyphs_memoized fm doc
  rw [hst] at hnames hlist
  have hmap : (GetSimpleGlyphs fm doc).map (fun g => g.name) = codePointNames doc.text := by
    unfold GetSimpleGlyphs
    rw [List.map_map]
    exact hnames
  refine ⟨hmap, ?_, ?_⟩
  · rw [← hmap, List.length_map]
  · intro a ha b hb hab
    have h1 := hlist a ha
    have h2 := hlist b hb
    rw [hab, h2] at h1
    exact (Option.some.inj h1).symm

/-- C17: every SimpleGlyph that `GetSimpleGlyphs` returns is the glyph resolved for its name
alone: it carries the primary typeface and the primary glyph id when the primary typeface
exists and has a non-zero glyph id for the name, and otherwise the fallback typeface and the
glyph id reported by the fallback lookup; in both cases with the size and synthesis flags of
the document, whatever the names before it resolved to. -/
theorem GetSimpleGlyphs_resolution (fm : FontManager) (doc : TextDocument) :
    ∀ g ∈ GetSimpleGlyphs fm doc,
      g = resolvedGlyph fm doc g.name ∧
      (∀ tf, fm.GetTypefaceWithoutFallback doc.fontFamily doc.fontStyle = some tf →
        fm.getGlyphID tf g.name ≠ 0 →
        g.font.typeface = tf ∧ g.glyphId = fm.getGlyphID tf g.name) ∧
      ((fm.GetTypefaceWithoutFallback doc.fontFamily doc.fontStyle = none ∨
          ∃ tf, fm.GetTypefaceWithoutFallback doc.fontFamily doc.fontStyle = some tf ∧
            fm.getGlyphID tf g.name = 0) →
        g.font.typeface = (fm.GetFallbackTypeface g.name).1 ∧
          g.glyphId = (fm.GetFallbackTypeface g.name).2) ∧
      g.font.size = doc.fontSize ∧ g.font.fauxBold = doc.fauxBold ∧
      g.font.fauxItalic = doc.fauxItalic := by
  intro g hg
  obtain ⟨st, hst, _, hlist, hmap, _⟩ := GetSharedGlyphs_memoized fm doc
  rw [hst] at hlist
  unfold GetSimpleGlyphs at hg
  obtain ⟨e, he, heg⟩ := List.mem_map.1 hg
  have hres : g = resolvedGlyph fm doc g.name := by
    rw [← heg]
    exact hmap _ e (hlist e he)
  refine ⟨hres, ?_, ?_, ?_⟩
  · intro tf htf hid
    rw [hres]
    simp only [resolvedGlyph_name]
    unfold resolvedGlyph
    simp [htf, hid]
  · intro h
    rw [hres]
    simp only [resolvedGlyph_name]
    unfold resolvedGlyph
    rcases h with h | ⟨tf, htf, hid⟩
    · simp [h]
    · simp [htf, hid]
  · rw [hres]
    unfold resolvedGlyph
    simp only
    split
    · split_ifs <;> exact ⟨rfl, rfl, rfl⟩
    · exact ⟨rfl, rfl, rfl⟩

/-- C16 (witness): the text "A😀A" gives three entries named "A", "😀", "A"; the first and
the third are the same object. -/
theorem GetSimpleGlyphs_one_per_name_witness :
    GetSharedGlyphs exFontManager exTextDocument =
      [⟨0, exSimpleA⟩, ⟨1, exEmoji⟩, ⟨0, exSimpleA⟩] ∧
    (GetSimpleGlyphs exFontManager exTextDocument).map (fun g => g.name) =
      codePointNames exTextDocument.text ∧
    codePointNames exTextDocument.text = ["A", "😀", "A"] ∧
    (⟨0, exSimpleA⟩ : SharedGlyph) = ⟨0, exSimpleA⟩ :=
  ⟨by decide!, (GetSimpleGlyphs_one_per_name exFontManager exTextDocument).1, by decide!,
    (GetSimpleGlyphs_one_per_name exFontManager exTextDocument).2.2 ⟨0, exSimpleA⟩
      (by decide!) ⟨0, exSimpleA⟩ (by decide!) rfl⟩

/-- C17 (witness): in the text "A😀A" the glyph "A" carries the primary typeface and its
glyph id 36, and the emoji, for which the primary typeface has no glyph, carries the fallback
typeface and the glyph id 900, although the name before it resolved to the primary
typeface. -/
theorem GetSimpleGlyphs_resolution_witness :
    exSimpleA ∈ GetSimpleGlyphs exFontManager exTextDocument ∧
    exEmoji ∈ GetSimpleGlyphs exFontManager exTextDocument ∧
    (exSimpleA.font.typeface = exTypeface ∧
      exSimpleA.glyphId = exFontManager.getGlyphID exTypeface exSimpleA.name) ∧
    (exEmoji.font.typeface = (exFontManager.GetFallbackTypeface exEmoji.name).1 ∧
      exEmoji.glyphId = (exFontManager.GetFallbackTypeface exEmoji.name).2) :=
  ⟨by decide!, by decide!,
    (GetSimpleGlyphs_resolution exFontManager exTextDocument exSimpleA (by decide!)).2.1
      exTypeface (by decide!) (by decide!),
    (GetSimpleGlyphs_resolution exFontManager exTextDocument exEmoji (by decide!)).2.2.1
      (Or.inr ⟨exTypeface, by decide!, by decide!⟩)⟩

/-! ## The layout of display glyphs -/

/-- C14 (counterexample): for a vertical TextPaint the Glyph built for the name " " in a font
that has the glyph "A" (bounds from -10 to 0 vertically) ends with bounds from 1 to 6
vertically: the corrected bounds are mapped through the quarter turn, so top and bottom are the
left and right of the space's own bounds, not the top and bottom of "A". -/
theorem space_bounds_vertical_counterexample :
    exFontQueries.getGlyphID exSpace.font "A" ≠ 0 ∧
    (exFontQueries.getGlyphBounds exSpace.font (exFontQueries.getGlyphID exSpace.font "A")).top
      = -10 ∧
    (exFontQueries.getGlyphBounds exSpace.font
      (exFontQueries.getGlyphID exSpace.font "A")).bottom = 0 ∧
    (Glyph.layout exFontQueries exSpace { isVertical := true }).bounds.top = 1 ∧
    (Glyph.layout exFontQueries exSpace { isVertical := true }).bounds.bottom = 6 := by
  decide!

/-- C14 (amended): for every font in which the glyph "A" exists (non-zero glyph id) and every
TextPaint that is not vertical, the display Glyph built for the name " " has the top and the
bottom of the bounds of "A" as the top and bottom of its bounds. -/
theorem space_bounds_follow_A (fq : FontQueries) (simpleGlyph : SimpleGlyph)
    (textPaint : TextPaint) (hname : simpleGlyph.name = " ")
    (hA : fq.getGlyphID simpleGlyph.font "A" ≠ 0) (hpaint : textPaint.isVertical = false) :
    (Glyph.layout fq simpleGlyph textPaint).bounds.top =
      (fq.getGlyphBounds simpleGlyph.font (fq.getGlyphID simpleGlyph.font "A")).top ∧
    (Glyph.layout fq simpleGlyph textPaint).bounds.bottom =
      (fq.getGlyphBounds simpleGlyph.font (fq.getGlyphID simpleGlyph.font "A")).bottom := by
  have hpos : fq.getGlyphID simpleGlyph.font "A" > 0 := Fin.pos_iff_ne_zero.2 hA
  unfold Glyph.layout
  simp [hname, hpos, hpaint]

/-- C14 (witness): the space of the example font under the default, horizontal paint. -/
theorem space_bounds_follow_A_witness :
    exSpace.name = " " ∧ exFontQueries.getGlyphID exSpace.font "A" ≠ 0 ∧
    (Glyph.layout exFontQueries exSpace {}).bounds.top = -10 ∧
    (Glyph.layout exFontQueries exSpace {}).bounds.bottom = 0 :=
  ⟨by decide, by decide!,
    (space_bounds_follow_A exFontQueries exSpace {} (by decide) (by decide!) (by decide)).1,
    (space_bounds_follow_A exFontQueries exSpace {} (by decide) (by decide!) (by decide)).2⟩

/-- C15 (counterexample): the glyph "A" built with a vertical TextPaint in a font with cap
height 8 and x height 4 has an extraMatrix that maps (1, 0) to (-3, 1), not to (0, 1). -/
theorem vertical_extraMatrix_counterexample :
    exSimpleA.name.utf8ByteSize = 1 ∧
    (Glyph.layout exFontQueries exSimpleA { isVertical := true }).extraMatrix.mapXY 1 0 =
      ⟨-3, 1⟩ ∧
    (⟨-3, 1⟩ : Point) ≠ ⟨0, 1⟩ := by
  decide!

/-- C15 (amended): for every single-byte-named glyph built with a vertical TextPaint, the
extraMatrix is the exact quarter turn followed by the translation to the left by
(capHeight + xHeight) / 4: it maps the point (1, 0) to (-(capHeight + xHeight) / 4, 1), and
the origin to (-(capHeight + xHeight) / 4, 0), so that the direction (1, 0) becomes the
direction (0, 1) for every capHeight and xHeight. -/
theorem vertical_extraMatrix (fq : FontQueries) (simpleGlyph : SimpleGlyph)
    (textPaint : TextPaint) (hname : simpleGlyph.name.utf8ByteSize = 1)
    (hpaint : textPaint.isVertical = true) :
    (Glyph.layout fq simpleGlyph textPaint).extraMatrix.mapXY 1 0 =
      ⟨-((fq.getMetrics simpleGlyph.font).capHeight +
          (fq.getMetrics simpleGlyph.font).xHeight) / 4, 1⟩ ∧
    (Glyph.layout fq simpleGlyph textPaint).extraMatrix.mapXY 0 0 =
      ⟨-((fq.getMetrics simpleGlyph.font).capHeight +
          (fq.getMetrics simpleGlyph.font).xHeight) / 4, 0⟩ ∧
    ((Glyph.layout fq simpleGlyph textPaint).extraMatrix.mapXY 1 0).x -
      ((Glyph.layout fq simpleGlyph textPaint).extraMatrix.mapXY 0 0).x = 0 ∧
    ((Glyph.layout fq simpleGlyph textPaint).extraMatrix.mapXY 1 0).y -
      ((Glyph.layout fq simpleGlyph textPaint).extraMatrix.mapXY 0 0).y = 1 := by
  unfold Glyph.layout
  simp only [hname, hpaint, if_true]
  simp only [Matrix.mapXY, Matrix.postTranslate, Matrix.setRotate90]
  refine ⟨?_, ?_, ?_, ?_⟩
  · congr 1 <;> ring
  · congr 1 <;> ring
  · ring
  · ring

/-- C15 (witness): the glyph "A" of the example font, cap height 8 and x height 4. -/
theorem vertical_extraMatrix_witness :
    exSimpleA.name.utf8ByteSize = 1 ∧
    (Glyph.layout exFontQueries exSimpleA { isVertical := true }).extraMatrix.mapXY 1 0 =
      ⟨-((exFontQueries.getMetrics exSimpleA.font).capHeight +
          (exFontQueries.getMetrics exSimpleA.font).xHeight) / 4, 1⟩ :=
  ⟨by decide!,
    (vertical_extraMatrix exFontQueries exSimpleA { isVertical := true } (by decide!)
      (by decide)).1⟩

/-! ## The comparator of `SortAtlasGlyphs` -/

theorem atlasGlyphOrder_iff (a b : AtlasGlyph) :
    atlasGlyphOrder a b = true ↔
      a.bounds.width * a.bounds.height > b.bounds.width * b.bounds.height ∨
        a.bounds.width > b.bounds.width ∨ a.bounds.height > b.bounds.height := by
  unfold atlasGlyphOrder
  simp only [decide_eq_true_eq]

/-- C21 (failing input): the comparator of `SortAtlasGlyphs` is true whenever the compound
descending order on (area, width, height) is, but not only then: for a glyph of 2 x 1 (area 2)
and a glyph of 1 x 3 (area 3) the comparator puts the 2 x 1 glyph first, because its width is
greater, although its area is smaller. -/
theorem atlasGlyphOrder_not_compound :
    (∀ a b, compoundDescending a b = true → atlasGlyphOrder a b = true) ∧
    exSmall24.bounds.width * exSmall24.bounds.height = 2 ∧
    exSlim13.bounds.width * exSlim13.bounds.height = 3 ∧
    atlasGlyphOrder exSmall24 exSlim13 = true ∧
    compoundDescending exSmall24 exSlim13 = false := by
  refine ⟨?_, by decide!, by decide!, by decide!, by decide!⟩
  intro a b h
  rw [atlasGlyphOrder_iff]
  unfold compoundDescending at h
  simp only [decide_eq_true_eq] at h
  rcases h with h | h | h
  · exact Or.inl h
  · exact Or.inr (Or.inl h.2)
  · exact Or.inr (Or.inr h.2.2)

/-- C29 (failing input): the comparator of `SortAtlasGlyphs` is irreflexive, but it is neither
asymmetric nor transitive: the glyphs of 1 x 2 and 2 x 1 are each ordered before the other
(the first is taller, the second wider), and with the glyphs of 1 x 3, 2 x 1 and 1 x 4 the
first is ordered before the second and the second before the third, but the first is not
ordered before the third. -/
theorem atlasGlyphOrder_not_strict_weak :
    (∀ a, atlasGlyphOrder a a = false) ∧
    (atlasGlyphOrder exSlim12 exSmall24 = true ∧ atlasGlyphOrder exSmall24 exSlim12 = true) ∧
    (atlasGlyphOrder exSlim13 exSmall24 = true ∧ atlasGlyphOrder exSmall24 exSlim14 = true ∧
      atlasGlyphOrder exSlim13 exSlim14 = false) := by
  refine ⟨?_, by decide!, by decide!⟩
  intro a
  unfold atlasGlyphOrder
  simp

/-! ## Resetting the packer -/

/-- C25: from every packer state `p`, so in particular from every state reached by a sequence
of `addRect` calls, `reset()` followed by `addRect(w, h)` with `w, h >= 0` gives what a fresh
packer gives: the point (1, 1), `width() = w + 2` and `height() = h + 2`. -/
theorem reset_then_addRect (p : RectanglePack) (w h : Int) (hw : 0 ≤ w) (hh : 0 ≤ h) :
    p.resetFrom.addRect w h = RectanglePack.reset.addRect w h ∧
    (p.resetFrom.addRect w h).2 = (1, 1) ∧
    (p.resetFrom.addRect w h).1.width = w + 2 ∧
    (p.resetFrom.addRect w h).1.height = h + 2 := by
  have h0 : p.resetFrom = RectanglePack.reset := rfl
  have h1 : RectanglePack.reset.addRect w h =
      ({ width := w + 2, height := h + 2, x := w + 2, y := 1 }, (1, 1)) := by
    have c1 : (1 + (w + 1) - 1) * 1 > (1 - 1) * (1 - 1) ∨
        (1 + (h + 1) - 1) * 1 > (1 - 1) * (1 - 1) := Or.inl (by omega)
    have c2 : (1 : Int) + (w + 1) - (1 + (w + 1)) < 1 + (h + 1) - 1 := by omega
    have c3 : max (1 : Int) (1 + (h + 1)) = h + 2 := by
      rw [max_eq_right (by omega)]; omega
    simp only [RectanglePack.addRect, RectanglePack.reset, Padding, c1, if_true, le_refl, c2, c3]
    have c4 : (1 : Int) + (w + 1) = w + 2 := by omega
    rw [c4]
  rw [h0, h1]
  exact ⟨rfl, rfl, rfl, rfl⟩

/-- C25 (witness): the packer reached by addRect(1, 3), addRect(2, 1), addRect(4, 3) is not in
the initial state; after `reset()` the call addRect(4, 3) returns (1, 1) and leaves the extent
6 x 5. -/
theorem reset_then_addRect_witness :
    (RectanglePack.reset.addRects [(1, 3), (2, 1), (4, 3)]).1 ≠ RectanglePack.reset ∧
    (0 : Int) ≤ 4 ∧ (0 : Int) ≤ 3 ∧
    ((RectanglePack.reset.addRects [(1, 3), (2, 1), (4, 3)]).1.resetFrom.addRect 4 3 =
        RectanglePack.reset.addRect 4 3 ∧
      ((RectanglePack.reset.addRects [(1, 3), (2, 1), (4, 3)]).1.resetFrom.addRect 4 3).2 =
        (1, 1) ∧
      ((RectanglePack.reset.addRects [(1, 3), (2, 1), (4, 3)]).1.resetFrom.addRect 4 3).1.width =
        4 + 2 ∧
      ((RectanglePack.reset.addRects [(1, 3), (2, 1), (4, 3)]).1.resetFrom.addRect 4 3).1.height =
        3 + 2) :=
  ⟨by decide, by decide, by decide,
    reset_then_addRect (RectanglePack.reset.addRects [(1, 3), (2, 1), (4, 3)]).1 4 3
      (by decide) (by decide)⟩

/-! ## The paint styles of a display glyph -/

/-- C26: `GetGlyphPaintStyles` returns [Fill] for the text style Fill, [Stroke] for Stroke, and
for StrokeAndFill the pair [Fill, Stroke] when `strokeOverFill` is set and [Stroke, Fill] when
it is not; the result never holds a style twice and is never empty. -/
theorem GetGlyphPaintStyles_cases (glyph : Glyph) :
    (glyph.textStyle = TextStyle.Fill → GetGlyphPaintStyles glyph = [PaintStyle.Fill]) ∧
    (glyph.textStyle = TextStyle.Stroke → GetGlyphPaintStyles glyph = [PaintStyle.Stroke]) ∧
    (glyph.textStyle = TextStyle.StrokeAndFill → glyph.strokeOverFill = true →
      GetGlyphPaintStyles glyph = [PaintStyle.Fill, PaintStyle.Stroke]) ∧
    (glyph.textStyle = TextStyle.StrokeAndFill → glyph.strokeOverFill = false →
      GetGlyphPaintStyles glyph = [PaintStyle.Stroke, PaintStyle.Fill]) ∧
    (GetGlyphPaintStyles glyph).Nodup ∧ GetGlyphPaintStyles glyph ≠ [] := by
  obtain ⟨sg, ts, sof, sw⟩ := glyph
  cases ts <;> cases sof <;> simp [GetGlyphPaintStyles]

/-! ## Empty text runs -/

/-- C28 (failing input): with maxTextureSize 10 and scale 1 the page limit is 10, and the two
fill glyphs of 8 x 8, one of font size 24 and one of font size 12, each fit a page with their
padding. They have different style keys, so the second one opens a second TextRun, and it
overflows the page before anything was appended to that run: the first page is closed with the
run of the first glyph and a TextRun that holds no glyph id and no position. -/
theorem initPages_empty_text_run :
    maxPageSize 10 1 = 10 ∧
    (∀ g ∈ [exEight, exEight12], packedWidth g + 2 ≤ 10 ∧ packedHeight g + 2 ≤ 10) ∧
    (Atlas.initPages [exEight, exEight12] 1 10).pages.map
      (fun p => p.textRuns.map (fun r => (r.glyphIDs, r.positions))) =
        [[([5], [⟨1, 1⟩]), ([], [])], [([9], [⟨1, 1⟩])]] := by
  decide!

/-! ## The grouping of `initPages` as a stable partition -/

theorem firstOccurrences_mem (k : BytesKey) :
    ∀ l : List BytesKey, k ∈ firstOccurrences l ↔ k ∈ l := by
  intro l
  induction l with
  | nil => simp [firstOccurrences]
  | cons a rest ih =>
    simp only [firstOccurrences, List.mem_cons, List.mem_filter, ih, decide_eq_true_eq]
    constructor
    · rintro (h | ⟨h, _⟩)
      · exact Or.inl h
      · exact Or.inr h
    · intro h
      by_cases hk : k = a
      · exact Or.inl hk
      · rcases h with h | h
        · exact absurd h hk
        · exact Or.inr ⟨h, hk⟩

theorem firstOccurrences_nodup : ∀ l : List BytesKey, (firstOccurrences l).Nodup := by
  intro l
  induction l with
  | nil => simp [firstOccurrences]
  | cons a rest ih =>
    simp only [firstOccurrences, List.nodup_cons, List.mem_filter, decide_eq_true_eq]
    exact ⟨fun h => h.2 rfl, ih.filter _⟩

theorem foldl_groupStep_keys (glyphs : List AtlasGlyph) :
    ∀ acc : List BytesKey × StyleMap, acc.2.map Prod.fst = acc.1 →
      (glyphs.foldl groupStep acc).2.map Prod.fst = (glyphs.foldl groupStep acc).1 ∧
      (glyphs.foldl groupStep acc).1 =
        acc.1 ++ (firstOccurrences (glyphs.map styleKeyOf)).filter
          (fun k => decide (k ∉ acc.1)) := by
  induction glyphs with
  | nil =>
    intro acc h
    simp [firstOccurrences, h]
  | cons g rest ih =>
    intro acc h
    rw [List.foldl_cons]
    have hfst := groupStep_fst acc g
    have hsnd := groupStep_snd acc g
    have hinv : (groupStep acc g).2.map Prod.fst = (groupStep acc g).1 := by
      rw [hsnd, StyleMap.map_fst_push, hfst, h]
    obtain ⟨h1, h2⟩ := ih (groupStep acc g) hinv
    refine ⟨h1, ?_⟩
    rw [h2, hfst, h]
    simp only [List.map_cons, firstOccurrences]
    by_cases hm : styleKeyOf g ∈ acc.1
    · rw [if_pos hm, List.filter_cons_of_neg (by simpa using hm), List.filter_filter]
      congr 1
      apply List.filter_congr
      intro x _
      by_cases hx : x ∈ acc.1
      · simp [hx]
      · have hne : x ≠ styleKeyOf g := fun hh => hx (hh ▸ hm)
        simp [hx, hne]
    · rw [if_neg hm, List.filter_cons_of_pos (by simpa using hm), List.append_assoc,
        List.filter_filter]
      congr 1
      simp only [List.singleton_append, List.cons.injEq, true_and]
      apply List.filter_congr
      intro x _
      simp only [List.mem_append, List.mem_singleton, not_or, Bool.decide_and, decide_not,
        Bool.and_comm]

theorem foldl_groupStep_get (key : BytesKey) (glyphs : List AtlasGlyph) :
    ∀ acc : List BytesKey × StyleMap,
      (glyphs.foldl groupStep acc).2.get key =
        acc.2.get key ++ glyphs.filter (fun g => decide (styleKeyOf g = key)) := by
  induction glyphs with
  | nil => intro acc; simp
  | cons g rest ih =>
    intro acc
    rw [List.foldl_cons, ih, groupStep_snd, StyleMap.get_push]
    by_cases hk : key = styleKeyOf g
    · rw [if_pos hk, List.filter_cons_of_pos (by simpa using hk.symm), hk]
      simp
    · rw [if_neg hk, List.filter_cons_of_neg (by simpa using fun hh => hk hh.symm)]

theorem groupByStyle_keys (glyphs : List AtlasGlyph) :
    (groupByStyle glyphs).1 = firstOccurrences (glyphs.map styleKeyOf) := by
  unfold groupByStyle
  rw [(foldl_groupStep_keys glyphs ([], []) rfl).2]
  simp

theorem groupByStyle_get (glyphs : List AtlasGlyph) (key : BytesKey) :
    (groupByStyle glyphs).2.get key = glyphs.filter (fun g => decide (styleKeyOf g = key)) := by
  unfold groupByStyle
  rw [foldl_groupStep_get]
  simp [StyleMap.get_nil]

theorem packOrder_eq_stablePartition (glyphs : List AtlasGlyph) :
    packOrder glyphs = stablePartition glyphs := by
  unfold packOrder stablePartition
  rw [groupByStyle_keys]
  congr 1
  funext key
  exact groupByStyle_get glyphs key

theorem flatMap_filter_perm {α : Type} (key : α → BytesKey) :
    ∀ (keys : List BytesKey) (l : List α), keys.Nodup → (∀ x ∈ l, key x ∈ keys) →
      (keys.flatMap (fun k => l.filter (fun x => decide (key x = k)))).Perm l := by
  intro keys
  induction keys with
  | nil =>
    intro l _ h
    cases l with
    | nil => simp
    | cons x rest => exact absurd (h x (List.mem_cons_self _ _)) (by simp)
  | cons k rest ih =>
    intro l hnd hmem
    rw [List.flatMap_cons]
    have hrest : (rest.flatMap (fun k' => l.filter (fun x => decide (key x = k')))).Perm
        (l.filter (fun x => !decide (key x = k))) := by
      have h1 := ih (l.filter (fun x => !decide (key x = k))) (List.nodup_cons.1 hnd).2 (by
        intro x hx
        simp only [List.mem_filter, Bool.not_eq_eq_eq_not, Bool.not_true,
          decide_eq_false_iff_not] at hx
        rcases List.mem_cons.1 (hmem x hx.1) with h | h
        · exact absurd h hx.2
        · exact h)
      have h2 : rest.flatMap (fun k' => (l.filter (fun x => !decide (key x = k))).filter
            (fun x => decide (key x = k'))) =
          rest.flatMap (fun k' => l.filter (fun x => decide (key x = k'))) := by
        apply List.flatMap_congr
        intro k' hk'
        rw [List.filter_filter]
        apply List.filter_congr
        intro x _
        have hne : k' ≠ k := fun hh => (List.nodup_cons.1 hnd).1 (hh ▸ hk')
        by_cases hx : key x = k'
        · simp [hx, hne]
        · simp [hx]
      rw [h2] at h1
      exact h1
    exact (List.Perm.append_left _ hrest).trans (List.filter_append_perm _ l)

theorem packOrder_perm (glyphs : List AtlasGlyph) : (packOrder glyphs).Perm glyphs := by
  rw [packOrder_eq_stablePartition]
  unfold stablePartition
  apply flatMap_filter_perm styleKeyOf _ glyphs (firstOccurrences_nodup _)
  intro x hx
  exact (firstOccurrences_mem _ _).2 (List.mem_map_of_mem _ hx)

/-! ## The pages of `initPages` and the placements -/

theorem placeGlyph_pageIndex (scale : ℚ) (M : Int) (firstGlyph : AtlasGlyph)
    (acc : PagesState × TextRun) (g : AtlasGlyph) :
    (placeGlyph scale M (acc.1.pack, acc.1.pageIndex) g).locator.pageIndex =
      (packGlyph scale M firstGlyph acc g).1.pageIndex := rfl

theorem onPage_append (tr : List Placement) (e : Placement) (k : Nat) :
    onPage (tr ++ [e]) k = if e.locator.pageIndex = k then onPage tr k ++ [e] else onPage tr k := by
  unfold onPage
  rw [List.filter_append]
  by_cases h : e.locator.pageIndex = k
  · rw [if_pos h, List.filter_cons_of_pos (by simpa using h)]
    rfl
  · rw [if_neg h, List.filter_cons_of_neg (by simpa using h)]
    simp

theorem onPage_eq_nil (tr : List Placement) (k n : Nat)
    (h : ∀ e ∈ tr, e.locator.pageIndex ≤ n) (hk : n < k) : onPage tr k = [] := by
  unfold onPage
  rw [List.filter_eq_nil_iff]
  intro e he
  have := h e he
  simp only [decide_eq_true_eq]
  omega

theorem packGlyph_laidOut {β : Type} (f : TextRun → List β) (w : GlyphID → Point → β)
    (hc : ∀ g, f (CreateTextRun g) = [])
    (hp : ∀ (run : TextRun) (id : GlyphID) (pos : Point),
      f { run with glyphIDs := run.glyphIDs ++ [id], positions := run.positions ++ [pos] } =
        f run ++ [w id pos])
    (scale : ℚ) (M : Int) (firstGlyph : AtlasGlyph) (acc : PagesState × TextRun)
    (g : AtlasGlyph) (tr : List Placement)
    (h : acc.1.laidOut f (fun e => w e.glyph.glyphId e.position) tr (f acc.2)) :
    (packGlyph scale M firstGlyph acc g).1.laidOut f (fun e => w e.glyph.glyphId e.position)
      (tr ++ [placeGlyph scale M (acc.1.pack, acc.1.pageIndex) g])
      (f (packGlyph scale M firstGlyph acc g).2) := by
  obtain ⟨h1, h2, h3, h4⟩ := h
  have hidx := placeGlyph_pageIndex scale M firstGlyph acc g
  have hval : (fun e : Placement => w e.glyph.glyphId e.position)
      (placeGlyph scale M (acc.1.pack, acc.1.pageIndex) g) =
      w g.glyphId (placeGlyph scale M (acc.1.pack, acc.1.pageIndex) g).position := rfl
  by_cases hs : (acc.1.pack.addRect (packedWidth g) (packedHeight g)).1.width > M ∨
      (acc.1.pack.addRect (packedWidth g) (packedHeight g)).1.height > M
  · have e1 : (packGlyph scale M firstGlyph acc g).1.pageIndex = acc.1.pageIndex + 1 := by
      simp only [packGlyph, hs, decide_True, if_true]
    have e2 : (packGlyph scale M firstGlyph acc g).1.pages = acc.1.pages ++
        [{ textRuns := acc.1.page.textRuns ++ [acc.2],
           width := ⌈(acc.1.pack.width : ℚ) * scale⌉,
           height := ⌈(acc.1.pack.height : ℚ) * scale⌉,
           packWidth := acc.1.pack.width, packHeight := acc.1.pack.height }] := by
      simp only [packGlyph, hs, decide_True, if_true]
    have e3 : (packGlyph scale M firstGlyph acc g).1.page = {} := by
      simp only [packGlyph, hs, decide_True, if_true]
    have e4 : f (packGlyph scale M firstGlyph acc g).2 =
        [w g.glyphId (placeGlyph scale M (acc.1.pack, acc.1.pageIndex) g).position] := by
      have : (packGlyph scale M firstGlyph acc g).2 =
          { CreateTextRun firstGlyph with
            glyphIDs := (CreateTextRun firstGlyph).glyphIDs ++ [g.glyphId],
            positions := (CreateTextRun firstGlyph).positions ++
              [(placeGlyph scale M (acc.1.pack, acc.1.pageIndex) g).position] } := by
        simp only [packGlyph, hs, decide_True, if_true, placeGlyph, Placement.position,
          packPoint]
      rw [this, hp, hc, List.nil_append]
    rw [e1] at hidx
    refine ⟨?_, ?_, ?_, ?_⟩
    · rw [e1, e2, List.length_append, h1]
      rfl
    · intro e he
      rw [e1]
      rcases List.mem_append.1 he with h5 | h5
      · exact Nat.le_succ_of_le (h2 e h5)
      · simp only [List.mem_singleton] at h5
        rw [h5, hidx]
    · rw [e1, e2, List.map_append, List.range_succ, List.map_append, h3]
      congr 1
      · apply List.map_congr_left
        intro k hk
        rw [onPage_append, if_neg (by rw [hidx]; have := List.mem_range.1 hk; omega)]
      · simp only [List.map_cons, List.map_nil, List.flatMap_append, List.flatMap_cons,
          List.flatMap_nil, List.append_nil]
        rw [onPage_append, if_neg (by rw [hidx]; omega), ← h4]
    · rw [e1, e3, e4, onPage_append, if_pos hidx,
        onPage_eq_nil tr _ _ h2 (Nat.lt_succ_self _)]
      rfl
  · have e1 : (packGlyph scale M firstGlyph acc g).1.pageIndex = acc.1.pageIndex := by
      simp only [packGlyph, hs, decide_False, if_false, Bool.false_eq_true]
    have e2 : (packGlyph scale M firstGlyph acc g).1.pages = acc.1.pages := by
      simp only [packGlyph, hs, decide_False, if_false, Bool.false_eq_true]
    have e3 : (packGlyph scale M firstGlyph acc g).1.page = acc.1.page := by
      simp only [packGlyph, hs, decide_False, if_false, Bool.false_eq_true]
    have e4 : f (packGlyph scale M firstGlyph acc g).2 = f acc.2 ++
        [w g.glyphId (placeGlyph scale M (acc.1.pack, acc.1.pageIndex) g).position] := by
      have : (packGlyph scale M firstGlyph acc g).2 =
          { acc.2 with
            glyphIDs := acc.2.glyphIDs ++ [g.glyphId],
            positions := acc.2.positions ++
              [(placeGlyph scale M (acc.1.pack, acc.1.pageIndex) g).position] } := by
        simp only [packGlyph, hs, decide_False, if_false, Bool.false_eq_true, placeGlyph,
          Placement.position, packPoint]
      rw [this, hp]
    rw [e1] at hidx
    refine ⟨?_, ?_, ?_, ?_⟩
    · rw [e1, e2, h1]
    · intro e he
      rw [e1]
      rcases List.mem_append.1 he with h5 | h5
      · exact h2 e h5
      · simp only [List.mem_singleton] at h5
        rw [h5, hidx]
    · rw [e1, e2, h3]
      apply List.map_congr_left
      intro k hk
      rw [onPage_append, if_neg (by rw [hidx]; have := List.mem_range.1 hk; omega)]
    · rw [e1, e3, e4, onPage_append, if_pos hidx, List.map_append, ← h4, List.append_assoc]
      rfl

theorem placements_append (scale : ℚ) (M : Int) (a b : List AtlasGlyph) :
    ∀ pk : RectanglePack × Nat,
      placements scale M pk (a ++ b) =
        placements scale M pk a ++
          placements scale M (placeAll scale M pk (a.map packedSize)).1 b := by
  induction a with
  | nil => intro pk; rfl
  | cons g rest ih =>
    intro pk
    simp only [List.cons_append, placements, List.map_cons, placeAll, packedSize]
    exact congrArg _ (ih _)

theorem placeAll_append (scale : ℚ) (M : Int) (a b : List (Int × Int)) :
    ∀ pk : RectanglePack × Nat,
      (placeAll scale M pk (a ++ b)).1 =
        (placeAll scale M (placeAll scale M pk a).1 b).1 := by
  induction a with
  | nil => intro pk; rfl
  | cons g rest ih =>
    intro pk
    simp only [List.cons_append, placeAll]
    exact ih _

theorem placements_snoc (scale : ℚ) (M : Int) (a : List AtlasGlyph) (g : AtlasGlyph)
    (pk : RectanglePack × Nat) :
    placements scale M pk (a ++ [g]) =
      placements scale M pk a ++
        [placeGlyph scale M (placeAll scale M pk (a.map packedSize)).1 g] := by
  rw [placements_append]
  rfl

theorem foldl_packGlyph_laidOut {β : Type} (f : TextRun → List β) (w : GlyphID → Point → β)
    (hc : ∀ g, f (CreateTextRun g) = [])
    (hp : ∀ (run : TextRun) (id : GlyphID) (pos : Point),
      f { run with glyphIDs := run.glyphIDs ++ [id], positions := run.positions ++ [pos] } =
        f run ++ [w id pos])
    (scale : ℚ) (M : Int) (firstGlyph : AtlasGlyph) (group : List AtlasGlyph) :
    ∀ (acc : PagesState × TextRun) (tr : List Placement),
      acc.1.laidOut f (fun e => w e.glyph.glyphId e.position) tr (f acc.2) →
      (group.foldl (packGlyph scale M firstGlyph) acc).1.laidOut f
        (fun e => w e.glyph.glyphId e.position)
        (tr ++ placements scale M (acc.1.pack, acc.1.pageIndex) group)
        (f (group.foldl (packGlyph scale M firstGlyph) acc).2) := by
  induction group with
  | nil =>
    intro acc tr h
    simpa [placements] using h
  | cons g rest ih =>
    intro acc tr h
    rw [List.foldl_cons]
    have hstep := packGlyph_laidOut f w hc hp scale M firstGlyph acc g tr h
    have hnext := ih (packGlyph scale M firstGlyph acc g) _ hstep
    have hpk := (packGlyph_place scale M firstGlyph acc g).1
    rw [hpk, List.append_assoc] at hnext
    exact hnext

theorem packGroup_state (scale : ℚ) (M : Int) (st : PagesState) (group : List AtlasGlyph) :
    ((packGroup scale M st group).pack, (packGroup scale M st group).pageIndex) =
      (placeAll scale M (st.pack, st.pageIndex) (group.map packedSize)).1 := by
  unfold packGroup
  cases group with
  | nil => rfl
  | cons firstGlyph rest =>
    exact (foldl_packGlyph_placeAll scale M firstGlyph (firstGlyph :: rest)
      (st, CreateTextRun firstGlyph)).1

theorem packGroup_laidOut {β : Type} (f : TextRun → List β) (w : GlyphID → Point → β)
    (hc : ∀ g, f (CreateTextRun g) = [])
    (hp : ∀ (run : TextRun) (id : GlyphID) (pos : Point),
      f { run with glyphIDs := run.glyphIDs ++ [id], positions := run.positions ++ [pos] } =
        f run ++ [w id pos])
    (scale : ℚ) (M : Int) (st : PagesState) (group : List AtlasGlyph) (tr : List Placement)
    (h : st.laidOut f (fun e => w e.glyph.glyphId e.position) tr []) :
    (packGroup scale M st group).laidOut f (fun e => w e.glyph.glyphId e.position)
      (tr ++ placements scale M (st.pack, st.pageIndex) group) [] := by
  unfold packGroup
  cases group with
  | nil => simpa [placements] using h
  | cons firstGlyph rest =>
    simp only
    have h0 : (st, CreateTextRun firstGlyph).1.laidOut f
        (fun e => w e.glyph.glyphId e.position) tr
        (f (st, CreateTextRun firstGlyph).2) := by
      simp only [hc]
      exact h
    obtain ⟨h1, h2, h3, h4⟩ := foldl_packGlyph_laidOut f w hc hp scale M firstGlyph
      (firstGlyph :: rest) (st, CreateTextRun firstGlyph) tr h0
    refine ⟨h1, h2, h3, ?_⟩
    simp only [List.flatMap_append, List.flatMap_cons, List.flatMap_nil, List.append_nil]
    exact h4

theorem foldl_packGroup_laidOut {β : Type} (f : TextRun → List β) (w : GlyphID → Point → β)
    (hc : ∀ g, f (CreateTextRun g) = [])
    (hp : ∀ (run : TextRun) (id : GlyphID) (pos : Point),
      f { run with glyphIDs := run.glyphIDs ++ [id], positions := run.positions ++ [pos] } =
        f run ++ [w id pos])
    (scale : ℚ) (M : Int) (styleMap : StyleMap) (styleKeys : List BytesKey) :
    ∀ (st : PagesState) (tr : List Placement),
      st.laidOut f (fun e => w e.glyph.glyphId e.position) tr [] →
      (styleKeys.foldl (fun st key => packGroup scale M st (styleMap.get key)) st).laidOut f
        (fun e => w e.glyph.glyphId e.position)
        (tr ++ placements scale M (st.pack, st.pageIndex)
          (styleKeys.flatMap (fun key => styleMap.get key))) [] := by
  induction styleKeys with
  | nil =>
    intro st tr h
    simpa [placements] using h
  | cons key rest ih =>
    intro st tr h
    rw [List.foldl_cons, List.flatMap_cons, placements_append, ← packGroup_state,
      ← List.append_assoc]
    exact ih _ _ (packGroup_laidOut f w hc hp scale M st _ tr h)

theorem initPages_laidOut {β : Type} (f : TextRun → List β) (w : GlyphID → Point → β)
    (hc : ∀ g, f (CreateTextRun g) = [])
    (hp : ∀ (run : TextRun) (id : GlyphID) (pos : Point),
      f { run with glyphIDs := run.glyphIDs ++ [id], positions := run.positions ++ [pos] } =
        f run ++ [w id pos])
    (glyphs : List AtlasGlyph) (scale : ℚ) (maxTextureSize : Int) :
    (∀ e ∈ Atlas.placements glyphs scale maxTextureSize,
      e.locator.pageIndex < (Atlas.initPages glyphs scale maxTextureSize).pages.length) ∧
    (Atlas.initPages glyphs scale maxTextureSize).pages.map (fun p => p.textRuns.flatMap f) =
      (List.range (Atlas.initPages glyphs scale maxTextureSize).pages.length).map
        (fun k => (onPage (Atlas.placements glyphs scale maxTextureSize) k).map
          (fun e => w e.glyph.glyphId e.position)) := by
  have h0 : ({} : PagesState).laidOut f (fun e => w e.glyph.glyphId e.position) [] [] := by
    refine ⟨rfl, fun e he => by simp at he, rfl, rfl⟩
  obtain ⟨h1, h2, h3, h4⟩ := foldl_packGroup_laidOut f w hc hp scale
    (maxPageSize maxTextureSize scale) (groupByStyle glyphs).2 (groupByStyle glyphs).1
    ({} : PagesState) [] h0
  rw [List.nil_append] at h2 h3 h4
  rw [List.append_nil] at h4
  have hlen : (Atlas.initPages glyphs scale maxTextureSize).pages.length =
      (List.foldl (fun st key => packGroup scale (maxPageSize maxTextureSize scale) st
        ((groupByStyle glyphs).2.get key)) ({} : PagesState) (groupByStyle glyphs).1).pageIndex
        + 1 := by
    simp only [Atlas.initPages, List.length_append, List.length_singleton, h1]
  constructor
  · intro e he
    rw [hlen]
    exact Nat.lt_succ_of_le (h2 e he)
  · rw [hlen, List.range_succ, List.map_append]
    simp only [Atlas.initPages, List.map_append, List.map_cons, List.map_nil]
    rw [h3, h4]
    rfl

theorem LocatorMap.find_set (key : BytesKey) (locator : AtlasLocator) (k : BytesKey) :
    ∀ m : LocatorMap, (m.set key locator).find k =
      if k = key then some locator else m.find k := by
  intro m
  induction m with
  | nil =>
    by_cases h : k = key
    · simp [LocatorMap.set, LocatorMap.find, h]
    · have h2 : ¬ key = k := fun hh => h hh.symm
      simp [LocatorMap.set, LocatorMap.find, h, h2]
  | cons e rest ih =>
    simp only [LocatorMap.set]
    by_cases he : e.1 = key
    · rw [if_pos he]
      by_cases h : k = key
      · simp [LocatorMap.find, h]
      · have h2 : ¬ key = k := fun hh => h hh.symm
        have h3 : ¬ e.1 = k := fun hh => h2 (he ▸ hh)
        simp [LocatorMap.find, h, h2, h3]
    · rw [if_neg he]
      unfold LocatorMap.find at ih ⊢
      by_cases h3 : e.1 = k
      · have h : ¬ k = key := fun hh => he (h3.trans hh)
        simp [h3, h]
      · rw [List.find?_cons_of_neg _ (by simpa using h3), ih]
        rw [List.find?_cons_of_neg _ (by simpa using h3)]

theorem storeAll_snoc (m : LocatorMap) (tr : List Placement) (e : Placement) :
    storeAll m (tr ++ [e]) = (storeAll m tr).set (atlasKeyOf e.glyph) e.locator := by
  unfold storeAll
  rw [List.foldl_append]
  rfl

theorem storeAll_append (m : LocatorMap) (a b : List Placement) :
    storeAll m (a ++ b) = storeAll (storeAll m a) b := by
  unfold storeAll
  rw [List.foldl_append]

theorem storeAll_find (m : LocatorMap) (key : BytesKey) (tr : List Placement) :
    (storeAll m tr).find key =
      match tr.reverse.find? (fun e => decide (atlasKeyOf e.glyph = key)) with
      | some e => some e.locator
      | none => m.find key := by
  induction tr using List.reverseRecOn with
  | nil => rfl
  | append_singleton tr e ih =>
    rw [storeAll_snoc, LocatorMap.find_set, List.reverse_append, List.reverse_singleton,
      List.singleton_append]
    by_cases h : atlasKeyOf e.glyph = key
    · rw [if_pos h.symm, List.find?_cons_of_pos _ (by simpa using h)]
    · rw [if_neg (fun hh => h hh.symm), List.find?_cons_of_neg _ (by simpa using h), ih]

theorem storeAll_mem (x : BytesKey × AtlasLocator) (m : LocatorMap) (tr : List Placement)
    (h : x ∈ storeAll m tr) : x ∈ m ∨ ∃ e ∈ tr, x = (atlasKeyOf e.glyph, e.locator) := by
  induction tr using List.reverseRecOn with
  | nil => exact Or.inl h
  | append_singleton tr e ih =>
    rw [storeAll_snoc] at h
    rcases LocatorMap.mem_set _ _ x _ h with h1 | h1
    · rcases ih h1 with h2 | ⟨e', he', h2⟩
      · exact Or.inl h2
      · exact Or.inr ⟨e', List.mem_append_left _ he', h2⟩
    · exact Or.inr ⟨e, List.mem_append_right _ (List.mem_singleton_self _), h1⟩

theorem foldl_packGlyph_store (scale : ℚ) (M : Int) (firstGlyph : AtlasGlyph)
    (group : List AtlasGlyph) :
    ∀ acc : PagesState × TextRun,
      (group.foldl (packGlyph scale M firstGlyph) acc).1.glyphLocators =
        storeAll acc.1.glyphLocators
          (placements scale M (acc.1.pack, acc.1.pageIndex) group) := by
  induction group with
  | nil => intro acc; rfl
  | cons g rest ih =>
    intro acc
    rw [List.foldl_cons, ih, (packGlyph_place scale M firstGlyph acc g).1,
      (packGlyph_place scale M firstGlyph acc g).2]
    rfl

theorem packGroup_store (scale : ℚ) (M : Int) (st : PagesState) (group : List AtlasGlyph) :
    (packGroup scale M st group).glyphLocators =
      storeAll st.glyphLocators (placements scale M (st.pack, st.pageIndex) group) := by
  unfold packGroup
  cases group with
  | nil => rfl
  | cons firstGlyph rest =>
    exact foldl_packGlyph_store scale M firstGlyph (firstGlyph :: rest)
      (st, CreateTextRun firstGlyph)

theorem foldl_packGroup_store (scale : ℚ) (M : Int) (styleMap : StyleMap)
    (styleKeys : List BytesKey) :
    ∀ st : PagesState,
      (styleKeys.foldl (fun st key => packGroup scale M st (styleMap.get key))
          st).glyphLocators =
        storeAll st.glyphLocators (placements scale M (st.pack, st.pageIndex)
          (styleKeys.flatMap (fun key => styleMap.get key))) := by
  induction styleKeys with
  | nil => intro st; rfl
  | cons key rest ih =>
    intro st
    rw [List.foldl_cons, ih, List.flatMap_cons, placements_append, storeAll_append,
      packGroup_store, packGroup_state]

theorem initPages_store (glyphs : List AtlasGlyph) (scale : ℚ) (maxTextureSize : Int) :
    (Atlas.initPages glyphs scale maxTextureSize).glyphLocators =
      storeAll [] (Atlas.placements glyphs scale maxTextureSize) := by
  unfold Atlas.initPages
  simp only
  rw [foldl_packGroup_store]
  rfl

theorem placements_glyphs (scale : ℚ) (M : Int) (gs : List AtlasGlyph) :
    ∀ pk : RectanglePack × Nat, (placements scale M pk gs).map Placement.glyph = gs := by
  induction gs with
  | nil => intro pk; rfl
  | cons g rest ih =>
    intro pk
    simp only [placements, List.map_cons, ih]
    rfl

theorem placeRect_pageIndex (scale : ℚ) (M : Int) (pk : RectanglePack × Nat) (w h : Int) :
    (placeRect scale M pk w h).2.pageIndex = (placeRect scale M pk w h).1.2 ∧
      pk.2 ≤ (placeRect scale M pk w h).1.2 ∧ (placeRect scale M pk w h).1.2 ≤ pk.2 + 1 := by
  unfold placeRect
  simp only
  split_ifs <;> simp

theorem placements_chain (scale : ℚ) (M : Int) (gs : List AtlasGlyph) :
    ∀ pk : RectanglePack × Nat,
      List.Chain (fun a b : Nat => a ≤ b ∧ b ≤ a + 1) pk.2
        ((placements scale M pk gs).map (fun e => e.locator.pageIndex)) := by
  induction gs with
  | nil => intro pk; exact List.Chain.nil
  | cons g rest ih =>
    intro pk
    simp only [placements, List.map_cons]
    have h := placeRect_pageIndex scale M pk (packedWidth g) (packedHeight g)
    refine List.Chain.cons ?_ ?_
    · show pk.2 ≤ (placeRect scale M pk (packedWidth g) (packedHeight g)).2.pageIndex ∧ _
      rw [h.1]
      exact h.2
    · have h2 := ih (placeRect scale M pk (packedWidth g) (packedHeight g)).1
      rw [← h.1] at h2
      exact h2

theorem placeGlyph_point (scale : ℚ) (M : Int) (pk : RectanglePack × Nat) (g : AtlasGlyph) :
    (placeGlyph scale M pk g).position.x + (g.bounds.x - (strokeInset g : ℚ)) =
      ((placeGlyph scale M pk g).point.1 : ℚ) ∧
    (placeGlyph scale M pk g).position.y + (g.bounds.y - (strokeInset g : ℚ)) =
      ((placeGlyph scale M pk g).point.2 : ℚ) ∧
    (placeGlyph scale M pk g).locator.location =
      (Rect.MakeXYWH ((placeGlyph scale M pk g).point.1 : ℚ)
        ((placeGlyph scale M pk g).point.2 : ℚ) (packedWidth g : ℚ)
        (packedHeight g : ℚ)).scale scale scale := by
  refine ⟨?_, ?_, rfl⟩
  · simp only [Placement.position, placeGlyph]
    ring
  · simp only [Placement.position, placeGlyph]
    ring

theorem sorted_partition {α : Type} (key : α → Nat) :
    ∀ (n : Nat) (l : List α), (l.map key).Pairwise (fun a b => a ≤ b) →
      (∀ x ∈ l, key x < n) →
      (List.range n).flatMap (fun k => l.filter (fun x => decide (key x = k))) = l := by
  intro n
  induction n with
  | zero =>
    intro l _ h
    cases l with
    | nil => rfl
    | cons x rest => exact absurd (h x (List.mem_cons_self _ _)) (Nat.not_lt_zero _)
  | succ n ih =>
    intro l hs hlt
    rw [List.range_succ, List.flatMap_append]
    simp only [List.flatMap_cons, List.flatMap_nil, List.append_nil]
    have hlow : (List.range n).flatMap (fun k => l.filter (fun x => decide (key x = k))) =
        l.filter (fun x => decide (key x < n)) := by
      have h1 := ih (l.filter (fun x => decide (key x < n)))
        ((hs.sublist ((List.filter_sublist l).map key))) (by
          intro x hx
          simpa using (List.mem_filter.1 hx).2)
      rw [← h1]
      apply List.flatMap_congr
      intro k hk
      rw [List.filter_filter]
      apply List.filter_congr
      intro x _
      have := List.mem_range.1 hk
      by_cases hx : key x = k
      · simp [hx, this]
      · simp [hx]
    rw [hlow]
    clear hlow ih
    induction l with
    | nil => rfl
    | cons x rest ihl =>
      rw [List.map_cons, List.pairwise_cons] at hs
      have hs' := hs
      have hrest := ihl hs'.2 (fun y hy => hlt y (List.mem_cons_of_mem _ hy))
      by_cases hx : key x < n
      · rw [List.filter_cons_of_pos (by simpa using hx),
          List.filter_cons_of_neg (by simpa using Nat.ne_of_lt hx), List.cons_append, hrest]
      · have hxn : key x = n := by
          have := hlt x (List.mem_cons_self _ _)
          omega
        have hall : ∀ y ∈ rest, key y = n := by
          intro y hy
          have h1 := hs'.1 (key y) (List.mem_map_of_mem _ hy)
          have h2 := hlt y (List.mem_cons_of_mem _ hy)
          omega
        rw [List.filter_cons_of_neg (by simpa using hx),
          List.filter_cons_of_pos (by simpa using hxn)]
        have h1 : rest.filter (fun x => decide (key x < n)) = [] := by
          rw [List.filter_eq_nil_iff]
          intro y hy
          simp [hall y hy]
        have h2 : rest.filter (fun x => decide (key x = n)) = rest := by
          rw [List.filter_eq_self]
          intro y hy
          simp [hall y hy]
        rw [h1, h2]
        rfl

theorem initPages_glyphIDs (glyphs : List AtlasGlyph) (scale : ℚ) (maxTextureSize : Int) :
    (Atlas.initPages glyphs scale maxTextureSize).pages.map Page.glyphIDs =
      (List.range (Atlas.initPages glyphs scale maxTextureSize).pages.length).map
        (fun k => (onPage (Atlas.placements glyphs scale maxTextureSize) k).map
          (fun e => e.glyph.glyphId)) :=
  (initPages_laidOut TextRun.glyphIDs (fun id _ => id) (fun _ => rfl) (fun _ _ _ => rfl)
    glyphs scale maxTextureSize).2

theorem initPages_positions (glyphs : List AtlasGlyph) (scale : ℚ) (maxTextureSize : Int) :
    (Atlas.initPages glyphs scale maxTextureSize).pages.map Page.positions =
      (List.range (Atlas.initPages glyphs scale maxTextureSize).pages.length).map
        (fun k => (onPage (Atlas.placements glyphs scale maxTextureSize) k).map
          Placement.position) :=
  (initPages_laidOut TextRun.positions (fun _ pos => pos) (fun _ => rfl) (fun _ _ _ => rfl)
    glyphs scale maxTextureSize).2

theorem initPages_pageIndex_lt (glyphs : List AtlasGlyph) (scale : ℚ) (maxTextureSize : Int) :
    ∀ e ∈ Atlas.placements glyphs scale maxTextureSize,
      e.locator.pageIndex < (Atlas.initPages glyphs scale maxTextureSize).pages.length :=
  (initPages_laidOut TextRun.glyphIDs (fun id _ => id) (fun _ => rfl) (fun _ _ _ => rfl)
    glyphs scale maxTextureSize).1

theorem Atlas.placements_glyph (glyphs : List AtlasGlyph) (scale : ℚ) (maxTextureSize : Int) :
    (Atlas.placements glyphs scale maxTextureSize).map Placement.glyph = packOrder glyphs :=
  placements_glyphs scale _ _ _

theorem Atlas.placements_sorted (glyphs : List AtlasGlyph) (scale : ℚ) (maxTextureSize : Int) :
    ((Atlas.placements glyphs scale maxTextureSize).map
      (fun e => e.locator.pageIndex)).Pairwise (fun a b => a ≤ b) := by
  have h := placements_chain scale (maxPageSize maxTextureSize scale) (packOrder glyphs)
    (RectanglePack.reset, 0)
  have h2 : List.Chain (fun a b : Nat => a ≤ b) 0
      ((Atlas.placements glyphs scale maxTextureSize).map (fun e => e.locator.pageIndex)) :=
    List.Chain.imp (fun _ _ hab => hab.1) h
  exact (List.pairwise_cons.1 (List.chain_iff_pairwise.1 h2)).2

theorem initPages_ids_in_order (glyphs : List AtlasGlyph) (scale : ℚ) (maxTextureSize : Int) :
    (Atlas.initPages glyphs scale maxTextureSize).pages.flatMap Page.glyphIDs =
      (packOrder glyphs).map AtlasGlyph.glyphId := by
  have h1 := initPages_glyphIDs glyphs scale maxTextureSize
  have h2 := sorted_partition (fun e : Placement => e.locator.pageIndex)
    (Atlas.initPages glyphs scale maxTextureSize).pages.length
    (Atlas.placements glyphs scale maxTextureSize)
    (Atlas.placements_sorted glyphs scale maxTextureSize)
    (initPages_pageIndex_lt glyphs scale maxTextureSize)
  have h3 : (Atlas.initPages glyphs scale maxTextureSize).pages.flatMap Page.glyphIDs =
      ((Atlas.initPages glyphs scale maxTextureSize).pages.map Page.glyphIDs).flatten := by
    rw [List.flatMap_def]
  rw [h3, h1, ← List.flatMap_def]
  have h4 : (List.range (Atlas.initPages glyphs scale maxTextureSize).pages.length).flatMap
      (fun k => (onPage (Atlas.placements glyphs scale maxTextureSize) k).map
        (fun e => e.glyph.glyphId)) =
      ((List.range (Atlas.initPages glyphs scale maxTextureSize).pages.length).flatMap
        (fun k => onPage (Atlas.placements glyphs scale maxTextureSize) k)).map
        (fun e => e.glyph.glyphId) := by
    rw [List.map_flatMap]
  have h5 : (fun k => onPage (Atlas.placements glyphs scale maxTextureSize) k) =
      (fun k => (Atlas.placements glyphs scale maxTextureSize).filter
        (fun x => decide (x.locator.pageIndex = k))) := rfl
  simp only [Function.comp_def, id] at h4 ⊢
  rw [h4, h5, h2, ← Atlas.placements_glyph glyphs scale maxTextureSize, List.map_map]
  rfl

theorem packGlyph_pages_grow (scale : ℚ) (M : Int) (firstGlyph : AtlasGlyph)
    (acc : PagesState × TextRun) (g : AtlasGlyph) :
    acc.1.pages <+: (packGlyph scale M firstGlyph acc g).1.pages := by
  unfold packGlyph
  simp only
  split_ifs
  · exact List.prefix_append _ _
  · exact List.prefix_refl _

theorem packGroup_pages_grow (scale : ℚ) (M : Int) (st : PagesState)
    (group : List AtlasGlyph) : st.pages <+: (packGroup scale M st group).pages := by
  unfold packGroup
  cases group with
  | nil => exact List.prefix_refl _
  | cons firstGlyph rest =>
    simp only
    refine foldl_invariant (fun acc : PagesState × TextRun => st.pages <+: acc.1.pages)
      (fun _ => True) (packGlyph scale M firstGlyph) ?_ (firstGlyph :: rest)
      (st, CreateTextRun firstGlyph) (fun _ _ => trivial) (List.prefix_refl _)
    intro b a hb _
    exact hb.trans (packGlyph_pages_grow scale M firstGlyph b a)

/-- C22: `initPages` lays the glyphs out as follows. Let the placements be, for the glyphs in
packing order, the pack point and the locator that the loop body computes from the packer
state and page index left by the glyphs before it, the pack point being the point returned by
`addRect`, or after a page split the point that the reset packer returns. Then the pages hold,
page by page and in order, the glyph ids and the positions of the placements with that page
index; for every placement the position plus the stroke-inset origin of the bounds
(bounds.x - strokeInset, bounds.y - strokeInset) is the pack point and the locator's rectangle
is (point.x, point.y, width, height) times the scale; and the locator map gives for every key
the locator of the last placement with that key. -/
theorem initPages_pack_point (glyphs : List AtlasGlyph) (scale : ℚ) (maxTextureSize : Int) :
    (∀ pre g post, packOrder glyphs = pre ++ g :: post →
      (Atlas.placements glyphs scale maxTextureSize)[pre.length]? =
        some (placeGlyph scale (maxPageSize maxTextureSize scale)
          (placeAll scale (maxPageSize maxTextureSize scale) (RectanglePack.reset, 0)
            (pre.map packedSize)).1 g)) ∧
    (Atlas.initPages glyphs scale maxTextureSize).pages.map Page.glyphIDs =
      (List.range (Atlas.initPages glyphs scale maxTextureSize).pages.length).map
        (fun k => (onPage (Atlas.placements glyphs scale maxTextureSize) k).map
          (fun e => e.glyph.glyphId)) ∧
    (Atlas.initPages glyphs scale maxTextureSize).pages.map Page.positions =
      (List.range (Atlas.initPages glyphs scale maxTextureSize).pages.length).map
        (fun k => (onPage (Atlas.placements glyphs scale maxTextureSize) k).map
          Placement.position) ∧
    (∀ e ∈ Atlas.placements glyphs scale maxTextureSize,
      e.position.x + (e.glyph.bounds.x - (strokeInset e.glyph : ℚ)) = (e.point.1 : ℚ) ∧
      e.position.y + (e.glyph.bounds.y - (strokeInset e.glyph : ℚ)) = (e.point.2 : ℚ) ∧
      e.locator.location =
        (Rect.MakeXYWH (e.point.1 : ℚ) (e.point.2 : ℚ) (packedWidth e.glyph : ℚ)
          (packedHeight e.glyph : ℚ)).scale scale scale) ∧
    (∀ key, (Atlas.initPages glyphs scale maxTextureSize).glyphLocators.find key =
      ((Atlas.placements glyphs scale maxTextureSize).reverse.find?
        (fun e => decide (atlasKeyOf e.glyph = key))).map Placement.locator) := by
  refine ⟨?_, initPages_glyphIDs glyphs scale maxTextureSize,
    initPages_positions glyphs scale maxTextureSize, ?_, ?_⟩
  · intro pre g post h
    unfold Atlas.placements
    rw [h, placements_append, List.getElem?_append_right (by
      rw [← List.length_map (placements _ _ _ pre) Placement.glyph, placements_glyphs])]
    have hl : (placements scale (maxPageSize maxTextureSize scale) (RectanglePack.reset, 0)
        pre).length = pre.length := by
      rw [← List.length_map (placements _ _ _ pre) Placement.glyph, placements_glyphs]
    rw [hl, Nat.sub_self]
    simp only [placements, List.getElem?_cons_zero]
  · intro e he
    have hsplit : ∃ pk, e = placeGlyph scale (maxPageSize maxTextureSize scale) pk e.glyph := by
      unfold Atlas.placements at he
      generalize (RectanglePack.reset, 0) = pk0 at he
      generalize packOrder glyphs = gs at he
      induction gs generalizing pk0 with
      | nil => simp [placements] at he
      | cons g rest ih =>
        simp only [placements, List.mem_cons] at he
        rcases he with h1 | h1
        · exact ⟨pk0, by rw [h1]; rfl⟩
        · exact ih _ h1
    obtain ⟨pk, hpk⟩ := hsplit
    have h := placeGlyph_point scale (maxPageSize maxTextureSize scale) pk e.glyph
    rw [← hpk] at h
    exact h
  · intro key
    rw [initPages_store, storeAll_find]
    cases (Atlas.placements glyphs scale maxTextureSize).reverse.find?
      (fun e => decide (atlasKeyOf e.glyph = key)) with
    | none => rfl
    | some e => rfl

/-- C23: in `initPages` the page index given to the glyphs starts at 0 or 1, never decreases
in packing order and grows by at most 1 per glyph; the packing order is a rearrangement of the
input list, each glyph's id is appended once, and the ids that page `k` ends up with are those
of the glyphs whose locator was built with page index `k`, so the pages hold the ids in
packing order; the loop body and the group loop only append to the list of closed pages; and
the page index of every placement and of every stored locator is smaller than the final number
of pages. -/
theorem initPages_page_index (glyphs : List AtlasGlyph) (scale : ℚ) (maxTextureSize : Int) :
    List.Chain (fun a b : Nat => a ≤ b ∧ b ≤ a + 1) 0
      ((Atlas.placements glyphs scale maxTextureSize).map (fun e => e.locator.pageIndex)) ∧
    ((Atlas.placements glyphs scale maxTextureSize).map
      (fun e => e.locator.pageIndex)).Pairwise (fun a b => a ≤ b) ∧
    (Atlas.placements glyphs scale maxTextureSize).map Placement.glyph = packOrder glyphs ∧
    (packOrder glyphs).Perm glyphs ∧
    (Atlas.initPages glyphs scale maxTextureSize).pages.map Page.glyphIDs =
      (List.range (Atlas.initPages glyphs scale maxTextureSize).pages.length).map
        (fun k => (onPage (Atlas.placements glyphs scale maxTextureSize) k).map
          (fun e => e.glyph.glyphId)) ∧
    (Atlas.initPages glyphs scale maxTextureSize).pages.flatMap Page.glyphIDs =
      (packOrder glyphs).map AtlasGlyph.glyphId ∧
    (∀ (M : Int) (firstGlyph : AtlasGlyph) (acc : PagesState × TextRun) (g : AtlasGlyph),
      acc.1.pages <+: (packGlyph scale M firstGlyph acc g).1.pages) ∧
    (∀ (M : Int) (st : PagesState) (group : List AtlasGlyph),
      st.pages <+: (packGroup scale M st group).pages) ∧
    (∀ e ∈ Atlas.placements glyphs scale maxTextureSize,
      e.locator.pageIndex < (Atlas.initPages glyphs scale maxTextureSize).pages.length) ∧
    (∀ x ∈ (Atlas.initPages glyphs scale maxTextureSize).glyphLocators,
      x.2.pageIndex < (Atlas.initPages glyphs scale maxTextureSize).pages.length) := by
  refine ⟨placements_chain scale _ _ (RectanglePack.reset, 0),
    Atlas.placements_sorted glyphs scale maxTextureSize,
    Atlas.placements_glyph glyphs scale maxTextureSize, packOrder_perm glyphs,
    initPages_glyphIDs glyphs scale maxTextureSize,
    initPages_ids_in_order glyphs scale maxTextureSize,
    fun M firstGlyph acc g => packGlyph_pages_grow scale M firstGlyph acc g,
    fun M st group => packGroup_pages_grow scale M st group,
    initPages_pageIndex_lt glyphs scale maxTextureSize, ?_⟩
  intro x hx
  rw [initPages_store] at hx
  rcases storeAll_mem x [] _ hx with h | ⟨e, he, h⟩
  · simp at h
  · rw [h]
    exact initPages_pageIndex_lt glyphs scale maxTextureSize e he

/-- C24: `initPages` packs the glyphs in the order of the stable partition of the input by
style key. The style keys are visited in the order of their first occurrence in the input,
each once; the group of a key holds the glyphs of that key in input order; so a glyph of the
input is in the group of a visited key exactly when the key is its own style key, and the
packing order is a rearrangement of the input. The placements, the glyph ids of the pages and
the locator map follow that order. -/
theorem initPages_stable_partition (glyphs : List AtlasGlyph) (scale : ℚ)
    (maxTextureSize : Int) :
    (groupByStyle glyphs).1 = firstOccurrences (glyphs.map styleKeyOf) ∧
    (groupByStyle glyphs).1.Nodup ∧
    (∀ key, (groupByStyle glyphs).2.get key =
      glyphs.filter (fun g => decide (styleKeyOf g = key))) ∧
    (∀ g ∈ glyphs, ∀ key, (key ∈ (groupByStyle glyphs).1 ∧ g ∈ (groupByStyle glyphs).2.get key) ↔
      key = styleKeyOf g) ∧
    packOrder glyphs = stablePartition glyphs ∧
    (stablePartition glyphs).Perm glyphs ∧
    (Atlas.placements glyphs scale maxTextureSize).map Placement.glyph =
      stablePartition glyphs ∧
    (Atlas.initPages glyphs scale maxTextureSize).pages.flatMap Page.glyphIDs =
      (stablePartition glyphs).map AtlasGlyph.glyphId ∧
    (Atlas.initPages glyphs scale maxTextureSize).glyphLocators =
      storeAll [] (placements scale (maxPageSize maxTextureSize scale)
        (RectanglePack.reset, 0) (stablePartition glyphs)) := by
  have hp := packOrder_eq_stablePartition glyphs
  refine ⟨groupByStyle_keys glyphs, ?_, groupByStyle_get glyphs, ?_, hp, ?_, ?_, ?_, ?_⟩
  · rw [groupByStyle_keys]
    exact firstOccurrences_nodup _
  · intro g hg key
    rw [groupByStyle_get, groupByStyle_keys, firstOccurrences_mem]
    constructor
    · rintro ⟨_, h⟩
      have := (List.mem_filter.1 h).2
      simp only [decide_eq_true_eq] at this
      exact this.symm
    · intro h
      subst h
      exact ⟨List.mem_map_of_mem _ hg, List.mem_filter.2 ⟨hg, by simp⟩⟩
  · rw [← hp]
    exact packOrder_perm glyphs
  · rw [← hp]
    exact Atlas.placements_glyph glyphs scale maxTextureSize
  · rw [← hp]
    exact initPages_ids_in_order glyphs scale maxTextureSize
  · rw [← hp]
    exact initPages_store glyphs scale maxTextureSize

/-! ## The insertion points of the packer -/

theorem RectanglePack.addRect_point_inside (p : RectanglePack) (w h : Int)
    (hp : p.atLeastPadding) (hw : 0 ≤ w) (hh : 0 ≤ h) :
    (p.addRect w h).1.atLeastPadding ∧
    1 ≤ (p.addRect w h).2.1 ∧ (p.addRect w h).2.1 < (p.addRect w h).1.width ∧
    1 ≤ (p.addRect w h).2.2 ∧ (p.addRect w h).2.2 < (p.addRect w h).1.height := by
  obtain ⟨pw, ph, px, py⟩ := p
  obtain ⟨h1, h2, h3, h4⟩ := hp
  simp only at h1 h2 h3 h4
  unfold RectanglePack.addRect RectanglePack.atLeastPadding
  simp only [Padding]
  by_cases hov : (px + (w + 1) - pw) * py > (pw - px) * (ph - py) ∨
      (py + (h + 1) - ph) * px > (pw - px) * (ph - py)
  · rw [if_pos hov]
    by_cases hle : pw ≤ ph
    · rw [if_pos hle]
      simp only
      by_cases hb : pw + (w + 1) - (pw + (w + 1)) < 1 + (h + 1) - ph
      · rw [if_pos hb]
        simp only
        have hm : max ph (1 + (h + 1)) = 1 + (h + 1) := max_eq_right (by omega)
        rw [hm]
        omega
      · rw [if_neg hb]
        simp only
        have hm : max (pw + (w + 1)) (pw + (w + 1)) = pw + (w + 1) := max_self _
        rw [hm]
        omega
    · rw [if_neg hle]
      simp only
      by_cases hb : 1 + (w + 1) - pw < ph + (h + 1) - (ph + (h + 1))
      · rw [if_pos hb]
        simp only
        have hm : max (ph + (h + 1)) (ph + (h + 1)) = ph + (h + 1) := max_self _
        rw [hm]
        omega
      · rw [if_neg hb]
        simp only
        have hm : max pw (1 + (w + 1)) = 1 + (w + 1) := max_eq_right (by omega)
        rw [hm]
        omega
  · rw [if_neg hov]
    simp only
    push_neg at hov
    obtain ⟨c1, c2⟩ := hov
    have hx : px < pw := by
      by_contra hge
      push_neg at hge
      have e1 : (px + (w + 1) - pw) * py - (pw - px) * (ph - py) =
          (px - pw) * ph + (w + 1) * py := by ring
      have e2 : 0 ≤ (px - pw) * ph := mul_nonneg (by omega) (by omega)
      have e3 : 0 < (w + 1) * py := mul_pos (by omega) (by omega)
      omega
    have hy : py < ph := by
      by_contra hge
      push_neg at hge
      have e1 : (py + (h + 1) - ph) * px - (pw - px) * (ph - py) =
          (py - ph) * pw + (h + 1) * px := by ring
      have e2 : 0 ≤ (py - ph) * pw := mul_nonneg (by omega) (by omega)
      have e3 : 0 < (h + 1) * px := mul_pos (by omega) (by omega)
      omega
    by_cases hb : px + (w + 1) - pw < py + (h + 1) - ph
    · rw [if_pos hb]
      simp only
      have hm : ph ≤ max ph (py + (h + 1)) := le_max_left _ _
      omega
    · rw [if_neg hb]
      simp only
      have hm : pw ≤ max pw (px + (w + 1)) := le_max_left _ _
      omega

theorem RectanglePack.addRectsLog_inside (calls : List (Int × Int))
    (hcalls : ∀ c ∈ calls, 0 ≤ c.1 ∧ 0 ≤ c.2) :
    ∀ p : RectanglePack, p.atLeastPadding →
      ∀ r ∈ p.addRectsLog calls,
        1 ≤ r.2.1 ∧ r.2.1 < r.1.width ∧ 1 ≤ r.2.2 ∧ r.2.2 < r.1.height := by
  induction calls with
  | nil =>
    intro p _ r hr
    simp [RectanglePack.addRectsLog] at hr
  | cons c rest ih =>
    intro p hp r hr
    obtain ⟨w, h⟩ := c
    have hc := hcalls (w, h) (List.mem_cons_self _ _)
    have hstep := RectanglePack.addRect_point_inside p w h hp hc.1 hc.2
    simp only [RectanglePack.addRectsLog, List.mem_cons] at hr
    rcases hr with h1 | h1
    · rw [h1]
      exact hstep.2
    · exact ih (fun c hc => hcalls c (List.mem_cons_of_mem _ hc)) _ hstep.1 r h1

theorem RectanglePack.addRectsLog_points (calls : List (Int × Int)) :
    ∀ p : RectanglePack,
      (p.addRectsLog calls).map (fun r => r.2) =
        (p.addRects calls).2.map (fun pl => (pl.px, pl.py)) ∧
      (p.addRectsLog calls).length = calls.length := by
  induction calls with
  | nil => intro p; exact ⟨rfl, rfl⟩
  | cons c rest ih =>
    intro p
    obtain ⟨w, h⟩ := c
    simp only [RectanglePack.addRectsLog, RectanglePack.addRects, List.map_cons,
      List.length_cons, (ih _).1, (ih _).2, and_self]

/-- C31: for every sequence of `addRect` calls with non-negative `w` and `h` on a fresh
packer, every call returns a point (px, py) with 1 <= px < width() and 1 <= py < height(),
the extents being those after that call; there is one such point per call and they are the
points of the rectangles placed. -/
theorem addRect_point_inside_extent (calls : List (Int × Int))
    (hcalls : ∀ c ∈ calls, 0 ≤ c.1 ∧ 0 ≤ c.2) :
    (RectanglePack.reset.addRectsLog calls).length = calls.length ∧
    (RectanglePack.reset.addRectsLog calls).map (fun r => r.2) =
      (RectanglePack.reset.addRects calls).2.map (fun pl => (pl.px, pl.py)) ∧
    ∀ r ∈ RectanglePack.reset.addRectsLog calls,
      1 ≤ r.2.1 ∧ r.2.1 < r.1.width ∧ 1 ≤ r.2.2 ∧ r.2.2 < r.1.height :=
  ⟨(RectanglePack.addRectsLog_points calls _).2, (RectanglePack.addRectsLog_points calls _).1,
    RectanglePack.addRectsLog_inside calls hcalls RectanglePack.reset
      ⟨le_refl _, le_refl _, le_refl _, le_refl _⟩⟩

/-- C31 (witness): the four calls addRect(1, 3), addRect(2, 1), addRect(4, 3), addRect(3, 1)
on a fresh packer return the points (1, 1), (3, 1), (3, 3), (1, 5), each inside the extent
after its call. -/
theorem addRect_point_inside_extent_witness :
    (∀ c ∈ [((1 : Int), (3 : Int)), (2, 1), (4, 3), (3, 1)], 0 ≤ c.1 ∧ 0 ≤ c.2) ∧
    (RectanglePack.reset.addRectsLog [(1, 3), (2, 1), (4, 3), (3, 1)]).map (fun r => r.2) =
      [(1, 1), (3, 1), (3, 3), (1, 5)] ∧
    ((RectanglePack.reset.addRectsLog [(1, 3), (2, 1), (4, 3), (3, 1)]).length =
        [((1 : Int), (3 : Int)), (2, 1), (4, 3), (3, 1)].length ∧
      (RectanglePack.reset.addRectsLog [(1, 3), (2, 1), (4, 3), (3, 1)]).map (fun r => r.2) =
        (RectanglePack.reset.addRects [(1, 3), (2, 1), (4, 3), (3, 1)]).2.map
          (fun pl => (pl.px, pl.py)) ∧
      ∀ r ∈ RectanglePack.reset.addRectsLog [(1, 3), (2, 1), (4, 3), (3, 1)],
        1 ≤ r.2.1 ∧ r.2.1 < r.1.width ∧ 1 ≤ r.2.2 ∧ r.2.2 < r.1.height) :=
  ⟨by decide, by decide,
    addRect_point_inside_extent [(1, 3), (2, 1), (4, 3), (3, 1)] (by decide)⟩

/-! ## The batches of `Text::draw` -/

theorem Draw_invariant (atlas : TextAtlas) (colorGlyph : Bool) (done : List AtlasRow)
    (acc : Parameters × List DrawAtlasCall) (n : Nat)
    (h : drawInvariant atlas colorGlyph done acc) :
    drawInvariant atlas colorGlyph done
      ({ pageIndex := n, rows := [] }, Draw acc.2 atlas acc.1 colorGlyph) := by
  obtain ⟨h1, h2, h3⟩ := h
  unfold Draw
  by_cases he : acc.1.rows.isEmpty = true
  · rw [if_pos he]
    have he' : acc.1.rows = [] := List.isEmpty_iff.1 he
    refine ⟨?_, fun row hr => by simp at hr, h3⟩
    rw [he', List.append_nil] at h1
    simpa using h1
  · rw [if_neg he]
    have he' : acc.1.rows ≠ [] := fun hh => he (List.isEmpty_iff.2 hh)
    refine ⟨?_, fun row hr => by simp at hr, ?_⟩
    · simp only [List.flatMap_append, List.flatMap_cons, List.flatMap_nil, List.append_nil]
      exact h1
    · intro call hc
      rcases List.mem_append.1 hc with h4 | h4
      · exact h3 call h4
      · simp only [List.mem_singleton] at h4
        rw [h4]
        exact ⟨he', h2, rfl⟩

theorem drawStyle_invariant (atlas : TextAtlas) (colorGlyph : Bool) (glyph : GlyphHandle)
    (done : List AtlasRow) (acc : Parameters × List DrawAtlasCall) (style : PaintStyle)
    (h : drawInvariant atlas colorGlyph done acc) :
    drawInvariant atlas colorGlyph
      (done ++ ((atlas.getLocator glyph.glyph style).map (drawRow glyph style)).toList)
      (drawStyle atlas colorGlyph glyph acc style) := by
  unfold drawStyle
  cases hloc : atlas.getLocator glyph.glyph style with
  | none => simpa using h
  | some locator =>
    simp only [Option.map_some', Option.toList_some]
    have hrow : (drawRow glyph style locator).fromPage atlas locator.pageIndex :=
      ⟨rfl, hloc, rfl⟩
    by_cases hp : acc.1.pageIndex ≠ locator.pageIndex
    · rw [if_pos hp]
      obtain ⟨h1, h2, h3⟩ := Draw_invariant atlas colorGlyph done acc locator.pageIndex h
      refine ⟨?_, ?_, h3⟩
      · simp only [List.nil_append]
        simp only [List.append_nil] at h1
        rw [h1]
      · intro row hr
        simp only [List.nil_append, List.mem_singleton] at hr
        rw [hr]
        exact hrow
    · rw [if_neg hp]
      push_neg at hp
      obtain ⟨h1, h2, h3⟩ := h
      refine ⟨?_, ?_, h3⟩
      · simp only
        rw [← List.append_assoc, h1]
      · intro row hr
        simp only at hr
        rcases List.mem_append.1 hr with h4 | h4
        · exact h2 row h4
        · simp only [List.mem_singleton] at h4
          rw [h4, hp]
          exact hrow

theorem foldl_drawStyle_invariant (atlas : TextAtlas) (colorGlyph : Bool) (glyph : GlyphHandle)
    (styles : List PaintStyle) :
    ∀ (done : List AtlasRow) (acc : Parameters × List DrawAtlasCall),
      drawInvariant atlas colorGlyph done acc →
      drawInvariant atlas colorGlyph
        (done ++ styles.filterMap
          (fun style => (atlas.getLocator glyph.glyph style).map (drawRow glyph style)))
        (styles.foldl (drawStyle atlas colorGlyph glyph) acc) := by
  induction styles with
  | nil => intro done acc h; simpa using h
  | cons s rest ih =>
    intro done acc h
    rw [List.foldl_cons]
    have h1 := ih _ _ (drawStyle_invariant atlas colorGlyph glyph done acc s h)
    rw [List.append_assoc] at h1
    have h2 : ((atlas.getLocator glyph.glyph s).map (drawRow glyph s)).toList ++
        rest.filterMap
          (fun style => (atlas.getLocator glyph.glyph style).map (drawRow glyph style)) =
        (s :: rest).filterMap
          (fun style => (atlas.getLocator glyph.glyph style).map (drawRow glyph style)) := by
      rw [List.filterMap_cons]
      cases atlas.getLocator glyph.glyph s <;> rfl
    rw [h2] at h1
    exact h1

theorem drawGlyph_invariant (atlas : TextAtlas) (colorGlyph : Bool) (done : List AtlasRow)
    (acc : Parameters × List DrawAtlasCall) (glyph : GlyphHandle)
    (h : drawInvariant atlas colorGlyph done acc) :
    drawInvariant atlas colorGlyph (done ++ drawnRows atlas [glyph] colorGlyph)
      (drawGlyph atlas colorGlyph acc glyph) := by
  unfold drawGlyph drawnRows
  by_cases hv : (glyph.isVisible && (glyph.glyph.getFont.typeface.hasColor == colorGlyph)) = true
  · have hskip : (!glyph.isVisible || (colorGlyph != glyph.glyph.getFont.typeface.hasColor)) =
        false := by
      simp only [Bool.and_eq_true, beq_iff_eq] at hv
      simp [hv.1, hv.2]
    have hf : List.filter (fun g : GlyphHandle =>
        g.isVisible && (g.glyph.getFont.typeface.hasColor == colorGlyph)) [glyph] = [glyph] := by
      simp only [List.filter, hv]
    rw [hskip, hf]
    simp only [Bool.false_eq_true, if_false, List.flatMap_cons,
      List.flatMap_nil, List.append_nil]
    exact foldl_drawStyle_invariant atlas colorGlyph glyph _ done acc h
  · have hskip : (!glyph.isVisible || (colorGlyph != glyph.glyph.getFont.typeface.hasColor)) =
        true := by
      simp only [Bool.and_eq_true, beq_iff_eq, not_and] at hv
      cases hvis : glyph.isVisible with
      | false => simp
      | true =>
        have := hv hvis
        have hne : colorGlyph ≠ glyph.glyph.getFont.typeface.hasColor := fun hh => this hh.symm
        simp [hne]
    have hv' : (glyph.isVisible && (glyph.glyph.getFont.typeface.hasColor == colorGlyph)) =
        false := by
      simpa using hv
    have hf : List.filter (fun g : GlyphHandle =>
        g.isVisible && (g.glyph.getFont.typeface.hasColor == colorGlyph)) [glyph] = [] := by
      simp only [List.filter, hv']
    rw [hskip, hf]
    simpa using h

theorem drawnRows_append (atlas : TextAtlas) (a b : List GlyphHandle) (colorGlyph : Bool) :
    drawnRows atlas (a ++ b) colorGlyph =
      drawnRows atlas a colorGlyph ++ drawnRows atlas b colorGlyph := by
  unfold drawnRows
  rw [List.filter_append, List.flatMap_append]

theorem foldl_drawGlyph_invariant (atlas : TextAtlas) (colorGlyph : Bool)
    (glyphs : List GlyphHandle) :
    ∀ (done : List AtlasRow) (acc : Parameters × List DrawAtlasCall),
      drawInvariant atlas colorGlyph done acc →
      drawInvariant atlas colorGlyph (done ++ drawnRows atlas glyphs colorGlyph)
        (glyphs.foldl (drawGlyph atlas colorGlyph) acc) := by
  induction glyphs with
  | nil =>
    intro done acc h
    simpa [drawnRows] using h
  | cons g rest ih =>
    intro done acc h
    rw [List.foldl_cons]
    have h1 := ih _ _ (drawGlyph_invariant atlas colorGlyph done acc g h)
    rw [List.append_assoc, ← drawnRows_append] at h1
    exact h1

theorem Text.draw_invariant (atlas : TextAtlas) (glyphs : List GlyphHandle)
    (colorGlyph : Bool) :
    (Text.draw atlas glyphs colorGlyph).flatMap DrawAtlasCall.rows =
        drawnRows atlas glyphs colorGlyph ∧
      ∀ call ∈ Text.draw atlas glyphs colorGlyph, call.batchOf atlas colorGlyph := by
  have h0 : drawInvariant atlas colorGlyph [] (({} : Parameters), []) :=
    ⟨rfl, fun row hr => by simp at hr, fun call hc => by simp at hc⟩
  have h1 := foldl_drawGlyph_invariant atlas colorGlyph glyphs [] _ h0
  rw [List.nil_append] at h1
  obtain ⟨h2, _, h4⟩ := Draw_invariant atlas colorGlyph _ _ 0 h1
  simp only [List.append_nil] at h2
  exact ⟨h2, h4⟩

theorem LocatorMap.mem_of_find (m : LocatorMap) (key : BytesKey) (loc : AtlasLocator)
    (h : m.find key = some loc) : (key, loc) ∈ m := by
  unfold LocatorMap.find at h
  cases hf : m.find? (fun e => e.1 == key) with
  | none => rw [hf] at h; simp at h
  | some e =>
    rw [hf] at h
    simp only [Option.map_some', Option.some.injEq] at h
    have hk := List.find?_some hf
    have hm := List.mem_of_find?_eq_some hf
    simp only [beq_iff_eq] at hk
    rw [← hk, ← h]
    exact hm

theorem initPages_stored_pageIndex_lt (glyphs : List AtlasGlyph) (scale : ℚ)
    (maxTextureSize : Int) :
    ∀ x ∈ (Atlas.initPages glyphs scale maxTextureSize).glyphLocators,
      x.2.pageIndex < (Atlas.initPages glyphs scale maxTextureSize).pages.length := by
  intro x hx
  rw [initPages_store] at hx
  rcases storeAll_mem x [] _ hx with h | ⟨e, he, h⟩
  · simp at h
  · rw [h]
    exact initPages_pageIndex_lt glyphs scale maxTextureSize e he

theorem TextAtlas.getLocator_pageIndex_lt (t : TextAtlas) (hb : t.atlasesBuilt) (g : Glyph)
    (style : PaintStyle) (loc : AtlasLocator) (h : t.getLocator g style = some loc) :
    ∃ a, t.atlasFor g = some a ∧ loc.pageIndex < a.pages.length := by
  unfold TextAtlas.getLocator at h
  unfold TextAtlas.atlasFor
  by_cases hc : g.getFont.typeface.hasColor = true
  · rw [if_pos hc] at h ⊢
    cases ha : t.colorAtlas with
    | none => rw [ha] at h; simp at h
    | some a =>
      rw [ha] at h
      simp only at h
      obtain ⟨s, m, hsm⟩ := hb.2 a ha
      refine ⟨a, rfl, ?_⟩
      have hmem := LocatorMap.mem_of_find _ _ _ h
      rw [hsm] at hmem ⊢
      exact initPages_stored_pageIndex_lt _ s m _ hmem
  · rw [if_neg hc] at h ⊢
    cases ha : t.maskAtlas with
    | none => rw [ha] at h; simp at h
    | some a =>
      rw [ha] at h
      simp only at h
      obtain ⟨s, m, hsm⟩ := hb.1 a ha
      refine ⟨a, rfl, ?_⟩
      have hmem := LocatorMap.mem_of_find _ _ _ h
      rw [hsm] at hmem ⊢
      exact initPages_stored_pageIndex_lt _ s m _ hmem

theorem drawnRows_mem (atlas : TextAtlas) (glyphs : List GlyphHandle) (colorGlyph : Bool)
    (row : AtlasRow) (h : row ∈ drawnRows atlas glyphs colorGlyph) :
    ∃ g ∈ glyphs, g.isVisible = true ∧ g.glyph.getFont.typeface.hasColor = colorGlyph ∧
      ∃ style ∈ GetGlyphPaintStyles g.glyph, ∃ loc,
        atlas.getLocator g.glyph style = some loc ∧ row = drawRow g style loc := by
  unfold drawnRows at h
  obtain ⟨g, hg, hrow⟩ := List.mem_flatMap.1 h
  obtain ⟨hg1, hg2⟩ := List.mem_filter.1 hg
  simp only [Bool.and_eq_true, beq_iff_eq] at hg2
  obtain ⟨style, hs, hmap⟩ := List.mem_filterMap.1 hrow
  cases hloc : atlas.getLocator g.glyph style with
  | none => rw [hloc] at hmap; simp at hmap
  | some loc =>
    rw [hloc] at hmap
    simp only [Option.map_some', Option.some.injEq] at hmap
    exact ⟨g, hg1, hg2.1, hg2.2, style, hs, loc, hloc, hmap.symm⟩

/-- C27: the `drawAtlas` calls of `Text::draw(canvas, colorGlyph)`, read in order, carry
exactly the rows of the pairs (visible glyph of the requested color class, style for which the
atlas has a locator), in glyph order and then style order, each once. Every call has at least
one row; each of its rows has the rectangle of a locator that the atlas returns for the row's
glyph and style and that names the page index of the call; and the texture of the call is what
the texture getter of the color class returns for that page index. When the atlases that are
present were built by `initPages`, that texture is the texture of that page of the atlas of the
color class, not a null handle. -/
theorem draw_batches (atlas : TextAtlas) (glyphs : List GlyphHandle) (colorGlyph : Bool) :
    (Text.draw atlas glyphs colorGlyph).flatMap DrawAtlasCall.rows =
      drawnRows atlas glyphs colorGlyph ∧
    (∀ call ∈ Text.draw atlas glyphs colorGlyph,
      call.rows ≠ [] ∧
      (∀ row ∈ call.rows, row.locator.pageIndex = call.pageIndex ∧
        row.rect = row.locator.location ∧
        atlas.getLocator row.glyph.glyph row.style = some row.locator) ∧
      call.texture =
        (if colorGlyph then atlas.getColorAtlasTexture call.pageIndex
         else atlas.getMaskAtlasTexture call.pageIndex)) ∧
    (atlas.atlasesBuilt → ∀ call ∈ Text.draw atlas glyphs colorGlyph,
      call.texture = some { color := colorGlyph, pageIndex := call.pageIndex }) := by
  obtain ⟨h1, h2⟩ := Text.draw_invariant atlas glyphs colorGlyph
  refine ⟨h1, ?_, ?_⟩
  · intro call hc
    obtain ⟨h3, h4, h5⟩ := h2 call hc
    refine ⟨h3, ?_, h5⟩
    intro row hr
    obtain ⟨h6, h7, h8⟩ := h4 row hr
    refine ⟨h6, ?_, h7⟩
    rw [h8]
    rfl
  · intro hb call hc
    obtain ⟨h3, h4, h5⟩ := h2 call hc
    obtain ⟨row, hr⟩ := List.exists_mem_of_ne_nil _ h3
    obtain ⟨h6, h7, _⟩ := h4 row hr
    have hrow : row ∈ drawnRows atlas glyphs colorGlyph := by
      rw [← h1]
      exact List.mem_flatMap.2 ⟨call, hc, hr⟩
    obtain ⟨g, _, _, hcol, style, _, loc, _, hrg⟩ := drawnRows_mem atlas glyphs colorGlyph row hrow
    have hg : row.glyph = g := by rw [hrg]; rfl
    obtain ⟨a, ha, hlt⟩ := TextAtlas.getLocator_pageIndex_lt atlas hb _ _ _ h7
    rw [h6] at hlt
    unfold TextAtlas.atlasFor at ha
    rw [hg, hcol] at ha
    rw [h5]
    cases colorGlyph with
    | true =>
      simp only [if_true] at ha ⊢
      unfold TextAtlas.getColorAtlasTexture
      rw [ha]
      simp only [gt_iff_lt, hlt, if_true]
    | false =>
      simp only [Bool.false_eq_true, if_false] at ha ⊢
      unfold TextAtlas.getMaskAtlasTexture
      rw [ha]
      simp only [gt_iff_lt, hlt, if_true]

/-! ## The drawn rectangle and the atlas cell -/

/-- C30 (failing input): the horizontal, visible glyph "A" with bounds (0, 0, 4, 5), style
Stroke and stroke width 1.5, atlas generated at scale 1. `initPages` rasterises the glyph
space rectangle from (-2, -2) to (6, 7) (the bounds outset by ceil(1.5) = 2) into the cell
with the locator (1, 1, 9, 10), while `Text::draw` maps that locator onto the rectangle from
(-1.5, -1.5) to (5.5, 6.5) (the bounds outset by 1.5), with the scale factors 7/8 and 8/9
instead of 1. Likewise the fill glyph with bounds (0, 0, 4.5, 5) is rasterised into a cell of
4 x 5 and drawn back onto 4.5 x 5, with the scale factor 9/8. -/
theorem draw_rect_differs_from_cell :
    exStrokedHandle.isVisible = true ∧ exStrokedHandle.layout.extraMatrix = Matrix.I ∧
    exStrokedAtlas.getLocator exStrokedHandle.glyph PaintStyle.Stroke =
      some ⟨0, ⟨1, 1, 9, 10⟩⟩ ∧
    (Atlas.placements exStrokedAtlas.maskGlyphs 1 1024).map Placement.rasterRect =
      [⟨-2, -2, 6, 7⟩] ∧
    drawnRect exStrokedHandle PaintStyle.Stroke ⟨0, ⟨1, 1, 9, 10⟩⟩ =
      ⟨-3 / 2, -3 / 2, 11 / 2, 13 / 2⟩ ∧
    (localMatrix exStrokedHandle PaintStyle.Stroke ⟨0, ⟨1, 1, 9, 10⟩⟩).scaleX = 7 / 8 ∧
    (localMatrix exStrokedHandle PaintStyle.Stroke ⟨0, ⟨1, 1, 9, 10⟩⟩).scaleY = 8 / 9 ∧
    exWideHandle.isVisible = true ∧ exWideHandle.layout.extraMatrix = Matrix.I ∧
    exWideAtlas.getLocator exWideHandle.glyph PaintStyle.Fill = some ⟨0, ⟨1, 1, 5, 6⟩⟩ ∧
    (Atlas.placements exWideAtlas.maskGlyphs 1 1024).map Placement.rasterRect =
      [⟨0, 0, 4, 5⟩] ∧
    drawnRect exWideHandle PaintStyle.Fill ⟨0, ⟨1, 1, 5, 6⟩⟩ = ⟨0, 0, 9 / 2, 5⟩ ∧
    (localMatrix exWideHandle PaintStyle.Fill ⟨0, ⟨1, 1, 5, 6⟩⟩).scaleX = 9 / 8 := by
  decide!

/-! ## The glyph lists handed to `std::sort` -/

theorem TextAtlas.generateIfNeeded_new_getLocator
    (stdSort : (AtlasGlyph → AtlasGlyph → Bool) → List AtlasGlyph → List AtlasGlyph)
    (docs : List GlyphDocument) (scale : ℚ) (maxTextureSize : Int) (glyph : Glyph)
    (style : PaintStyle) :
    (((TextAtlas.new stdSort docs).generateIfNeeded scale maxTextureSize).getLocator glyph
        style).isSome = true ↔
      ComputeAtlasKey glyph style [] ∈
        (if glyph.getFont.typeface.hasColor then (TextAtlas.new stdSort docs).colorGlyphs
         else (TextAtlas.new stdSort docs).maskGlyphs).map atlasKeyOf := by
  have hfind : ∀ l : List AtlasGlyph,
      (match Atlas.Make scale l maxTextureSize with
        | some atlas => atlas.getLocator glyph style
        | none => none).isSome = true ↔ ComputeAtlasKey glyph style [] ∈ l.map atlasKeyOf := by
    intro l
    unfold Atlas.Make
    cases l with
    | nil => simp
    | cons a rest =>
      simp only [List.isEmpty_cons, Bool.false_eq_true, if_false]
      unfold Atlas.getLocator
      rw [← initPages_locatorKeys (a :: rest) scale maxTextureSize]
      constructor
      · intro h
        by_contra hk
        rw [LocatorMap.find_none _ _ hk] at h
        simp at h
      · intro hk
        obtain ⟨loc, hloc, _⟩ := LocatorMap.find_isSome _ _ hk
        rw [hloc]
        rfl
  have hm : (TextAtlas.new stdSort docs).maskAtlas = none := rfl
  have hc : (TextAtlas.new stdSort docs).colorAtlas = none := rfl
  unfold TextAtlas.getLocator TextAtlas.generateIfNeeded
  simp only [hm, hc, true_or, if_true]
  by_cases hcol : glyph.getFont.typeface.hasColor = true
  · rw [if_pos hcol, if_pos hcol]
    exact hfind _
  · rw [if_neg hcol, if_neg hcol]
    exact hfind _

/-- C6 (failing input): for one `Fill` document with seventeen distinct glyphs of one
typeface without color, the one at index 8 with bounds 2 x 2 and the others with bounds 1 x 3
and 3 x 1 in turn, the loops of `initAtlasGlyphs` collect seventeen AtlasGlyphs with pairwise
distinct atlas keys, as many as the documents request, and whatever `std::sort` makes of that
list becomes `maskGlyphs`. On that list the comparator of `SortAtlasGlyphs` orders the 2 x 2
glyph before each of the sixteen others and each of them before it, so it is not a strict
weak ordering there and `std::sort` is called outside its contract. -/
theorem initAtlasGlyphs_sort_outside_contract :
    (collectAtlasGlyphs [exDocSeventeen] {}).maskGlyphs = exSeventeen.map AtlasGlyph.fill ∧
    (collectAtlasGlyphs [exDocSeventeen] {}).colorGlyphs = [] ∧
    (collectAtlasGlyphs [exDocSeventeen] {}).maskGlyphs.length = 17 ∧
    ((collectAtlasGlyphs [exDocSeventeen] {}).maskGlyphs.map atlasKeyOf).Nodup ∧
    ((requestedGlyphs [exDocSeventeen]).map atlasKeyOf).dedup.length = 17 ∧
    (∀ stdSort : (AtlasGlyph → AtlasGlyph → Bool) → List AtlasGlyph → List AtlasGlyph,
      (TextAtlas.new stdSort [exDocSeventeen]).maskGlyphs =
        stdSort atlasGlyphOrder (exSeventeen.map AtlasGlyph.fill)) ∧
    (exSeventeen.map AtlasGlyph.fill)[8]? = some exSquare ∧
    (∀ g ∈ exSeventeen.map AtlasGlyph.fill, g ≠ exSquare →
      atlasGlyphOrder g exSquare = true ∧ atlasGlyphOrder exSquare g = true) := by
  have h1 : (collectAtlasGlyphs [exDocSeventeen] {}).maskGlyphs =
      exSeventeen.map AtlasGlyph.fill := by decide!
  refine ⟨h1, by decide!, by decide!, by decide!, by decide!, ?_, by decide!, by decide!⟩
  intro stdSort
  show SortAtlasGlyphs stdSort (collectAtlasGlyphs [exDocSeventeen] {}).maskGlyphs = _
  rw [h1]
  rfl

/-- C7 (failing input): after the constructor and one `generateIfNeeded`, `getLocator` returns
true for a glyph and a style exactly when the list that `std::sort` left for the glyph's color
class holds an AtlasGlyph with the lookup key; so a glyph that the sort loses has no locator.
For the document of seventeen glyphs with bounds 1 x 3, 3 x 1 and one 2 x 2, the list handed
to `std::sort` holds the lookup key of every glyph of the document, and the comparator is not
asymmetric on it: the first glyph (1 x 3) and the 2 x 2 glyph are each ordered before the
other. -/
theorem getLocator_depends_on_sort :
    (∀ (stdSort : (AtlasGlyph → AtlasGlyph → Bool) → List AtlasGlyph → List AtlasGlyph)
      (docs : List GlyphDocument) (scale : ℚ) (maxTextureSize : Int) (glyph : Glyph)
      (style : PaintStyle),
      (((TextAtlas.new stdSort docs).generateIfNeeded scale maxTextureSize).getLocator glyph
          style).isSome = true ↔
        ComputeAtlasKey glyph style [] ∈
          (if glyph.getFont.typeface.hasColor then (TextAtlas.new stdSort docs).colorGlyphs
           else (TextAtlas.new stdSort docs).maskGlyphs).map atlasKeyOf) ∧
    (∀ g ∈ exDocSeventeen.glyphs,
      ∀ style ∈ GetGlyphPaintStyles (Glyph.make g exDocSeventeen.paint),
        ComputeAtlasKey (Glyph.make g exDocSeventeen.paint) style [] ∈
          (collectAtlasGlyphs [exDocSeventeen] {}).maskGlyphs.map atlasKeyOf) ∧
    (∃ a ∈ (collectAtlasGlyphs [exDocSeventeen] {}).maskGlyphs,
      ∃ b ∈ (collectAtlasGlyphs [exDocSeventeen] {}).maskGlyphs,
        a.bounds = ⟨0, 0, 1, 3⟩ ∧ b.bounds = ⟨0, 0, 2, 2⟩ ∧
        atlasGlyphOrder a b = true ∧ atlasGlyphOrder b a = true) := by
  refine ⟨TextAtlas.generateIfNeeded_new_getLocator, by decide!, ?_⟩
  exact ⟨exSlimA, by decide!, exSquare, by decide!, by decide!, by decide!, by decide!,
    by decide!⟩

/-- C8 (failing input): for every set of documents the loops of `initAtlasGlyphs` collect
AtlasGlyphs without color in `maskGlyphs` and AtlasGlyphs with color in `colorGlyphs`, and the
two lists of the TextAtlas are what `SortAtlasGlyphs` makes of the collected ones; the split
of the final lists therefore rests on `std::sort` returning only what it was given. For the
document of seventeen glyphs the comparator is not transitive on the collected list: the
first glyph (1 x 3) is ordered before the 2 x 2 glyph and the 2 x 2 glyph before the third
glyph (1 x 3 as well), but the first glyph is not ordered before the third. -/
theorem initAtlasGlyphs_split_before_sort :
    (∀ docs : List GlyphDocument,
      (∀ a ∈ (collectAtlasGlyphs docs {}).maskGlyphs, a.font.typeface.hasColor = false) ∧
      (∀ a ∈ (collectAtlasGlyphs docs {}).colorGlyphs, a.font.typeface.hasColor = true)) ∧
    (∀ (stdSort : (AtlasGlyph → AtlasGlyph → Bool) → List AtlasGlyph → List AtlasGlyph)
      (docs : List GlyphDocument),
      (TextAtlas.new stdSort docs).maskGlyphs =
          SortAtlasGlyphs stdSort (collectAtlasGlyphs docs {}).maskGlyphs ∧
        (TextAtlas.new stdSort docs).colorGlyphs =
          SortAtlasGlyphs stdSort (collectAtlasGlyphs docs {}).colorGlyphs) ∧
    (∃ a ∈ (collectAtlasGlyphs [exDocSeventeen] {}).maskGlyphs,
      ∃ b ∈ (collectAtlasGlyphs [exDocSeventeen] {}).maskGlyphs,
        ∃ c ∈ (collectAtlasGlyphs [exDocSeventeen] {}).maskGlyphs,
          a.bounds = ⟨0, 0, 1, 3⟩ ∧ b.bounds = ⟨0, 0, 2, 2⟩ ∧ c.bounds = ⟨0, 0, 1, 3⟩ ∧
          a ≠ c ∧ atlasGlyphOrder a b = true ∧ atlasGlyphOrder b c = true ∧
          atlasGlyphOrder a c = false) := by
  refine ⟨?_, fun stdSort docs => ⟨rfl, rfl⟩, ?_⟩
  · intro docs
    rw [collectAtlasGlyphs_eq_foldl]
    exact foldl_pushGlyph_colorSplit (requestedGlyphs docs) {} GlyphLists.empty_colorSplit
  · exact ⟨exSlimA, by decide!, exSquare, by decide!, exSlimC, by decide!, by decide!,
      by decide!, by decide!, by decide!, by decide!, by decide!, by decide!⟩

end pag
